import Mathlib

/-!
# obj_renderer: a shallow embedding of the wireframe rendering core

The C++ sources (`basic_color.h`, `basic_math.h`, `shapes_2D.h`, `shapes_3D.h`,
`basic_obj_reader.h`, `drawing_utils.h`) are translated function by function.

Conventions of the embedding

* A C++ `double` is an element of a linearly ordered field `K` with a floor
  function (`ℚ` for evaluation, `ℝ` for the theorems that need `sqrt`, `sin`
  and `cos`).  Rounding error is not modelled.
* The functions of `<math.h>` that the sources call (`sqrt`, `sin`, `cos`, the
  constant `M_PI`) are passed as a record `Libm K`; `realLibm` is the record of
  the real functions.
* Where the sources divide by a quantity that can be zero and go on computing
  with the quotient, the quotient is a `Dbl K`: a finite value, a signed
  infinity or NaN, with the IEEE-754 rules for `/`, `*`, `+`, `abs` and `<`.
* A C++ `int` is an `Int`; signed overflow is undefined behaviour in C++ and
  is outside the embedding.
* Loops over a `double` counter carry a fuel argument and return `none` when
  the fuel runs out.
* An access `v[i]` to a `std::vector` outside its range returns `none`.
-/

set_option autoImplicit false

namespace ObjRenderer

/-! ## Doubles whose value may be infinite or NaN -/

/-- Value of a `double` expression that may have left the finite range:
`fin x` is the finite value `x`, `inf false` is `+inf`, `inf true` is `-inf`. -/
inductive Dbl (K : Type) where
  | fin (x : K)
  | inf (negative : Bool)
  | nan
deriving DecidableEq, Repr

namespace Dbl

variable {K : Type} [LinearOrderedField K]

/-- IEEE-754 division (zero divisors are taken as `+0.0`). -/
def div : Dbl K → Dbl K → Dbl K
  | fin a, fin b =>
      if b = 0 then (if a = 0 then nan else inf (decide (a < 0))) else fin (a / b)
  | fin _, inf _ => fin 0
  | inf s, fin b => inf (xor s (decide (b < 0)))
  | inf _, inf _ => nan
  | nan, _ => nan
  | _, nan => nan

/-- IEEE-754 multiplication. -/
def mul : Dbl K → Dbl K → Dbl K
  | fin a, fin b => fin (a * b)
  | fin a, inf s => if a = 0 then nan else inf (xor s (decide (a < 0)))
  | inf s, fin b => if b = 0 then nan else inf (xor s (decide (b < 0)))
  | inf s, inf t => inf (xor s t)
  | nan, _ => nan
  | _, nan => nan

/-- IEEE-754 addition. -/
def add : Dbl K → Dbl K → Dbl K
  | fin a, fin b => fin (a + b)
  | fin _, inf s => inf s
  | inf s, fin _ => inf s
  | inf s, inf t => if s = t then inf s else nan
  | nan, _ => nan
  | _, nan => nan

/-- The function `abs` on doubles. -/
def abs : Dbl K → Dbl K
  | fin a => fin |a|
  | inf _ => inf false
  | nan => nan

/-- The comparison `<` on doubles; every comparison with NaN is false. -/
def lt : Dbl K → Dbl K → Bool
  | fin a, fin b => decide (a < b)
  | fin _, inf s => !s
  | inf s, fin _ => s
  | inf s, inf t => s && !t
  | nan, _ => false
  | _, nan => false

/-- One step of `std::min` over an initializer list: the running minimum is
replaced only when the next element compares smaller. -/
def min_step (smallest next : Dbl K) : Dbl K :=
  if lt next smallest then next else smallest

/-- The function `std::min` over an initializer list with a first element. -/
def min_list (first : Dbl K) (rest : List (Dbl K)) : Dbl K :=
  rest.foldl min_step first

end Dbl

/-! ## The functions taken from `<math.h>` -/

/-- The functions of `<math.h>` used by the sources. -/
structure Libm (K : Type) where
  sqrt : K → K
  sin : K → K
  cos : K → K
  pi : K

/-- The real square root, sine, cosine and pi. -/
noncomputable def realLibm : Libm ℝ :=
  { sqrt := Real.sqrt, sin := Real.sin, cos := Real.cos, pi := Real.pi }

/-- The conversion `(int)x` of a double: truncation towards zero. -/
def double_to_int {K : Type} [LinearOrderedField K] [FloorRing K] (x : K) : Int :=
  if 0 ≤ x then ⌊x⌋ else ⌈x⌉

/-! ## basic_color.h -/

/-- The class `BasicColor`: four double channels. -/
structure BasicColor (K : Type) where
  r : K
  g : K
  b : K
  a : K
deriving DecidableEq, Repr

namespace BasicColor

variable {K : Type} [LinearOrderedField K]

/-- The three-argument constructor: alpha is 1. -/
def rgb (input_r input_g input_b : K) : BasicColor K :=
  { r := input_r, g := input_g, b := input_b, a := 1 }

/-- The operator `+` of `BasicColor`. -/
def op_add (self right : BasicColor K) : BasicColor K :=
  { r := self.r + right.r, g := self.g + right.g, b := self.b + right.b, a := self.a + right.a }

/-- The operator `-` of `BasicColor`. -/
def op_sub (self right : BasicColor K) : BasicColor K :=
  { r := self.r - right.r, g := self.g - right.g, b := self.b - right.b, a := self.a - right.a }

/-- The operator `*` of `BasicColor`. -/
def op_mul (self right : BasicColor K) : BasicColor K :=
  { r := if self.r < 0 ∧ right.r < 0 then self.r else self.r * right.r
    g := if self.g < 0 ∧ right.g < 0 then self.g else self.g * right.g
    b := if self.b < 0 ∧ right.b < 0 then self.b else self.b * right.b
    a := if self.a < 0 ∧ right.a < 0 then self.a else self.a * right.a }

/-- Blend mode `plus`. -/
def plus (self right : BasicColor K) : BasicColor K := op_add self right

/-- Blend mode `minus`. -/
def minus (self right : BasicColor K) : BasicColor K := op_sub self right

/-- Blend mode `multiply`. -/
def multiply (self right : BasicColor K) : BasicColor K := op_mul self right

/-- Blend mode `over`. -/
def over (self right : BasicColor K) : BasicColor K :=
  { r := self.r + (right.r * (1 - self.a))
    g := self.g + (right.g * (1 - self.a))
    b := self.b + (right.b * (1 - self.a))
    a := self.a + (right.a * (1 - self.a)) }

/-- Blend mode `unpremultiplied_over`. -/
def unpremultiplied_over (self right : BasicColor K) : BasicColor K :=
  { r := (self.r * self.a) + (right.r * (1 - self.a))
    g := (self.g * self.a) + (right.g * (1 - self.a))
    b := (self.b * self.a) + (right.b * (1 - self.a))
    a := max self.a right.a }

/-- Identifier of the blend mode `plus`. -/
def plus_ID : Int := 0
/-- Identifier of the blend mode `minus`. -/
def minus_ID : Int := 1
/-- Identifier of the blend mode `multiply`. -/
def multiply_ID : Int := 2
/-- Identifier of the blend mode `over`. -/
def over_ID : Int := 3
/-- Identifier of the blend mode `unpremultiplied_over`. -/
def unpremultiplied_over_ID : Int := 4

variable [FloorRing K]

/-- Red channel as an integer in 0..255. -/
def r255 (c : BasicColor K) : Int :=
  if c.r < 0 then 0 else if c.r > 1 then 255 else double_to_int (c.r * 255)
/-- Green channel as an integer in 0..255. -/
def g255 (c : BasicColor K) : Int :=
  if c.g < 0 then 0 else if c.g > 1 then 255 else double_to_int (c.g * 255)
/-- Blue channel as an integer in 0..255. -/
def b255 (c : BasicColor K) : Int :=
  if c.b < 0 then 0 else if c.b > 1 then 255 else double_to_int (c.b * 255)
/-- Alpha channel as an integer in 0..255. -/
def a255 (c : BasicColor K) : Int :=
  if c.a < 0 then 0 else if c.a > 1 then 255 else double_to_int (c.a * 255)

end BasicColor

/-- The function `blend_two_colors`. -/
def blend_two_colors {K : Type} [LinearOrderedField K]
    (A : BasicColor K) (blend_type_ID : Int) (B : BasicColor K) : BasicColor K :=
  if blend_type_ID = BasicColor.plus_ID then A.plus B
  else if blend_type_ID = BasicColor.minus_ID then A.minus B
  else if blend_type_ID = BasicColor.multiply_ID then A.multiply B
  else if blend_type_ID = BasicColor.over_ID then A.over B
  else if blend_type_ID = BasicColor.unpremultiplied_over_ID then A.unpremultiplied_over B
  else A.plus B

/-! ## basic_math.h -/

section Trigonometry

variable {K : Type} [LinearOrderedField K]

/-- The function `rad_sin`: sine of an angle given in degrees. -/
def rad_sin (m : Libm K) (a : K) : K := m.sin (a * m.pi / 180)

/-- The function `rad_cos`: cosine of an angle given in degrees. -/
def rad_cos (m : Libm K) (a : K) : K := m.cos (a * m.pi / 180)

end Trigonometry

/-- The class `Vect3`. -/
structure Vect3 (K : Type) where
  x : K
  y : K
  z : K
deriving DecidableEq, Repr

namespace Vect3

variable {K : Type} [LinearOrderedField K]

/-- The constant `Vect3::XAxis`. -/
def XAxis : Vect3 K := { x := 1, y := 0, z := 0 }
/-- The constant `Vect3::YAxis`. -/
def YAxis : Vect3 K := { x := 0, y := 1, z := 0 }
/-- The constant `Vect3::ZAxis`. -/
def ZAxis : Vect3 K := { x := 0, y := 0, z := 1 }

/-- The operator `+` of `Vect3`. -/
def op_add (self right : Vect3 K) : Vect3 K :=
  { x := self.x + right.x, y := self.y + right.y, z := self.z + right.z }

/-- The operator `*` of `Vect3` with a scalar factor. -/
def op_mul (self : Vect3 K) (factor : K) : Vect3 K :=
  { x := factor * self.x, y := factor * self.y, z := factor * self.z }

/-- The method `get_magnitude`. -/
def get_magnitude (m : Libm K) (v : Vect3 K) : K :=
  m.sqrt (v.x * v.x + v.y * v.y + v.z * v.z)

/-- The method `normalize`, as written in the source: when the magnitude is
not 1, `x` is divided by it once, `y` twice and `z` is left as it is.  (For the
zero vector the source divides 0 by 0; the quotient is taken in `K`.) -/
def normalize (m : Libm K) (v : Vect3 K) : Vect3 K :=
  let mag := get_magnitude m v
  if mag ≠ 1 then { x := v.x / mag, y := v.y / mag / mag, z := v.z } else v

/-- The method `get_inverted`. -/
def get_inverted (v : Vect3 K) : Vect3 K :=
  { x := v.x * (-1), y := v.y * (-1), z := v.z * (-1) }

/-- The method `get_distance`. -/
def get_distance (m : Libm K) (self other : Vect3 K) : K :=
  m.sqrt ((other.x - self.x) ^ 2 + (other.y - self.y) ^ 2 + (other.z - self.z) ^ 2)

/-- The method `get_midpoint`. -/
def get_midpoint (self other : Vect3 K) : Vect3 K :=
  { x := (other.x + self.x) / 2, y := (other.y + self.y) / 2, z := (other.z + self.z) / 2 }

end Vect3

/-- The class `Matrix3by3`. -/
structure Matrix3by3 (K : Type) where
  a00 : K
  a01 : K
  a02 : K
  a10 : K
  a11 : K
  a12 : K
  a20 : K
  a21 : K
  a22 : K
deriving DecidableEq, Repr

namespace Matrix3by3

variable {K : Type} [LinearOrderedField K]

/-- The constant `Matrix3by3::IdentityMatrix`. -/
def IdentityMatrix : Matrix3by3 K :=
  { a00 := 1, a01 := 0, a02 := 0, a10 := 0, a11 := 1, a12 := 0, a20 := 0, a21 := 0, a22 := 1 }

/-- The function `Matrix3by3::RotationMatrix`. -/
def RotationMatrix (m : Libm K) (angle : K) (axis : Vect3 K) : Matrix3by3 K :=
  let cosO := rad_cos m angle
  let sinO := rad_sin m angle
  let axis := axis.normalize m
  let ux := axis.x
  let uy := axis.y
  let uz := axis.z
  { a00 := cosO + ux * ux * (1 - cosO)
    a01 := ux * uy * (1 - cosO) - uz * sinO
    a02 := ux * uz * (1 - cosO) + uy * sinO
    a10 := uy * ux * (1 - cosO) + uz * sinO
    a11 := cosO + uy * uy * (1 - cosO)
    a12 := uy * uz * (1 - cosO) - ux * sinO
    a20 := uz * ux * (1 - cosO) - uy * sinO
    a21 := uz * uy * (1 - cosO) + ux * sinO
    a22 := cosO + uz * uz * (1 - cosO) }

/-- The method `row_0`. -/
def row_0 (M : Matrix3by3 K) : Vect3 K := { x := M.a00, y := M.a01, z := M.a02 }
/-- The method `row_1`. -/
def row_1 (M : Matrix3by3 K) : Vect3 K := { x := M.a10, y := M.a11, z := M.a12 }
/-- The method `row_2`. -/
def row_2 (M : Matrix3by3 K) : Vect3 K := { x := M.a20, y := M.a21, z := M.a22 }

end Matrix3by3

section Operations

variable {K : Type} [LinearOrderedField K]

/-- The function `dot_prod`. -/
def dot_prod (v1 v2 : Vect3 K) : K := v1.x * v2.x + v1.y * v2.y + v1.z * v2.z

/-- The function `mult_matrix_by_vector3`. -/
def mult_matrix_by_vector3 (M : Matrix3by3 K) (v : Vect3 K) : Vect3 K :=
  { x := dot_prod M.row_0 v, y := dot_prod M.row_1 v, z := dot_prod M.row_2 v }

end Operations

/-- The class `Vect2`. -/
structure Vect2 (K : Type) where
  x : K
  y : K
deriving DecidableEq, Repr

namespace Vect2

variable {K : Type} [LinearOrderedField K]

/-- The operator `+` of `Vect2`. -/
def op_add (self right : Vect2 K) : Vect2 K :=
  { x := self.x + right.x, y := self.y + right.y }

/-- The method `get_distance`. -/
def get_distance (m : Libm K) (self other : Vect2 K) : K :=
  m.sqrt ((other.x - self.x) ^ 2 + (other.y - self.y) ^ 2)

end Vect2

/-! ## shapes_3D.h -/

/-- The class `Edge`. -/
structure Edge (K : Type) where
  origin_vtx : Vect3 K
  end_vtx : Vect3 K
deriving DecidableEq, Repr

namespace Edge

variable {K : Type} [LinearOrderedField K]

/-- The constant `DIST_THRESHOLD` of the operator `==`. -/
def DIST_THRESHOLD : K := 0.000001

/-- The operator `==` of `Edge`. -/
def op_eq (m : Libm K) (self right : Edge K) : Bool :=
  let d1 := self.origin_vtx.get_distance m right.origin_vtx
  let d2 := self.end_vtx.get_distance m right.end_vtx
  let d3 := self.origin_vtx.get_distance m right.end_vtx
  let d4 := self.end_vtx.get_distance m right.origin_vtx
  decide ((d1 < DIST_THRESHOLD ∧ d2 < DIST_THRESHOLD) ∨ (d3 < DIST_THRESHOLD ∧ d4 < DIST_THRESHOLD))

/-- The method `get_lenght`. -/
def get_lenght (m : Libm K) (e : Edge K) : K := e.origin_vtx.get_distance m e.end_vtx

/-- The operator `<` of `Edge`. -/
def op_lt (m : Libm K) (self right : Edge K) : Bool :=
  decide (get_lenght m self < get_lenght m right)

/-- The method `move`. -/
def move (e : Edge K) (displacement : Vect3 K) : Edge K :=
  { origin_vtx := e.origin_vtx.op_add displacement, end_vtx := e.end_vtx.op_add displacement }

/-- The method `rotate_around_axis`. -/
def rotate_around_axis (m : Libm K) (e : Edge K) (angle : K) (axis : Vect3 K) : Edge K :=
  let rotation_matrix := Matrix3by3.RotationMatrix m angle axis
  { origin_vtx := mult_matrix_by_vector3 rotation_matrix e.origin_vtx
    end_vtx := mult_matrix_by_vector3 rotation_matrix e.end_vtx }

end Edge

/-- The class `Face`: an ordered list of vertices. -/
structure Face (K : Type) where
  vertices : List (Vect3 K)
deriving DecidableEq, Repr

namespace Face

variable {K : Type} [LinearOrderedField K]

/-- The four-vertex constructor (quads). -/
def quad (v0 v1 v2 v3 : Vect3 K) : Face K := { vertices := [v0, v1, v2, v3] }

/-- The method `count_vertices`. -/
def count_vertices (f : Face K) : Int := f.vertices.length

/-- The method `move`. -/
def move (f : Face K) (displacement : Vect3 K) : Face K :=
  { vertices := f.vertices.map (fun v => v.op_add displacement) }

/-- The method `rotate_around_axis`. -/
def rotate_around_axis (m : Libm K) (f : Face K) (angle : K) (axis : Vect3 K) : Face K :=
  { vertices := f.vertices.map
      (fun v => mult_matrix_by_vector3 (Matrix3by3.RotationMatrix m angle axis) v) }

end Face

/-- The class `Cube` (and its subclass `BoundingBox`, which adds no field). -/
structure Cube (K : Type) where
  top_left : Vect3 K
  bottom_right : Vect3 K
  faces : List (Face K)
deriving DecidableEq, Repr

namespace Cube

variable {K : Type} [LinearOrderedField K]

/-- The method `create_faces`: six quads are appended to the face list. -/
def create_faces (c : Cube K) : Cube K :=
  let top_left := c.top_left
  let bottom_right := c.bottom_right
  let vert0 := top_left
  let vert1 : Vect3 K := { x := bottom_right.x, y := top_left.y, z := top_left.z }
  let vert2 : Vect3 K := { x := bottom_right.x, y := bottom_right.y, z := top_left.z }
  let vert3 : Vect3 K := { x := top_left.x, y := bottom_right.y, z := top_left.z }
  let vert4 : Vect3 K := { x := top_left.x, y := top_left.y, z := bottom_right.z }
  let vert5 : Vect3 K := { x := bottom_right.x, y := top_left.y, z := bottom_right.z }
  let vert6 := bottom_right
  let vert7 : Vect3 K := { x := top_left.x, y := bottom_right.y, z := bottom_right.z }
  { c with faces := c.faces ++
      [Face.quad vert0 vert1 vert2 vert3, Face.quad vert4 vert5 vert6 vert7,
       Face.quad vert0 vert4 vert5 vert1, Face.quad vert3 vert7 vert6 vert2,
       Face.quad vert7 vert4 vert0 vert3, Face.quad vert6 vert5 vert1 vert2] }

/-- The constructor of `Cube`. -/
def create (input_top_left input_bottom_right : Vect3 K) : Cube K :=
  create_faces { top_left := input_top_left, bottom_right := input_bottom_right, faces := [] }

/-- The method `set_top_left`. -/
def set_top_left (c : Cube K) (new_top_left : Vect3 K) : Cube K :=
  { c with top_left := new_top_left }

/-- The method `set_bottom_right`. -/
def set_bottom_right (c : Cube K) (new_bottom_right : Vect3 K) : Cube K :=
  { c with bottom_right := new_bottom_right }

/-- The method `move`. -/
def move (c : Cube K) (displacement : Vect3 K) : Cube K :=
  let c1 : Cube K := { c with faces := c.faces.map (fun f => f.move displacement) }
  let c2 := c1.set_top_left (c1.top_left.op_add displacement)
  c2.set_bottom_right (c2.bottom_right.op_add displacement)

/-- The method `rotate_around_axis`. -/
def rotate_around_axis (m : Libm K) (c : Cube K) (angle : K) (axis : Vect3 K) : Cube K :=
  { c with faces := c.faces.map (fun q => q.rotate_around_axis m angle axis) }

/-- The method `get_center`. -/
def get_center (c : Cube K) : Vect3 K := c.top_left.get_midpoint c.bottom_right

/-- The constructor of `BoundingBox`: a cube at the origin whose faces are cleared. -/
def BoundingBox : Cube K :=
  { (create { x := 0, y := 0, z := 0 } { x := 0, y := 0, z := 0 } : Cube K) with faces := [] }

/-- The method `BoundingBox::expand`. -/
def expand (c : Cube K) (new_point : Vect3 K) : Cube K :=
  let p_x := new_point.x
  let p_y := new_point.y
  let p_z := new_point.z
  let tl := c.top_left
  let br := c.bottom_right
  let tl := if p_x < tl.x then { tl with x := p_x } else tl
  let br := if p_x > br.x then { br with x := p_x } else br
  let tl := if p_y > tl.y then { tl with y := p_y } else tl
  let br := if p_y < br.y then { br with y := p_y } else br
  let tl := if p_z > tl.z then { tl with z := p_z } else tl
  let br := if p_z < br.z then { br with z := p_z } else br
  { c with top_left := tl, bottom_right := br }

end Cube

/-! ## basic_obj_reader.h -/

/-- The class `ObjReader` after `read_from_file`: the geometry, the edge pool and
the two counters.  Parsing the file itself is not part of the embedding. -/
structure ObjReader (K : Type) where
  faces : List (Face K)
  bounding_box : Cube K
  edge_pool : List (Edge K)
  face_count : Int
  vertex_count : Int
deriving DecidableEq, Repr

section StdAlgorithms

variable {K : Type} [LinearOrderedField K]

/-- Insertion of one edge into a list sorted by the operator `<` of `Edge`:
the edge moves towards the front while it compares smaller. -/
def sort_insert (m : Libm K) (e : Edge K) : List (Edge K) → List (Edge K)
  | [] => [e]
  | y :: ys => if Edge.op_lt m e y then e :: y :: ys else y :: sort_insert m e ys

/-- The call `std::sort(begin, end)` on edges, as the insertion sort that the
standard libraries run on short ranges; elements that compare equivalent keep
their order. -/
def std_sort (m : Libm K) (l : List (Edge K)) : List (Edge K) :=
  l.foldl (fun acc e => sort_insert m e acc) []

/-- The loop of `std::unique`: an element is dropped when the last element
kept compares `==` to it. -/
def std_unique_from (m : Libm K) (last : Edge K) : List (Edge K) → List (Edge K)
  | [] => []
  | e :: es =>
      if Edge.op_eq m last e then std_unique_from m last es
      else e :: std_unique_from m e es

/-- The call `erase(std::unique(begin, end), end)` on edges. -/
def std_unique (m : Libm K) : List (Edge K) → List (Edge K)
  | [] => []
  | e :: es => e :: std_unique_from m e es

end StdAlgorithms

namespace ObjReader

variable {K : Type} [LinearOrderedField K]

/-- The edges that `read_from_file` adds to the pool for one face: the chain
`(f[i-1], f[i])` and the closing edge `(f[n-1], f[0])`. -/
def face_edges (f : Face K) : Option (List (Edge K)) := do
  let last ← f.vertices[f.vertices.length - 1]?
  let first ← f.vertices[0]?
  pure ((f.vertices.zip f.vertices.tail).map (fun p => Edge.mk p.1 p.2) ++ [Edge.mk last first])

/-- The edge pool that `read_from_file` builds, face after face. -/
def read_edge_pool : List (Face K) → Option (List (Edge K))
  | [] => some []
  | f :: fs => do
      let edges ← face_edges f
      let rest ← read_edge_pool fs
      pure (edges ++ rest)

/-- The state that `read_from_file` leaves for a file with the given faces and
number of vertex lines. -/
def read_from_file (faces : List (Face K)) (vertex_count : Int) : Option (ObjReader K) := do
  let edges ← read_edge_pool faces
  pure { faces := faces, bounding_box := Cube.BoundingBox, edge_pool := edges,
         face_count := faces.length, vertex_count := vertex_count }

/-- The displacement computed by `to_center`. -/
def to_center_displacement (r : ObjReader K) : Vect3 K :=
  r.bounding_box.get_center.get_inverted

/-- The method `to_center`.  The loop over the faces is `for (Face f : faces)`:
it moves a copy of each face, so the stored faces stay as they are; the loop
over the edge pool is `for (Edge &e : edge_pool)` and moves the stored edges. -/
def to_center (r : ObjReader K) : ObjReader K :=
  let displacement := to_center_displacement r
  let _moved_copies := r.faces.map (fun f => f.move displacement)
  { r with
    bounding_box := r.bounding_box.move displacement
    edge_pool := r.edge_pool.map (fun e => e.move displacement) }

/-- The method `rotate_around_axis`: the faces and the faces of the bounding box
are rotated in place; the edge pool is not mentioned. -/
def rotate_around_axis (m : Libm K) (r : ObjReader K) (angle : K) (axis : Vect3 K) :
    ObjReader K :=
  { r with
    faces := r.faces.map (fun f => f.rotate_around_axis m angle axis)
    bounding_box :=
      { r.bounding_box with
        faces := r.bounding_box.faces.map (fun f => f.rotate_around_axis m angle axis) } }

/-- The method `clear_edge_pool`. -/
def clear_edge_pool (m : Libm K) (r : ObjReader K) : ObjReader K :=
  { r with edge_pool := std_unique m (std_sort m r.edge_pool) }

/-- The method `calculate_bb`; `none` when `get_faces()[0].get_vertices()[0]`
is outside the range of a vector. -/
def calculate_bb (r : ObjReader K) : Option (ObjReader K) := do
  let first_face ← r.faces[0]?
  let first_v ← first_face.vertices[0]?
  let bb := (r.bounding_box.set_top_left first_v).set_bottom_right first_v
  let bb := r.faces.foldl (fun bb f => f.vertices.foldl Cube.expand bb) bb
  pure { r with bounding_box := bb.create_faces }

/-- The constructor of `ObjReader` for a file with the given faces. -/
def create (m : Libm K) (faces : List (Face K)) (vertex_count : Int) : Option (ObjReader K) := do
  let r ← read_from_file faces vertex_count
  let r := clear_edge_pool m r
  let r ← calculate_bb r
  pure (to_center r)

end ObjReader

/-! ## shapes_2D.h -/

/-- The class `StraightLine` (the member `end` is called `end_`). -/
structure StraightLine (K : Type) where
  origin : Vect2 K
  end_ : Vect2 K
deriving DecidableEq, Repr

namespace StraightLine

variable {K : Type} [LinearOrderedField K] [FloorRing K]

/-- The method `get_coord_from_t`. -/
def get_coord_from_t (line : StraightLine K) (t : K) : Vect2 K :=
  let x1 := line.origin.x
  let y1 := line.origin.y
  let x2 := line.end_.x
  let y2 := line.end_.y
  let t := if t > 1 then 1 else if t < 0 then 0 else t
  let p_x := (1 - t) * x1 + t * x2
  let p_y := (1 - t) * y1 + t * y2
  { x := (⌊p_x⌋ : Int), y := (⌊p_y⌋ : Int) }

/-- The method `get_length`. -/
def get_length (m : Libm K) (line : StraightLine K) : K :=
  line.origin.get_distance m line.end_

end StraightLine

/-! ## drawing_utils.h -/

/-- The class `BasicBrush`. -/
structure BasicBrush (K : Type) where
  color : BasicColor K
  tip_width : Int
  tip_shape : String
deriving DecidableEq, Repr

namespace BasicBrush

/-- The constant `SQUARE_TIP_SHAPE`. -/
def SQUARE_TIP_SHAPE : String := "SQUARE"
/-- The constant `ROUND_TIP_SHAPE`. -/
def ROUND_TIP_SHAPE : String := "ROUND"

/-- The constructor from a colour alone: width 1, round tip. -/
def of_color {K : Type} (initial_color : BasicColor K) : BasicBrush K :=
  { color := initial_color, tip_width := 1, tip_shape := ROUND_TIP_SHAPE }

end BasicBrush

/-- The class `BasicImage`: the pixel buffer is a list of bytes. -/
structure BasicImage (K : Type) where
  width : Int
  height : Int
  channels : Int
  pixels : List Nat
  max_index : Int
  z_offset : K
  projection_distance : K
  obj_drawing_scale : Dbl K
deriving DecidableEq, Repr

/-- The integers `lo, lo+1, ..., hi-1` of a loop `for (int x = lo; x < hi; x++)`. -/
def int_range (lo hi : Int) : List Int :=
  (List.range (hi - lo).toNat).map (fun (i : Nat) => lo + (i : Int))

namespace BasicImage

variable {K : Type} [LinearOrderedField K] [FloorRing K]

/-- The constant `SOLID_LINE_FACTOR`. -/
def SOLID_LINE_FACTOR : K := 0.5
/-- The constant `DOTTED_LINE_FACTOR`. -/
def DOTTED_LINE_FACTOR : K := 8.0

/-- The method `transform_to_image_cords`. -/
def transform_to_image_cords (img : BasicImage K) (x y : K) : Int × Int :=
  (⌊x⌋ + Int.tdiv img.width 2, ⌊y⌋ + Int.tdiv img.height 2)

/-- The method `get_index_from_coords`. -/
def get_index_from_coords (img : BasicImage K) (xi yi : Int) : Int :=
  ((yi + 1) * img.width - (img.width - xi)) * img.channels

/-- The byte `pixels[idx]`. -/
def read_byte (img : BasicImage K) (idx : Int) : Nat :=
  if 0 ≤ idx then img.pixels.getD idx.toNat 0 else 0

/-- The assignment `pixels[idx] = value` of an `int` to an `unsigned char`. -/
def write_byte (pixels : List Nat) (idx : Int) (value : Int) : List Nat :=
  if 0 ≤ idx then pixels.set idx.toNat (value % 256).toNat else pixels

/-- The method `get_color_at`. -/
def get_color_at (img : BasicImage K) (xi yi : Int) : BasicColor K :=
  let idx := get_index_from_coords img xi yi
  let r : K := (read_byte img idx : K)
  let g : K := (read_byte img (idx + 1) : K)
  let b : K := (read_byte img (idx + 2) : K)
  let a : K := if img.channels = 4 then (read_byte img (idx + 3) : K) else 0
  { r := r, g := g, b := b, a := a }

/-- The method `draw_single_pixel`. -/
def draw_single_pixel (img : BasicImage K) (xi yi : Int) (brush : BasicBrush K) : BasicImage K :=
  let index_pos := get_index_from_coords img xi yi
  if index_pos < 0 ∨ index_pos ≥ img.max_index ∨ xi < 0 ∨ xi > img.width - 1 ∨
      yi < 0 ∨ yi > img.height - 1 then
    img
  else
    let brush_color := brush.color
    let pixel_color := get_color_at img xi yi
    let blend_color := blend_two_colors brush_color BasicColor.over_ID pixel_color
    let pixels := write_byte img.pixels index_pos blend_color.r255
    let pixels := write_byte pixels (index_pos + 1) blend_color.g255
    let pixels := write_byte pixels (index_pos + 2) blend_color.b255
    let pixels :=
      if img.channels = 4 then write_byte pixels (index_pos + 3) blend_color.a255 else pixels
    { img with pixels := pixels }

/-- The method `draw_thick_dot`.  The inner loop of the round tip runs over
`th = 0.0, 1.0, ..., 359.0`. -/
def draw_thick_dot (m : Libm K) (img : BasicImage K) (xi yi : Int) (brush : BasicBrush K) :
    BasicImage K :=
  let half_tip : Int := double_to_int ((brush.tip_width : K) / 2.0)
  if brush.tip_shape = BasicBrush.SQUARE_TIP_SHAPE then
    (int_range (-half_tip) (half_tip + 1)).foldl
      (fun img x =>
        (int_range (-half_tip) (half_tip + 1)).foldl
          (fun img y => draw_single_pixel img (x + xi) (y + yi) brush) img)
      img
  else if brush.tip_shape = BasicBrush.ROUND_TIP_SHAPE then
    (int_range 0 (half_tip + 1)).foldl
      (fun img i =>
        (List.range 360).foldl
          (fun img th =>
            let p_x : Int := double_to_int ((i : K) * rad_cos m (th : K))
            let p_y : Int := double_to_int ((i : K) * rad_sin m (th : K))
            draw_single_pixel img (p_x + xi) (p_y + yi) brush)
          img)
      img
  else img

/-- The method `draw_point`. -/
def draw_point (m : Libm K) (img : BasicImage K) (pos : Vect2 K) (brush : BasicBrush K) :
    BasicImage K :=
  let x := pos.x
  let y := pos.y
  let (xi, yi) := transform_to_image_cords img x y
  if brush.tip_width > 1 then draw_thick_dot m img xi yi brush
  else draw_single_pixel img xi yi brush

/-- The value of `t` that `get_coord_from_t` works with after its two
comparisons, for a loop counter that passed the test `t < 1.0`: a finite
counter is passed on, an infinite one is replaced by the bound it exceeds. -/
def counter_value : Dbl K → Option K
  | Dbl.fin t => some t
  | Dbl.inf negative => some (if negative then 0 else 1)
  | Dbl.nan => none

/-- The loop `for (double t = 0.0; t < 1.0; t += step)` of the two line
drawing methods: the list of the points handed to `draw_point`, in order. -/
def line_loop (line : StraightLine K) (step : Dbl K) : Nat → Dbl K → Option (List (Vect2 K))
  | 0, _ => none
  | fuel + 1, t =>
      if Dbl.lt t (Dbl.fin 1) then
        match counter_value t with
        | some tv =>
            (line_loop line step fuel (Dbl.add t step)).map
              (fun rest => line.get_coord_from_t tv :: rest)
        | none => none
      else some []

/-- The step `SOLID_LINE_FACTOR / line_len` of `draw_solid_line`. -/
def solid_step (m : Libm K) (line : StraightLine K) : Dbl K :=
  Dbl.div (Dbl.fin SOLID_LINE_FACTOR) (Dbl.fin (line.get_length m))

/-- The step `DOTTED_LINE_FACTOR / line_len` of `draw_dotted_line`. -/
def dotted_step (m : Libm K) (line : StraightLine K) : Dbl K :=
  Dbl.div (Dbl.fin DOTTED_LINE_FACTOR) (Dbl.fin (line.get_length m))

/-- The points that `draw_solid_line` hands to `draw_point`. -/
def solid_line_points (m : Libm K) (fuel : Nat) (line : StraightLine K) :
    Option (List (Vect2 K)) :=
  line_loop line (solid_step m line) fuel (Dbl.fin 0)

/-- The points that `draw_dotted_line` hands to `draw_point`. -/
def dotted_line_points (m : Libm K) (fuel : Nat) (line : StraightLine K) :
    Option (List (Vect2 K)) :=
  line_loop line (dotted_step m line) fuel (Dbl.fin 0)

/-- The method `draw_solid_line`. -/
def draw_solid_line (m : Libm K) (fuel : Nat) (img : BasicImage K) (line : StraightLine K)
    (brush : BasicBrush K) : Option (BasicImage K) :=
  (solid_line_points m fuel line).map
    (fun pts => pts.foldl (fun img pixel_pos => draw_point m img pixel_pos brush) img)

/-- The method `draw_dotted_line`. -/
def draw_dotted_line (m : Libm K) (fuel : Nat) (img : BasicImage K) (line : StraightLine K)
    (brush : BasicBrush K) : Option (BasicImage K) :=
  (dotted_line_points m fuel line).map
    (fun pts => pts.foldl (fun img pixel_pos => draw_point m img pixel_pos brush) img)

/-- The projection of one vertex in `draw_edge`: the pair `(x_flat, y_flat)`. -/
def draw_edge_flat (img : BasicImage K) (v : Vect3 K) : Dbl K × Dbl K :=
  let z1 : K := |v.z - img.z_offset|
  let x_flat :=
    Dbl.mul (Dbl.mul (Dbl.div (Dbl.fin img.projection_distance) (Dbl.fin z1)) (Dbl.fin v.x))
      img.obj_drawing_scale
  let y_flat :=
    Dbl.mul (Dbl.mul (Dbl.div (Dbl.fin img.projection_distance) (Dbl.fin z1)) (Dbl.fin v.y))
      img.obj_drawing_scale
  (x_flat, y_flat)

/-- The function `std::max` over an initializer list with a first element. -/
def max_list (first : K) (rest : List K) : K :=
  rest.foldl (fun largest next => if largest < next then next else largest) first

/-- One scale candidate of `estimate_obj_drawing_params`:
`(extent * 0.5 * 0.92) / ((proj_distance / (z - max_displacement)) * coord)`. -/
def scale_candidate (extent : Int) (proj_distance max_displacement z coord : K) : Dbl K :=
  Dbl.div (Dbl.fin ((extent : K) * 0.5 * 0.92))
    (Dbl.mul (Dbl.div (Dbl.fin proj_distance) (Dbl.fin (z - max_displacement))) (Dbl.fin coord))

/-- The method `estimate_obj_drawing_params`. -/
def estimate_obj_drawing_params (m : Libm K) (img : BasicImage K) (obj : ObjReader K) :
    BasicImage K :=
  let tl := obj.bounding_box.top_left
  let br := obj.bounding_box.bottom_right
  let matrix_45 := Matrix3by3.RotationMatrix m 45.0 Vect3.YAxis
  let tl_45 := mult_matrix_by_vector3 matrix_45 tl
  let br_45 := mult_matrix_by_vector3 matrix_45 br
  let matrix_90 := Matrix3by3.RotationMatrix m 90.0 Vect3.YAxis
  let tl_90 := mult_matrix_by_vector3 matrix_90 tl
  let br_90 := mult_matrix_by_vector3 matrix_90 br
  let max_displacement :=
    max_list |tl.x| [|tl.z|, |br.x|, |br.z|, |tl_45.x|, |tl_45.z|, |br_45.x|, |br_45.z|,
      |tl_90.x|, |tl_90.z|, |br_90.x|, |br_90.z|] * 3.0
  let proj_distance := max_displacement * 1.5
  let tl_scale_x := scale_candidate img.width proj_distance max_displacement tl.z tl.x
  let tl_scale_y := scale_candidate img.height proj_distance max_displacement tl.z tl.y
  let br_scale_x := scale_candidate img.width proj_distance max_displacement br.z br.x
  let br_scale_y := scale_candidate img.height proj_distance max_displacement br.z br.y
  let tl_45_scale_x := scale_candidate img.width proj_distance max_displacement tl_45.z tl_45.x
  let tl_45_scale_y := scale_candidate img.height proj_distance max_displacement tl_45.z tl_45.y
  let br_45_scale_x := scale_candidate img.width proj_distance max_displacement br_45.z br_45.x
  let br_45_scale_y := scale_candidate img.height proj_distance max_displacement br_45.z br_45.y
  let tl_90_scale_x := scale_candidate img.width proj_distance max_displacement tl_90.z tl_90.x
  let tl_90_scale_y := scale_candidate img.height proj_distance max_displacement tl_90.z tl_90.y
  let br_90_scale_x := scale_candidate img.width proj_distance max_displacement br_90.z br_90.x
  let br_90_scale_y := scale_candidate img.height proj_distance max_displacement br_90.z br_90.y
  let drawing_scale :=
    Dbl.min_list (Dbl.abs tl_scale_x)
      [Dbl.abs tl_scale_y, Dbl.abs br_scale_x, Dbl.abs br_scale_y,
       Dbl.abs tl_45_scale_x, Dbl.abs tl_45_scale_y, Dbl.abs br_45_scale_x, Dbl.abs br_45_scale_y,
       Dbl.abs tl_90_scale_x, Dbl.abs tl_90_scale_y, Dbl.abs br_90_scale_x, Dbl.abs br_90_scale_y]
  { img with
    z_offset := max_displacement
    projection_distance := proj_distance
    obj_drawing_scale := drawing_scale }

/-- The function `BasicImage::HD_1080`, with a cleared buffer (the three drawing
parameters are not initialised by the constructor; they are set to zero here). -/
def HD_1080 : BasicImage K :=
  { width := 1920, height := 1080, channels := 4,
    pixels := List.replicate (1920 * 1080 * 4) 0, max_index := 1920 * 1080 * 4,
    z_offset := 0, projection_distance := 0, obj_drawing_scale := Dbl.fin 0 }

end BasicImage

/-! ## basic_math.h and shapes_2D.h: rotation of 2D points, polygons -/

namespace Vect2

variable {K : Type} [LinearOrderedField K]

/-- The method `rotate`. -/
def rotate (m : Libm K) (self : Vect2 K) (angle : K) : Vect2 K :=
  let new_x := self.x * rad_cos m angle - self.y * rad_sin m angle
  let new_y := self.x * rad_sin m angle + self.y * rad_cos m angle
  { x := new_x, y := new_y }

/-- The method `rotate_around`. -/
def rotate_around (m : Libm K) (self pivot : Vect2 K) (angle : K) : Vect2 K :=
  let new_x :=
    rad_cos m angle * (self.x - pivot.x) - rad_sin m angle * (self.y - pivot.y) + pivot.x
  let new_y :=
    rad_sin m angle * (self.x - pivot.x) + rad_cos m angle * (self.y - pivot.y) + pivot.y
  { x := new_x, y := new_y }

end Vect2

/-- The class `Polygon`. -/
structure Polygon (K : Type) where
  translation : Vect2 K
  vertices : List (Vect2 K)
deriving DecidableEq, Repr

namespace Polygon

variable {K : Type}

/-- The method `count_vertices`. -/
def count_vertices (poly : Polygon K) : Int := poly.vertices.length

/-- The operator `[]` of `Polygon`; `none` outside the range of the vertices. -/
def op_index (poly : Polygon K) (index : Int) : Option (Vect2 K) :=
  if 0 ≤ index then poly.vertices[index.toNat]? else none

end Polygon

/-- The results of a list of steps when every step has one, `none` otherwise. -/
def all_some {α : Type} : List (Option α) → Option (List α)
  | [] => some []
  | none :: _ => none
  | some a :: rest => (all_some rest).map (fun l => a :: l)

/-- The glyph tables of `text_sprites.h`, one byte array per glyph size. -/
structure TextSprites where
  s_10_10 : List Nat
  s_15_15 : List Nat
  s_20_20 : List Nat
  s_25_25 : List Nat
deriving DecidableEq, Repr

/-- The state of the loops of `draw_text`: the image and the four counters. -/
structure TextState (K : Type) where
  img : BasicImage K
  sprite_x : Int
  sprite_y : Int
  image_x : Int
  image_y : Int
deriving DecidableEq, Repr

/-- The body `f` of a loop that runs `n` times, stopping at the first `none`. -/
def repeat_steps {σ : Type} (f : σ → Option σ) : Nat → σ → Option σ
  | 0, s => some s
  | n + 1, s => (f s).bind (repeat_steps f n)

namespace BasicImage

variable {K : Type} [LinearOrderedField K] [FloorRing K]

/-- The constant `LINE_INCREMENT_COEF`. -/
def LINE_INCREMENT_COEF : K := 1.2

/-- The pixels that the square tip of `draw_thick_dot` hands to
`draw_single_pixel`, in the order of the two loops. -/
def square_tip_pixels (xi yi half_tip : Int) : List (Int × Int) :=
  (int_range (-half_tip) (half_tip + 1)).flatMap
    (fun x => (int_range (-half_tip) (half_tip + 1)).map (fun y => (x + xi, y + yi)))

/-- The lines that `draw_polygon` hands to `draw_solid_line`, in order: the
chain `(poly[i-1], poly[i])` for `i = 1, ..., count-1`, then the closing line
`(poly[count-1], poly[0])`; `none` when an index is outside the range. -/
def polygon_lines (poly : Polygon K) : Option (List (StraightLine K)) := do
  let chain ← all_some ((int_range 1 poly.count_vertices).map
    (fun i => do
      let a ← poly.op_index (i - 1)
      let b ← poly.op_index i
      pure ({ origin := a, end_ := b } : StraightLine K)))
  let a ← poly.op_index (poly.count_vertices - 1)
  let b ← poly.op_index 0
  pure (chain ++ [{ origin := a, end_ := b }])

/-- The calls of `draw_solid_line` on a list of lines, one after the other. -/
def draw_lines (m : Libm K) (fuel : Nat) (brush : BasicBrush K) :
    BasicImage K → List (StraightLine K) → Option (BasicImage K)
  | img, [] => some img
  | img, line :: rest =>
      (draw_solid_line m fuel img line brush).bind (fun img => draw_lines m fuel brush img rest)

/-- The method `draw_polygon`. -/
def draw_polygon (m : Libm K) (fuel : Nat) (img : BasicImage K) (poly : Polygon K)
    (brush : BasicBrush K) : Option (BasicImage K) :=
  (polygon_lines poly).bind (draw_lines m fuel brush img)

/-- The constant `SPR_CHANNELS` of `draw_text`. -/
def SPR_CHANNELS : Int := 3
/-- The constant `SPR_COLUMNS` of `draw_text`. -/
def SPR_COLUMNS : Int := 16

/-- The side of the glyphs that `draw_text` picks for a text height. -/
def spr_side (text_height : Int) : Int :=
  if text_height < 15 then 10 else if text_height < 20 then 15
  else if text_height < 25 then 20 else 25

/-- The width of the glyph table that `draw_text` picks for a text height. -/
def spr_width (text_height : Int) : Int :=
  if text_height < 15 then 160 else if text_height < 20 then 240
  else if text_height < 25 then 320 else 400

/-- The glyph table that `draw_text` picks for a text height. -/
def s_pixels (sprites : TextSprites) (text_height : Int) : List Nat :=
  if text_height < 15 then sprites.s_10_10 else if text_height < 20 then sprites.s_15_15
  else if text_height < 25 then sprites.s_20_20 else sprites.s_25_25

/-- The value `line_increment` of `draw_text`. -/
def line_increment (K : Type) [LinearOrderedField K] [FloorRing K] (text_height : Int) : Int :=
  double_to_int ((LINE_INCREMENT_COEF : K) * (text_height : K))

/-- The value `sprite_row` of `draw_text` for the character code `c`; the
division of `int`s truncates towards zero. -/
def sprite_row (c : Int) : Int :=
  if Int.tdiv c SPR_COLUMNS = 0 then 0 else Int.tdiv c SPR_COLUMNS - 2

/-- The value `sprite_column` of `draw_text` for the character code `c`. -/
def sprite_column (c : Int) : Int := Int.tmod c SPR_COLUMNS

/-- The value `s_index` of `draw_text`. -/
def s_index (text_height sprite_x sprite_y : Int) : Int :=
  ((sprite_y + 1) * spr_width text_height - (spr_width text_height - sprite_x)) * SPR_CHANNELS

/-- The byte `s_pixels[idx]`; `none` outside the table. -/
def read_sprite (table : List Nat) (idx : Int) : Option Nat :=
  if 0 ≤ idx then table[idx.toNat]? else none

/-- The body of the inner loop of `draw_text` (one glyph pixel). -/
def glyph_pixel (sprites : TextSprites) (text_height : Int) (brush : BasicBrush K)
    (st : TextState K) : Option (TextState K) :=
  (read_sprite (s_pixels sprites text_height) (s_index text_height st.sprite_x st.sprite_y)).map
    (fun value =>
      let img := if value ≠ 0 then draw_single_pixel st.img st.image_x st.image_y brush else st.img
      { st with img := img, sprite_x := st.sprite_x + 1, image_x := st.image_x + 1 })

/-- The body of the outer loop of `draw_text` (one glyph row). -/
def glyph_row (sprites : TextSprites) (text_height : Int) (brush : BasicBrush K)
    (st : TextState K) : Option (TextState K) :=
  (repeat_steps (glyph_pixel sprites text_height brush) (spr_side text_height).toNat st).map
    (fun st =>
      { st with
        sprite_x := st.sprite_x - spr_side text_height
        image_x := st.image_x - spr_side text_height
        sprite_y := st.sprite_y + 1
        image_y := st.image_y + 1 })

/-- The body of the loop of `draw_text` over the characters of the text; a
character is given by its code `(int)ch`, the newline has code 10. -/
def draw_text_char (sprites : TextSprites) (upper_left_x upper_left_y text_height : Int)
    (brush : BasicBrush K) (st : TextState K) (ch : Int) : Option (TextState K) :=
  if ch = 10 then
    some { st with
      image_x := upper_left_x
      image_y := upper_left_y + line_increment K text_height }
  else
    let c := ch
    let st : TextState K :=
      { st with
        sprite_x := sprite_column c * spr_side text_height
        sprite_y := sprite_row c * spr_side text_height }
    (repeat_steps (glyph_row sprites text_height brush) (spr_side text_height).toNat st).map
      (fun st =>
        { st with
          image_x := st.image_x + spr_side text_height
          image_y := st.image_y - spr_side text_height })

/-- The loop of `draw_text` over the text, from a given state. -/
def draw_text_loop (sprites : TextSprites) (upper_left_x upper_left_y text_height : Int)
    (brush : BasicBrush K) : TextState K → List Int → Option (TextState K)
  | st, [] => some st
  | st, ch :: rest =>
      (draw_text_char sprites upper_left_x upper_left_y text_height brush st ch).bind
        (fun st => draw_text_loop sprites upper_left_x upper_left_y text_height brush st rest)

/-- The state in which `draw_text` ends: the image and the pen
`(image_x, image_y)`.  The two sprite counters are not set before the first
glyph; they start at zero here. -/
def draw_text_state (sprites : TextSprites) (img : BasicImage K)
    (upper_left_x upper_left_y : Int) (text : List Int) (text_height : Int)
    (brush : BasicBrush K) : Option (TextState K) :=
  draw_text_loop sprites upper_left_x upper_left_y text_height brush
    { img := img, sprite_x := 0, sprite_y := 0, image_x := upper_left_x, image_y := upper_left_y }
    text

/-- The method `draw_text`; `none` when a glyph table is read outside its range. -/
def draw_text (sprites : TextSprites) (img : BasicImage K)
    (upper_left_x upper_left_y : Int) (text : List Int) (text_height : Int)
    (brush : BasicBrush K) : Option (BasicImage K) :=
  (draw_text_state sprites img upper_left_x upper_left_y text text_height brush).map
    (fun st => st.img)

end BasicImage

/-! ## basic_color.h: the clipped getters; shapes_2D.h: the transforms of `Polygon` -/

namespace BasicColor

variable {K : Type} [LinearOrderedField K]

/-- Red channel clipped to the range from 0 to 1. -/
def r01 (c : BasicColor K) : K := if c.r < 0 then 0 else if c.r > 1 then 1 else c.r
/-- Green channel clipped to the range from 0 to 1. -/
def g01 (c : BasicColor K) : K := if c.g < 0 then 0 else if c.g > 1 then 1 else c.g
/-- Blue channel clipped to the range from 0 to 1. -/
def b01 (c : BasicColor K) : K := if c.b < 0 then 0 else if c.b > 1 then 1 else c.b
/-- Alpha channel clipped to the range from 0 to 1. -/
def a01 (c : BasicColor K) : K := if c.a < 0 then 0 else if c.a > 1 then 1 else c.a

end BasicColor

namespace Vect2

variable {K : Type} [LinearOrderedField K]

/-- The operator `*` of `Vect2` with a scalar factor. -/
def op_mul (self : Vect2 K) (factor : K) : Vect2 K :=
  { x := factor * self.x, y := factor * self.y }

/-- The method `invert`. -/
def invert (self : Vect2 K) : Vect2 K :=
  { x := self.x * (-1), y := self.y * (-1) }

end Vect2

namespace Polygon

variable {K : Type} [LinearOrderedField K]

/-- The default constructor: no vertex, translation `(0, 0)`. -/
def empty : Polygon K := { translation := { x := 0, y := 0 }, vertices := [] }

/-- The method `move`. -/
def move (poly : Polygon K) (displacement : Vect2 K) : Polygon K :=
  { translation := poly.translation.op_add displacement
    vertices := poly.vertices.map (fun vtx => vtx.op_add displacement) }

/-- The method `scale`. -/
def scale (poly : Polygon K) (factor : K) : Polygon K :=
  { poly with
    vertices := poly.vertices.map
      (fun vtx => ((vtx.op_add poly.translation.invert).op_mul factor).op_add poly.translation) }

/-- The method `rotate`. -/
def rotate (m : Libm K) (poly : Polygon K) (angle : K) : Polygon K :=
  { poly with
    vertices := poly.vertices.map
      (fun vtx => ((vtx.op_add poly.translation.invert).rotate m angle).op_add poly.translation) }

/-- The method `add_vertex`. -/
def add_vertex (poly : Polygon K) (vtx : Vect2 K) : Polygon K :=
  { poly with vertices := poly.vertices ++ [vtx] }

/-- The loop of `add_by_rotation`: each pass stores the current vertex and
rotates it by the angle. -/
def add_by_rotation_loop (m : Libm K) (rotation_angle : K) :
    Nat → Vect2 K → Polygon K → Polygon K
  | 0, _, poly => poly
  | passes + 1, first_vtx, poly =>
      add_by_rotation_loop m rotation_angle passes (first_vtx.rotate m rotation_angle)
        (poly.add_vertex first_vtx)

/-- The method `add_by_rotation`.  The angle `360.0 / number_of_rotations` is
used only inside the loop, which does not run unless the number is positive. -/
def add_by_rotation (m : Libm K) (poly : Polygon K) (first_vtx : Vect2 K)
    (number_of_rotations : Int) : Polygon K :=
  let rotation_angle : K := 360.0 / (number_of_rotations : K)
  add_by_rotation_loop m rotation_angle number_of_rotations.toNat first_vtx poly

/-- The constructor `Polygon(Vect2 initial_vertex, int number_of_vertices)`. -/
def of_vertex (m : Libm K) (initial_vertex : Vect2 K) (number_of_vertices : Int) : Polygon K :=
  add_by_rotation m empty initial_vertex number_of_vertices

/-- The constructor `Polygon(double circunscribed_radius, int number_of_vertices)`. -/
def of_radius (m : Libm K) (circunscribed_radius : K) (number_of_vertices : Int) : Polygon K :=
  add_by_rotation m empty { x := 0, y := circunscribed_radius } number_of_vertices

end Polygon

/-! ## drawing_utils.h: `draw_single_pixel` with checked buffer accesses, the lists of `estimate_obj_drawing_params` -/

namespace BasicImage

variable {K : Type} [LinearOrderedField K] [FloorRing K]

/-- The read `pixels[idx]` with the index checked: an index outside the buffer
has no value. -/
def read_byte_checked (img : BasicImage K) (idx : Int) : Option Nat :=
  if 0 ≤ idx then img.pixels[idx.toNat]? else none

/-- The assignment `pixels[idx] = value` with the index checked: an index
outside the buffer has no result. -/
def write_byte_checked (pixels : List Nat) (idx : Int) (value : Int) : Option (List Nat) :=
  if 0 ≤ idx ∧ idx < (pixels.length : Int) then some (pixels.set idx.toNat (value % 256).toNat)
  else none

/-- The method `get_color_at`, every read of the buffer checked. -/
def get_color_at_checked (img : BasicImage K) (xi yi : Int) : Option (BasicColor K) := do
  let idx := get_index_from_coords img xi yi
  let r ← read_byte_checked img idx
  let g ← read_byte_checked img (idx + 1)
  let b ← read_byte_checked img (idx + 2)
  let a ← if img.channels = 4 then read_byte_checked img (idx + 3) else some 0
  pure { r := (r : K), g := (g : K), b := (b : K), a := (a : K) }

/-- The method `draw_single_pixel`, every read and every write of the buffer
checked. -/
def draw_single_pixel_checked (img : BasicImage K) (xi yi : Int) (brush : BasicBrush K) :
    Option (BasicImage K) :=
  let index_pos := get_index_from_coords img xi yi
  if index_pos < 0 ∨ index_pos ≥ img.max_index ∨ xi < 0 ∨ xi > img.width - 1 ∨
      yi < 0 ∨ yi > img.height - 1 then
    some img
  else do
    let brush_color := brush.color
    let pixel_color ← get_color_at_checked img xi yi
    let blend_color := blend_two_colors brush_color BasicColor.over_ID pixel_color
    let pixels ← write_byte_checked img.pixels index_pos blend_color.r255
    let pixels ← write_byte_checked pixels (index_pos + 1) blend_color.g255
    let pixels ← write_byte_checked pixels (index_pos + 2) blend_color.b255
    let pixels ←
      if img.channels = 4 then write_byte_checked pixels (index_pos + 3) blend_color.a255
      else some pixels
    pure { img with pixels := pixels }

/-- The twelve absolute coordinates of which `estimate_obj_drawing_params` takes
the maximum, the first one apart. -/
def autofit_coordinates (m : Libm K) (obj : ObjReader K) : K × List K :=
  let tl := obj.bounding_box.top_left
  let br := obj.bounding_box.bottom_right
  let tl_45 := mult_matrix_by_vector3 (Matrix3by3.RotationMatrix m 45.0 Vect3.YAxis) tl
  let br_45 := mult_matrix_by_vector3 (Matrix3by3.RotationMatrix m 45.0 Vect3.YAxis) br
  let tl_90 := mult_matrix_by_vector3 (Matrix3by3.RotationMatrix m 90.0 Vect3.YAxis) tl
  let br_90 := mult_matrix_by_vector3 (Matrix3by3.RotationMatrix m 90.0 Vect3.YAxis) br
  (|tl.x|, [|tl.z|, |br.x|, |br.z|, |tl_45.x|, |tl_45.z|, |br_45.x|, |br_45.z|,
      |tl_90.x|, |tl_90.z|, |br_90.x|, |br_90.z|])

/-- The absolute values of the twelve scale candidates of
`estimate_obj_drawing_params` for a projection distance and a depth offset,
the first one apart. -/
def autofit_candidates (m : Libm K) (img : BasicImage K) (obj : ObjReader K)
    (proj_distance max_displacement : K) : Dbl K × List (Dbl K) :=
  let tl := obj.bounding_box.top_left
  let br := obj.bounding_box.bottom_right
  let tl_45 := mult_matrix_by_vector3 (Matrix3by3.RotationMatrix m 45.0 Vect3.YAxis) tl
  let br_45 := mult_matrix_by_vector3 (Matrix3by3.RotationMatrix m 45.0 Vect3.YAxis) br
  let tl_90 := mult_matrix_by_vector3 (Matrix3by3.RotationMatrix m 90.0 Vect3.YAxis) tl
  let br_90 := mult_matrix_by_vector3 (Matrix3by3.RotationMatrix m 90.0 Vect3.YAxis) br
  (Dbl.abs (scale_candidate img.width proj_distance max_displacement tl.z tl.x),
   [Dbl.abs (scale_candidate img.height proj_distance max_displacement tl.z tl.y),
    Dbl.abs (scale_candidate img.width proj_distance max_displacement br.z br.x),
    Dbl.abs (scale_candidate img.height proj_distance max_displacement br.z br.y),
    Dbl.abs (scale_candidate img.width proj_distance max_displacement tl_45.z tl_45.x),
    Dbl.abs (scale_candidate img.height proj_distance max_displacement tl_45.z tl_45.y),
    Dbl.abs (scale_candidate img.width proj_distance max_displacement br_45.z br_45.x),
    Dbl.abs (scale_candidate img.height proj_distance max_displacement br_45.z br_45.y),
    Dbl.abs (scale_candidate img.width proj_distance max_displacement tl_90.z tl_90.x),
    Dbl.abs (scale_candidate img.height proj_distance max_displacement tl_90.z tl_90.y),
    Dbl.abs (scale_candidate img.width proj_distance max_displacement br_90.z br_90.x),
    Dbl.abs (scale_candidate img.height proj_distance max_displacement br_90.z br_90.y)])

end BasicImage

/-! ## drawing_utils.h: the depth of a vertex in `draw_edge` -/

namespace BasicImage

variable {K : Type} [LinearOrderedField K] [FloorRing K]

/-- The depth `abs(v.get_z() - z_offset)` of a vertex in `draw_edge`, the
divisor of the projection distance. -/
def draw_edge_depth (img : BasicImage K) (v : Vect3 K) : K := |v.z - img.z_offset|

end BasicImage

/-! ## Predicates and sample inputs used by the theorems -/

/-- A double that is the `abs` of a double other than NaN: a finite value that
is not negative, or `+inf`. -/
def Dbl.IsMagnitude {K : Type} [LinearOrderedField K] (d : Dbl K) : Prop :=
  (∃ a : K, 0 ≤ a ∧ d = Dbl.fin a) ∨ d = Dbl.inf false

section Predicates

variable {K : Type} [LinearOrderedField K]

/-- The corners of a box are in order: `top_left` has the smaller `x` and the
larger `y` and `z`. -/
def Cube.ordered (c : Cube K) : Prop :=
  c.top_left.x ≤ c.bottom_right.x ∧ c.bottom_right.y ≤ c.top_left.y ∧
    c.bottom_right.z ≤ c.top_left.z

/-- The point lies in the box, faces included. -/
def Cube.contains (c : Cube K) (p : Vect3 K) : Prop :=
  (c.top_left.x ≤ p.x ∧ p.x ≤ c.bottom_right.x) ∧
  (c.bottom_right.y ≤ p.y ∧ p.y ≤ c.top_left.y) ∧
  (c.bottom_right.z ≤ p.z ∧ p.z ≤ c.top_left.z)

/-- The point lies between the two corners of the box in each coordinate,
whatever the order of the corners. -/
def Cube.spans (c : Cube K) (p : Vect3 K) : Prop :=
  ((c.top_left.x ≤ p.x ∧ p.x ≤ c.bottom_right.x) ∨
    (c.bottom_right.x ≤ p.x ∧ p.x ≤ c.top_left.x)) ∧
  ((c.top_left.y ≤ p.y ∧ p.y ≤ c.bottom_right.y) ∨
    (c.bottom_right.y ≤ p.y ∧ p.y ≤ c.top_left.y)) ∧
  ((c.top_left.z ≤ p.z ∧ p.z ≤ c.bottom_right.z) ∨
    (c.bottom_right.z ≤ p.z ∧ p.z ≤ c.top_left.z))

/-- The first box lies in the second one. -/
def Cube.within (c outer : Cube K) : Prop :=
  (outer.top_left.x ≤ c.top_left.x ∧ c.bottom_right.x ≤ outer.bottom_right.x) ∧
  (outer.bottom_right.y ≤ c.bottom_right.y ∧ c.top_left.y ≤ outer.top_left.y) ∧
  (outer.bottom_right.z ≤ c.bottom_right.z ∧ c.top_left.z ≤ outer.top_left.z)

/-- Two edges join the same two points, in either direction (exact equality). -/
def same_edge (e1 e2 : Edge K) : Bool :=
  decide ((e1.origin_vtx = e2.origin_vtx ∧ e1.end_vtx = e2.end_vtx) ∨
    (e1.origin_vtx = e2.end_vtx ∧ e1.end_vtx = e2.origin_vtx))

/-- The closed loop of a face: the edges between consecutive vertices and the
edge from the last vertex back to the first. -/
def face_loop (f : Face K) : List (Edge K) :=
  match f.vertices with
  | [] => []
  | first :: rest =>
      ((first :: rest).zip rest).map (fun p => Edge.mk p.1 p.2) ++
        [Edge.mk ((first :: rest).getLast (List.cons_ne_nil first rest)) first]

/-- The twelve edges of the box with the given two corners: the four of the
face `z = top_left.z`, the four of the face `z = bottom_right.z` and the four
that join the two faces. -/
def box_edges (top_left bottom_right : Vect3 K) : List (Edge K) :=
  let vert0 := top_left
  let vert1 : Vect3 K := { x := bottom_right.x, y := top_left.y, z := top_left.z }
  let vert2 : Vect3 K := { x := bottom_right.x, y := bottom_right.y, z := top_left.z }
  let vert3 : Vect3 K := { x := top_left.x, y := bottom_right.y, z := top_left.z }
  let vert4 : Vect3 K := { x := top_left.x, y := top_left.y, z := bottom_right.z }
  let vert5 : Vect3 K := { x := bottom_right.x, y := top_left.y, z := bottom_right.z }
  let vert6 := bottom_right
  let vert7 : Vect3 K := { x := top_left.x, y := bottom_right.y, z := bottom_right.z }
  [Edge.mk vert0 vert1, Edge.mk vert1 vert2, Edge.mk vert2 vert3, Edge.mk vert3 vert0,
   Edge.mk vert4 vert5, Edge.mk vert5 vert6, Edge.mk vert6 vert7, Edge.mk vert7 vert4,
   Edge.mk vert0 vert4, Edge.mk vert1 vert5, Edge.mk vert2 vert6, Edge.mk vert3 vert7]

/-- The sum of a list of 2D vectors. -/
def Vect2.sum (l : List (Vect2 K)) : Vect2 K :=
  l.foldr (fun v acc => v.op_add acc) { x := 0, y := 0 }

/-- The centroid of the vertices of a polygon. -/
def Polygon.centroid (poly : Polygon K) : Vect2 K :=
  (Vect2.sum poly.vertices).op_mul (1 / (poly.vertices.length : K))

end Predicates

section Samples

variable {K : Type} [LinearOrderedField K]

/-- The eight corners of the box with the given two corners, in the order
`vert0, ..., vert7` of `Cube::create_faces`. -/
def box_corners (top_left bottom_right : Vect3 K) : List (Vect3 K) :=
  [top_left,
   { x := bottom_right.x, y := top_left.y, z := top_left.z },
   { x := bottom_right.x, y := bottom_right.y, z := top_left.z },
   { x := top_left.x, y := bottom_right.y, z := top_left.z },
   { x := top_left.x, y := top_left.y, z := bottom_right.z },
   { x := bottom_right.x, y := top_left.y, z := bottom_right.z },
   bottom_right,
   { x := top_left.x, y := bottom_right.y, z := bottom_right.z }]

/-- Top-left corner of the unit cube centred at the origin. -/
def unit_cube_top_left : Vect3 K := { x := -0.5, y := 0.5, z := 0.5 }

/-- Bottom-right corner of the unit cube centred at the origin. -/
def unit_cube_bottom_right : Vect3 K := { x := 0.5, y := -0.5, z := -0.5 }

/-- A reader whose mesh is the six quads of the unit cube and whose bounding box
is that cube; the edge pool plays no part in the estimation and is empty. -/
def unit_cube_mesh : ObjReader K :=
  { faces := (Cube.create unit_cube_top_left unit_cube_bottom_right : Cube K).faces
    bounding_box := Cube.create unit_cube_top_left unit_cube_bottom_right
    edge_pool := []
    face_count := 6
    vertex_count := 8 }

/-- A triangle in the plane `z = 0` whose bounding box is centred at `(1, 1, 0)`. -/
def triangle_face : Face K :=
  { vertices :=
      [{ x := 0, y := 0, z := 0 }, { x := 2, y := 0, z := 0 }, { x := 0, y := 2, z := 0 }] }

/-- The reader state of the one-triangle mesh after `read_from_file` and
`calculate_bb`. -/
def triangle_mesh : ObjReader K :=
  { faces := [triangle_face]
    bounding_box := Cube.create_faces
      { top_left := { x := 0, y := 2, z := 0 }, bottom_right := { x := 2, y := 0, z := 0 },
        faces := [] }
    edge_pool :=
      [{ origin_vtx := { x := 0, y := 0, z := 0 }, end_vtx := { x := 2, y := 0, z := 0 } },
       { origin_vtx := { x := 2, y := 0, z := 0 }, end_vtx := { x := 0, y := 2, z := 0 } },
       { origin_vtx := { x := 0, y := 2, z := 0 }, end_vtx := { x := 0, y := 0, z := 0 } }]
    face_count := 1
    vertex_count := 3 }

/-- Two triangles `A B C` and `B A D` that share the edge `A B`, with
`A = (0,0,0)`, `B = (1,0,0)`, `C = (1,1,0)` and `D = (0,-1,0)`. -/
def shared_edge_faces : List (Face K) :=
  [{ vertices :=
       [{ x := 0, y := 0, z := 0 }, { x := 1, y := 0, z := 0 }, { x := 1, y := 1, z := 0 }] },
   { vertices :=
       [{ x := 1, y := 0, z := 0 }, { x := 0, y := 0, z := 0 }, { x := 0, y := -1, z := 0 }] }]

/-- The reader state that `read_from_file` leaves for a file without faces. -/
def empty_mesh : ObjReader K :=
  { faces := [], bounding_box := Cube.BoundingBox, edge_pool := [], face_count := 0,
    vertex_count := 0 }

/-- A line from `(1/2, 3/2)` to `(5/2, 7/2)`. -/
def sample_line : StraightLine K :=
  { origin := { x := 1 / 2, y := 3 / 2 }, end_ := { x := 5 / 2, y := 7 / 2 } }

/-- A polygon with the three vertices `(0, 0)`, `(4, 0)` and `(0, 3)`. -/
def sample_polygon : Polygon K :=
  { translation := { x := 0, y := 0 }
    vertices := [{ x := 0, y := 0 }, { x := 4, y := 0 }, { x := 0, y := 3 }] }

/-- A white brush of width 3 with the square tip. -/
def square_brush : BasicBrush K :=
  { color := BasicColor.rgb 1 1 1, tip_width := 3, tip_shape := BasicBrush.SQUARE_TIP_SHAPE }

/-- The colour `(1/2, 2, -1, 1)`. -/
def sample_color : BasicColor K := { r := 1 / 2, g := 2, b := -1, a := 1 }

/-- Top-left corner `(0, 1, 1)` of the sample box. -/
def sample_top_left : Vect3 K := { x := 0, y := 1, z := 1 }

/-- Bottom-right corner `(1, 0, 0)` of the sample box. -/
def sample_bottom_right : Vect3 K := { x := 1, y := 0, z := 0 }

/-- The box with the corners `(0, 1, 1)` and `(1, 0, 0)`. -/
def sample_box : Cube K := Cube.create sample_top_left sample_bottom_right

/-- The point `(2, 2, 2)`, outside the sample box. -/
def sample_point : Vect3 K := { x := 2, y := 2, z := 2 }

/-- The two displacements `(1, 2)` and `(3, -1)`. -/
def sample_moves : List (Vect2 K) := [{ x := 1, y := 2 }, { x := 3, y := -1 }]

/-- The polygon with 4 vertices built from the vertex `(1, 0)`, moved by the two
sample displacements. -/
def sample_regular_polygon (m : Libm K) : Polygon K :=
  sample_moves.foldl Polygon.move (Polygon.of_vertex m { x := 1, y := 0 } 4)

/-- A line whose two end points are the origin. -/
def zero_length_line : StraightLine K :=
  { origin := { x := 0, y := 0 }, end_ := { x := 0, y := 0 } }

end Samples

/-- Glyph tables without a single byte. -/
def empty_sprites : TextSprites :=
  { s_10_10 := [], s_15_15 := [], s_20_20 := [], s_25_25 := [] }

/-- A 2x2 image with four channels and a grey buffer, for evaluation. -/
def sample_image : BasicImage ℚ :=
  { width := 2, height := 2, channels := 4, pixels := List.replicate 16 7, max_index := 16,
    z_offset := 0, projection_distance := 0, obj_drawing_scale := Dbl.fin 0 }

/-! ## Theorems -/

/-! ### Lemmas on `Dbl`, `std::min` and `std::max` -/

section DblLemmas

variable {K : Type} [LinearOrderedField K]

/-- A running minimum in `[0, c]` stays in `[0, c]` after one step of `std::min`. -/
theorem Dbl.min_step_bounded (c s : K) (next : Dbl K) (hs : 0 ≤ s ∧ s ≤ c)
    (hn : next.IsMagnitude) :
    ∃ s2 : K, Dbl.min_step (Dbl.fin s) next = Dbl.fin s2 ∧ 0 ≤ s2 ∧ s2 ≤ c := by
  rcases hn with ⟨a, ha, rfl⟩ | rfl
  · by_cases h : a < s
    · exact ⟨a, by simp [Dbl.min_step, Dbl.lt, h], ha, le_trans h.le hs.2⟩
    · exact ⟨s, by simp [Dbl.min_step, Dbl.lt, h], hs.1, hs.2⟩
  · exact ⟨s, by simp [Dbl.min_step, Dbl.lt], hs.1, hs.2⟩

/-- One step of `std::min` on magnitudes gives a magnitude. -/
theorem Dbl.min_step_magnitude (cur next : Dbl K) (hc : cur.IsMagnitude) (hn : next.IsMagnitude) :
    (Dbl.min_step cur next).IsMagnitude := by
  unfold Dbl.min_step
  split_ifs
  · exact hn
  · exact hc

/-- A running minimum in `[0, c]` stays in `[0, c]` over a list of magnitudes. -/
theorem Dbl.min_list_bounded (c : K) (rest : List (Dbl K)) :
    ∀ s : K, 0 ≤ s ∧ s ≤ c → (∀ d ∈ rest, d.IsMagnitude) →
      ∃ s2 : K, Dbl.min_list (Dbl.fin s) rest = Dbl.fin s2 ∧ 0 ≤ s2 ∧ s2 ≤ c := by
  induction rest with
  | nil => intro s hs _; exact ⟨s, rfl, hs⟩
  | cons e es ih =>
    intro s hs hall
    obtain ⟨s1, h1, hs1⟩ := Dbl.min_step_bounded c s e hs (hall e (List.mem_cons_self _ _))
    obtain ⟨s2, h2, hs2⟩ := ih s1 hs1 (fun d hd => hall d (List.mem_cons_of_mem _ hd))
    refine ⟨s2, ?_, hs2⟩
    simp only [Dbl.min_list, List.foldl_cons] at h2 ⊢
    rw [h1]; exact h2

/-- The `std::min` of a list of magnitudes that contains the finite value `c` is
finite and lies in `[0, c]`. -/
theorem Dbl.min_list_le_member (c : K) (hc : 0 ≤ c) (rest : List (Dbl K)) :
    ∀ first : Dbl K, first.IsMagnitude → (∀ d ∈ rest, d.IsMagnitude) →
      Dbl.fin c ∈ first :: rest →
      ∃ s : K, Dbl.min_list first rest = Dbl.fin s ∧ 0 ≤ s ∧ s ≤ c := by
  induction rest with
  | nil =>
    intro first _ _ hmem
    simp only [List.mem_singleton] at hmem
    exact ⟨c, by simp [Dbl.min_list, ← hmem], hc, le_refl c⟩
  | cons e es ih =>
    intro first hfirst hall hmem
    have he := hall e (List.mem_cons_self _ _)
    have hes : ∀ d ∈ es, d.IsMagnitude := fun d hd => hall d (List.mem_cons_of_mem _ hd)
    have hstep : Dbl.min_list first (e :: es) = Dbl.min_list (Dbl.min_step first e) es := rfl
    rw [hstep]
    rcases List.mem_cons.mp hmem with h | h
    · -- the first element is `fin c`
      obtain ⟨s1, h1, hs1⟩ := Dbl.min_step_bounded c c e ⟨hc, le_refl c⟩ he
      rw [← h, h1]
      exact Dbl.min_list_bounded c es s1 hs1 hes
    · rcases List.mem_cons.mp h with h2 | h2
      · -- the next element is `fin c`
        subst h2
        rcases hfirst with ⟨a, ha, rfl⟩ | rfl
        · by_cases hlt : c < a
          · have : Dbl.min_step (Dbl.fin a) (Dbl.fin c) = Dbl.fin c := by
              simp [Dbl.min_step, Dbl.lt, hlt]
            rw [this]
            exact Dbl.min_list_bounded c es c ⟨hc, le_refl c⟩ hes
          · have : Dbl.min_step (Dbl.fin a) (Dbl.fin c) = Dbl.fin a := by
              simp [Dbl.min_step, Dbl.lt, hlt]
            rw [this]
            exact Dbl.min_list_bounded c es a ⟨ha, not_lt.mp hlt⟩ hes
        · have : Dbl.min_step (Dbl.inf false) (Dbl.fin c) = Dbl.fin c := by
            simp [Dbl.min_step, Dbl.lt]
          rw [this]
          exact Dbl.min_list_bounded c es c ⟨hc, le_refl c⟩ hes
      · exact ih (Dbl.min_step first e) (Dbl.min_step_magnitude first e hfirst he) hes
          (List.mem_cons_of_mem _ h2)

end DblLemmas

/-- A scale candidate whose depth difference is not zero is, after `abs`, a magnitude. -/
theorem scale_candidate_magnitude {K : Type} [LinearOrderedField K] [FloorRing K]
    (extent : Int) (pd md z coord : K)
    (he : extent ≠ 0) (hz : z - md ≠ 0) :
    (Dbl.abs (BasicImage.scale_candidate extent pd md z coord)).IsMagnitude := by
  have hnum : ((extent : K) * 0.5 * 0.92) ≠ 0 := by
    have : (extent : K) ≠ 0 := by exact_mod_cast he
    norm_num [this]
  unfold BasicImage.scale_candidate
  simp only [Dbl.div, Dbl.mul, hz, if_false]
  by_cases hden : pd / (z - md) * coord = 0
  · right
    simp [hden, hnum, Dbl.abs]
  · left
    simp only [hden, if_false, Dbl.abs]
    exact ⟨_, abs_nonneg _, rfl⟩

/-- The `std::max` of a list is the member that bounds all the others. -/
theorem max_list_eq_of_mem {K : Type} [LinearOrderedField K] [FloorRing K] (v : K) (rest : List K) :
    ∀ first : K, v ∈ first :: rest → (∀ w ∈ first :: rest, w ≤ v) →
      BasicImage.max_list first rest = v := by
  induction rest with
  | nil =>
    intro first hmem _
    simpa [BasicImage.max_list] using (List.mem_singleton.mp hmem).symm
  | cons e es ih =>
    intro first hmem hub
    have hstep : BasicImage.max_list first (e :: es)
        = BasicImage.max_list (if first < e then e else first) es := rfl
    rw [hstep]
    have hfirst : first ≤ v := hub first (List.mem_cons_self _ _)
    have he : e ≤ v := hub e (List.mem_cons_of_mem _ (List.mem_cons_self _ _))
    by_cases hlt : first < e
    · rw [if_pos hlt]
      apply ih
      · rcases List.mem_cons.mp hmem with h | h
        · exact absurd hlt (not_lt.mpr (h ▸ he))
        · exact h
      · intro w hw
        rcases List.mem_cons.mp hw with h | h
        · rw [h]; exact he
        · exact hub w (List.mem_cons_of_mem _ (List.mem_cons_of_mem _ h))
    · rw [if_neg hlt]
      apply ih
      · rcases List.mem_cons.mp hmem with h | h
        · rw [h]; exact List.mem_cons_self _ _
        · rcases List.mem_cons.mp h with h2 | h2
          · have : first = v := le_antisymm hfirst (by rw [h2]; exact not_lt.mp hlt)
            rw [this]; exact List.mem_cons_self _ _
          · exact List.mem_cons_of_mem _ h2
      · intro w hw
        rcases List.mem_cons.mp hw with h | h
        · rw [h]; exact hfirst
        · exact hub w (List.mem_cons_of_mem _ (List.mem_cons_of_mem _ h))

/-! ### The real `<math.h>` -/

/-- The Y axis has magnitude 1, so `normalize` leaves it as it is. -/
theorem real_normalize_YAxis : (Vect3.YAxis : Vect3 ℝ).normalize realLibm = Vect3.YAxis := by
  simp [Vect3.normalize, Vect3.get_magnitude, Vect3.YAxis, realLibm]

/-- The rotation about the Y axis, written out. -/
theorem real_rotation_YAxis (angle : ℝ) (v : Vect3 ℝ) :
    mult_matrix_by_vector3 (Matrix3by3.RotationMatrix realLibm angle Vect3.YAxis) v =
      { x := Real.cos (angle * Real.pi / 180) * v.x + Real.sin (angle * Real.pi / 180) * v.z
        y := v.y
        z := -(Real.sin (angle * Real.pi / 180)) * v.x + Real.cos (angle * Real.pi / 180) * v.z } := by
  simp only [Matrix3by3.RotationMatrix, real_normalize_YAxis]
  simp [mult_matrix_by_vector3, dot_prod, Matrix3by3.row_0, Matrix3by3.row_1, Matrix3by3.row_2,
    Vect3.YAxis, rad_cos, rad_sin, realLibm]

/-- Cosine of 45 degrees. -/
theorem real_cos_45 : Real.cos (45.0 * Real.pi / 180) = Real.sqrt 2 / 2 := by
  rw [show (45.0 : ℝ) * Real.pi / 180 = Real.pi / 4 by norm_num; ring]
  exact Real.cos_pi_div_four

/-- Sine of 45 degrees. -/
theorem real_sin_45 : Real.sin (45.0 * Real.pi / 180) = Real.sqrt 2 / 2 := by
  rw [show (45.0 : ℝ) * Real.pi / 180 = Real.pi / 4 by norm_num; ring]
  exact Real.sin_pi_div_four

/-- Cosine of 90 degrees. -/
theorem real_cos_90 : Real.cos (90.0 * Real.pi / 180) = 0 := by
  rw [show (90.0 : ℝ) * Real.pi / 180 = Real.pi / 2 by norm_num; ring]
  exact Real.cos_pi_div_two

/-- Sine of 90 degrees. -/
theorem real_sin_90 : Real.sin (90.0 * Real.pi / 180) = 1 := by
  rw [show (90.0 : ℝ) * Real.pi / 180 = Real.pi / 2 by norm_num; ring]
  exact Real.sin_pi_div_two

/-- Cosine of 180 degrees. -/
theorem real_cos_180 : Real.cos (180 * Real.pi / 180) = -1 := by
  rw [show (180 : ℝ) * Real.pi / 180 = Real.pi by ring]
  exact Real.cos_pi

/-- Sine of 180 degrees. -/
theorem real_sin_180 : Real.sin (180 * Real.pi / 180) = 0 := by
  rw [show (180 : ℝ) * Real.pi / 180 = Real.pi by ring]
  exact Real.sin_pi

/-- The operator `<` of `Edge` compares the squared lengths. -/
theorem real_op_lt_iff (e1 e2 : Edge ℝ) :
    Edge.op_lt realLibm e1 e2 = decide
      ((e1.end_vtx.x - e1.origin_vtx.x) ^ 2 + (e1.end_vtx.y - e1.origin_vtx.y) ^ 2
          + (e1.end_vtx.z - e1.origin_vtx.z) ^ 2
        < (e2.end_vtx.x - e2.origin_vtx.x) ^ 2 + (e2.end_vtx.y - e2.origin_vtx.y) ^ 2
          + (e2.end_vtx.z - e2.origin_vtx.z) ^ 2) := by
  unfold Edge.op_lt Edge.get_lenght Vect3.get_distance
  simp only [realLibm]
  congr 1
  exact propext (Real.sqrt_lt_sqrt_iff (by positivity))

/-- A distance is below `DIST_THRESHOLD` exactly when its square is below the
square of the threshold. -/
theorem real_distance_lt_threshold (p q : Vect3 ℝ) :
    p.get_distance realLibm q < Edge.DIST_THRESHOLD ↔
      (q.x - p.x) ^ 2 + (q.y - p.y) ^ 2 + (q.z - p.z) ^ 2 < 0.000001 ^ 2 := by
  unfold Vect3.get_distance Edge.DIST_THRESHOLD
  simp only [realLibm]
  exact Real.sqrt_lt' (by norm_num)

/-- A line whose end points coincide has length 0. -/
theorem real_zero_length (line : StraightLine ℝ) (h : line.origin = line.end_) :
    line.get_length realLibm = 0 := by
  simp [StraightLine.get_length, Vect2.get_distance, realLibm, h]

/-- With an infinite step the loop of the line drawing methods runs once. -/
theorem line_loop_infinite_step {K : Type} [LinearOrderedField K] [FloorRing K]
    (line : StraightLine K) (fuel : Nat) (hf : 2 ≤ fuel) :
    BasicImage.line_loop line (Dbl.inf false) fuel (Dbl.fin 0) = some [line.get_coord_from_t 0] := by
  obtain ⟨n, rfl⟩ : ∃ n, fuel = n + 2 := ⟨fuel - 2, by omega⟩
  simp [BasicImage.line_loop, Dbl.lt, Dbl.add, BasicImage.counter_value]


/-! ### The samples of `draw_solid_line` on a line of positive length -/

/-- With a finite step the loop of the line drawing methods samples the multiples
of the step below 1, in order, and ends. -/
theorem line_loop_finite_step {K : Type} [LinearOrderedField K] [FloorRing K]
    (line : StraightLine K) (s : K) (n : Nat)
    (hlt : ∀ k : Nat, k < n → (k : K) * s < 1) (hge : 1 ≤ (n : K) * s) :
    ∀ (d k fuel : Nat), k + d = n → d < fuel →
      BasicImage.line_loop line (Dbl.fin s) fuel (Dbl.fin ((k : K) * s)) =
        some ((List.range' k d).map (fun i : Nat => line.get_coord_from_t ((i : K) * s))) := by
  intro d
  induction d with
  | zero =>
    intro k fuel hk hf
    obtain ⟨f, rfl⟩ : ∃ f, fuel = f + 1 := ⟨fuel - 1, by omega⟩
    have hkn : k = n := by omega
    subst hkn
    simp [BasicImage.line_loop, Dbl.lt, not_lt.mpr hge]
  | succ d ih =>
    intro k fuel hk hf
    obtain ⟨f, rfl⟩ : ∃ f, fuel = f + 1 := ⟨fuel - 1, by omega⟩
    have hkn : k < n := by omega
    have hnext : Dbl.add (Dbl.fin ((k : K) * s)) (Dbl.fin s) = Dbl.fin (((k + 1 : Nat) : K) * s) := by
      simp only [Dbl.add]
      congr 1
      push_cast
      ring
    have hrec := ih (k + 1) f (by omega) (by omega)
    simp only [BasicImage.line_loop, Dbl.lt, decide_eq_true (hlt k hkn), if_true,
      BasicImage.counter_value, hnext, hrec, Option.map_some', List.range'_succ, List.map_cons]

/-- For a line of positive length the step of `draw_solid_line` is the finite quotient
`0.5 / L`. -/
theorem real_solid_step (line : StraightLine ℝ) (hL : 0 < line.get_length realLibm) :
    BasicImage.solid_step realLibm line = Dbl.fin (0.5 / line.get_length realLibm) := by
  simp only [BasicImage.solid_step, Dbl.div, if_neg (ne_of_gt hL), BasicImage.SOLID_LINE_FACTOR]

/-- The multiples of the step `s = 0.5 / L` below 1 are those with a factor below
`ceil (1 / s)`. -/
theorem real_solid_samples_count (line : StraightLine ℝ) (hL : 0 < line.get_length realLibm)
    (k : Nat) :
    k < ⌈1 / (0.5 / line.get_length realLibm)⌉₊ ↔
      (k : ℝ) * (0.5 / line.get_length realLibm) < 1 := by
  have hs : (0 : ℝ) < 0.5 / line.get_length realLibm := by positivity
  rw [Nat.lt_ceil, lt_div_iff₀ hs]

/-- The points that `draw_solid_line` samples on a line of positive length, with enough fuel. -/
theorem real_solid_line_points (line : StraightLine ℝ) (hL : 0 < line.get_length realLibm)
    (fuel : Nat) (hf : ⌈1 / (0.5 / line.get_length realLibm)⌉₊ < fuel) :
    BasicImage.solid_line_points realLibm fuel line =
      some ((List.range ⌈1 / (0.5 / line.get_length realLibm)⌉₊).map
        (fun k : Nat => line.get_coord_from_t ((k : ℝ) * (0.5 / line.get_length realLibm)))) := by
  have hs : (0 : ℝ) < 0.5 / line.get_length realLibm := by positivity
  have hge : (1 : ℝ) ≤ (⌈1 / (0.5 / line.get_length realLibm)⌉₊ : ℝ)
      * (0.5 / line.get_length realLibm) := by
    rw [← div_le_iff₀ hs]
    exact Nat.le_ceil _
  have h := line_loop_finite_step line (0.5 / line.get_length realLibm)
    ⌈1 / (0.5 / line.get_length realLibm)⌉₊
    (fun k hk => (real_solid_samples_count line hL k).mp hk) hge
    ⌈1 / (0.5 / line.get_length realLibm)⌉₊ 0 fuel (by omega) hf
  rw [BasicImage.solid_line_points, real_solid_step line hL, List.range_eq_range']
  simpa using h

/-- The method `draw_solid_line` on a line of positive length, with enough fuel: the calls of
`draw_point` on the samples, in order. -/
theorem real_draw_solid_line (line : StraightLine ℝ) (hL : 0 < line.get_length realLibm)
    (fuel : Nat) (hf : ⌈1 / (0.5 / line.get_length realLibm)⌉₊ < fuel)
    (img : BasicImage ℝ) (brush : BasicBrush ℝ) :
    BasicImage.draw_solid_line realLibm fuel img line brush =
      some (((List.range ⌈1 / (0.5 / line.get_length realLibm)⌉₊).map
          (fun k : Nat => line.get_coord_from_t ((k : ℝ) * (0.5 / line.get_length realLibm)))).foldl
        (fun im pixel_pos => BasicImage.draw_point realLibm im pixel_pos brush) img) := by
  rw [BasicImage.draw_solid_line, real_solid_line_points line hL fuel hf, Option.map_some']

/-- A line whose squared length is positive and at most `((fuel - 1) / 2) ^ 2` is drawn with
that fuel. -/
theorem real_draw_solid_line_some (line : StraightLine ℝ) (fuel : Nat) (hfuel : 1 ≤ fuel)
    (hpos : 0 < (line.end_.x - line.origin.x) ^ 2 + (line.end_.y - line.origin.y) ^ 2)
    (hle : 4 * ((line.end_.x - line.origin.x) ^ 2 + (line.end_.y - line.origin.y) ^ 2)
      ≤ ((fuel : ℝ) - 1) ^ 2)
    (img : BasicImage ℝ) (brush : BasicBrush ℝ) :
    ∃ out : BasicImage ℝ, BasicImage.draw_solid_line realLibm fuel img line brush = some out := by
  have hLdef : line.get_length realLibm
      = Real.sqrt ((line.end_.x - line.origin.x) ^ 2 + (line.end_.y - line.origin.y) ^ 2) := rfl
  have hL : 0 < line.get_length realLibm := by
    rw [hLdef]
    exact Real.sqrt_pos.mpr hpos
  have hf1 : (0 : ℝ) ≤ (fuel : ℝ) - 1 := by
    have : (1 : ℝ) ≤ (fuel : ℝ) := by exact_mod_cast hfuel
    linarith
  have hLle : 2 * line.get_length realLibm ≤ (fuel : ℝ) - 1 := by
    have h2 : line.get_length realLibm ≤ ((fuel : ℝ) - 1) / 2 := by
      rw [hLdef]
      apply Real.sqrt_le_iff.mpr
      refine ⟨by linarith, ?_⟩
      nlinarith
    linarith
  have hceil : ⌈1 / (0.5 / line.get_length realLibm)⌉₊ < fuel := by
    have h1 : 1 / (0.5 / line.get_length realLibm) = 2 * line.get_length realLibm := by
      field_simp
      ring
    have h2 : ⌈1 / (0.5 / line.get_length realLibm)⌉₊ ≤ fuel - 1 := by
      apply Nat.ceil_le.mpr
      rw [h1]
      push_cast [Nat.cast_sub hfuel]
      exact hLle
    omega
  exact ⟨_, real_draw_solid_line line hL fuel hceil img brush⟩

/-- The calls of `draw_solid_line` on a list of lines as a fold over the list. -/
theorem draw_lines_eq_foldl {K : Type} [LinearOrderedField K] [FloorRing K] (m : Libm K)
    (fuel : Nat) (brush : BasicBrush K) (lines : List (StraightLine K)) :
    ∀ acc : Option (BasicImage K),
      lines.foldl (fun (acc : Option (BasicImage K)) (line : StraightLine K) =>
          acc.bind (fun im => BasicImage.draw_solid_line m fuel im line brush)) acc
        = acc.bind (fun im => BasicImage.draw_lines m fuel brush im lines) := by
  induction lines with
  | nil =>
    intro acc
    cases acc <;> rfl
  | cons line rest ih =>
    intro acc
    rw [List.foldl_cons, ih]
    cases acc with
    | none => rfl
    | some im => rfl

/-! ### C1: auto-fit on the unit cube -/

/-- The number `sqrt 2 / 2` is larger than one half. -/
theorem half_lt_q : (1/2 : ℝ) < Real.sqrt 2 / 2 := by
  have h : (1 : ℝ) < Real.sqrt 2 := by
    rw [show (1 : ℝ) = Real.sqrt 1 by simp]
    exact Real.sqrt_lt_sqrt (by norm_num) (by norm_num)
  linarith

/-- The largest of the twelve absolute coordinates of the unit cube is `sqrt 2 / 2`. -/
theorem unit_cube_max :
    BasicImage.max_list |(-0.5 : ℝ)| [|(0.5 : ℝ)|, |(0.5 : ℝ)|, |(-0.5 : ℝ)|,
      |Real.sqrt 2 / 2 * (-0.5) + Real.sqrt 2 / 2 * 0.5|,
      |-(Real.sqrt 2 / 2) * (-0.5) + Real.sqrt 2 / 2 * 0.5|,
      |Real.sqrt 2 / 2 * 0.5 + Real.sqrt 2 / 2 * (-0.5)|,
      |-(Real.sqrt 2 / 2) * 0.5 + Real.sqrt 2 / 2 * (-0.5)|,
      |0 * (-0.5) + 1 * (0.5 : ℝ)|, |-1 * (-0.5) + 0 * (0.5 : ℝ)|,
      |0 * 0.5 + 1 * (-0.5 : ℝ)|, |-1 * 0.5 + 0 * (-0.5 : ℝ)|] = Real.sqrt 2 / 2 := by
  have hq := half_lt_q
  have hq0 : (0 : ℝ) < Real.sqrt 2 / 2 := by linarith
  have e1 : Real.sqrt 2 / 2 * (-0.5) + Real.sqrt 2 / 2 * 0.5 = 0 := by ring
  have e2 : -(Real.sqrt 2 / 2) * (-0.5) + Real.sqrt 2 / 2 * 0.5 = Real.sqrt 2 / 2 := by ring
  have e3 : Real.sqrt 2 / 2 * 0.5 + Real.sqrt 2 / 2 * (-0.5) = 0 := by ring
  have e4 : -(Real.sqrt 2 / 2) * 0.5 + Real.sqrt 2 / 2 * (-0.5) = -(Real.sqrt 2 / 2) := by ring
  rw [e1, e2, e3, e4]
  have a1 : |(-0.5 : ℝ)| = 1/2 := by norm_num [abs_of_neg]
  have a2 : |(0.5 : ℝ)| = 1/2 := by norm_num [abs_of_pos]
  have a3 : |Real.sqrt 2 / 2| = Real.sqrt 2 / 2 := abs_of_pos hq0
  have a4 : |-(Real.sqrt 2 / 2)| = Real.sqrt 2 / 2 := by rw [abs_neg, a3]
  have a5 : |0 * (-0.5) + 1 * (0.5 : ℝ)| = 1/2 := by norm_num [abs_of_pos]
  have a6 : |-1 * (-0.5) + 0 * (0.5 : ℝ)| = 1/2 := by norm_num [abs_of_pos]
  have a7 : |0 * 0.5 + 1 * (-0.5 : ℝ)| = 1/2 := by norm_num [abs_of_neg]
  have a8 : |-1 * 0.5 + 0 * (-0.5 : ℝ)| = 1/2 := by norm_num [abs_of_neg]
  rw [a1, a2, a3, a4, a5, a6, a7, a8, abs_zero]
  apply max_list_eq_of_mem
  · simp
  · intro w hw
    simp only [List.mem_cons, List.mem_singleton, List.not_mem_nil, or_false] at hw
    rcases hw with h | h | h | h | h | h | h | h | h | h | h | h <;> rw [h] <;> linarith

/-- The depth offset estimated for the unit cube. -/
theorem estimate_unit_cube_z_offset (img : BasicImage ℝ) (obj : ObjReader ℝ)
    (htl : obj.bounding_box.top_left = { x := -0.5, y := 0.5, z := 0.5 })
    (hbr : obj.bounding_box.bottom_right = { x := 0.5, y := -0.5, z := -0.5 }) :
    (img.estimate_obj_drawing_params realLibm obj).z_offset = Real.sqrt 2 / 2 * 3.0 := by
  simp only [BasicImage.estimate_obj_drawing_params, htl, hbr, real_rotation_YAxis, real_cos_45, real_sin_45, real_cos_90, real_sin_90]
  rw [unit_cube_max]

/-- The projection distance estimated for the unit cube. -/
theorem estimate_unit_cube_projection_distance (img : BasicImage ℝ) (obj : ObjReader ℝ)
    (htl : obj.bounding_box.top_left = { x := -0.5, y := 0.5, z := 0.5 })
    (hbr : obj.bounding_box.bottom_right = { x := 0.5, y := -0.5, z := -0.5 }) :
    (img.estimate_obj_drawing_params realLibm obj).projection_distance
      = Real.sqrt 2 / 2 * 3.0 * 1.5 := by
  simp only [BasicImage.estimate_obj_drawing_params, htl, hbr, real_rotation_YAxis, real_cos_45, real_sin_45, real_cos_90, real_sin_90]
  rw [unit_cube_max]

/-- The drawing scale estimated for the unit cube on a 1920x1080 image is finite
and at most 441.6, the candidate of the top-left corner at 45 degrees. -/
theorem estimate_unit_cube_scale (img : BasicImage ℝ) (obj : ObjReader ℝ)
    (hw : img.width = 1920) (hh : img.height = 1080)
    (htl : obj.bounding_box.top_left = { x := -0.5, y := 0.5, z := 0.5 })
    (hbr : obj.bounding_box.bottom_right = { x := 0.5, y := -0.5, z := -0.5 }) :
    ∃ s : ℝ, (img.estimate_obj_drawing_params realLibm obj).obj_drawing_scale = Dbl.fin s ∧
      0 ≤ s ∧ s ≤ 441.6 := by
  have hq := half_lt_q
  simp only [BasicImage.estimate_obj_drawing_params, htl, hbr, hw, hh, real_rotation_YAxis, real_cos_45, real_sin_45, real_cos_90, real_sin_90]
  rw [unit_cube_max]
  have e1 : Real.sqrt 2 / 2 * (-0.5) + Real.sqrt 2 / 2 * 0.5 = 0 := by ring
  have e2 : -(Real.sqrt 2 / 2) * (-0.5) + Real.sqrt 2 / 2 * 0.5 = Real.sqrt 2 / 2 := by ring
  have e3 : Real.sqrt 2 / 2 * 0.5 + Real.sqrt 2 / 2 * (-0.5) = 0 := by ring
  have e4 : -(Real.sqrt 2 / 2) * 0.5 + Real.sqrt 2 / 2 * (-0.5) = -(Real.sqrt 2 / 2) := by ring
  rw [e1, e2, e3, e4]
  apply Dbl.min_list_le_member
  · norm_num
  · apply scale_candidate_magnitude
    · norm_num
    · intro h; linarith
  · intro d hd
    simp only [List.mem_cons, List.mem_singleton, List.not_mem_nil, or_false] at hd
    rcases hd with h | h | h | h | h | h | h | h | h | h | h <;> rw [h] <;>
      apply scale_candidate_magnitude <;> first | (intro h2; norm_num at h2; linarith) | norm_num
  · have hy : Dbl.abs (BasicImage.scale_candidate 1080 (Real.sqrt 2 / 2 * 3.0 * 1.5)
        (Real.sqrt 2 / 2 * 3.0) (Real.sqrt 2 / 2) 0.5) = Dbl.fin (441.6 : ℝ) := by
      have hq0 : Real.sqrt 2 / 2 ≠ 0 := by intro h0; rw [h0] at hq; norm_num at hq
      have hz : Real.sqrt 2 / 2 - Real.sqrt 2 / 2 * 3.0 ≠ 0 := by
        intro h2; norm_num at h2; linarith
      have hval : Real.sqrt 2 / 2 * 3.0 * 1.5 / (Real.sqrt 2 / 2 - Real.sqrt 2 / 2 * 3.0) * 0.5
          = -1.125 := by
        have : Real.sqrt 2 / 2 - Real.sqrt 2 / 2 * 3.0 = -2 * (Real.sqrt 2 / 2) := by ring
        rw [this]
        field_simp
        ring
      unfold BasicImage.scale_candidate
      simp only [Dbl.div, Dbl.mul, hz, if_false, hval]
      norm_num [Dbl.abs, abs_of_neg]
    rw [← hy]
    simp

/-- Bounds on `sqrt 2 / 2`. -/
theorem q_bounds : (0.7 : ℝ) < Real.sqrt 2 / 2 ∧ Real.sqrt 2 / 2 < 0.71 ∧
    (Real.sqrt 2 / 2) ^ 2 = 1 / 2 := by
  have h2 : Real.sqrt 2 ^ 2 = 2 := Real.sq_sqrt (by norm_num)
  have h0 : 0 ≤ Real.sqrt 2 := Real.sqrt_nonneg 2
  refine ⟨?_, ?_, ?_⟩
  · nlinarith
  · nlinarith
  · nlinarith

/-- Every coordinate of a corner of the unit cube has square one quarter. -/
theorem unit_cube_corner_coords (v : Vect3 ℝ)
    (hv : v ∈ box_corners (unit_cube_top_left : Vect3 ℝ) unit_cube_bottom_right) :
    v.x ^ 2 = 1 / 4 ∧ v.y ^ 2 = 1 / 4 ∧ v.z ^ 2 = 1 / 4 := by
  simp only [box_corners, unit_cube_top_left, unit_cube_bottom_right, List.mem_cons,
    List.mem_singleton, List.not_mem_nil, or_false] at hv
  rcases hv with h | h | h | h | h | h | h | h <;> rw [h] <;> norm_num

/-- The arithmetic of the projection of a rotated corner of the unit cube. -/
theorem unit_cube_projection_bound (q c s x y z sc : ℝ)
    (hq1 : (0.7 : ℝ) < q) (hq2 : q < 0.71) (hq3 : q ^ 2 = 1 / 2) (hcs : c ^ 2 + s ^ 2 = 1)
    (hx : x ^ 2 = 1 / 4) (hy : y ^ 2 = 1 / 4) (hz : z ^ 2 = 1 / 4)
    (hsc0 : 0 ≤ sc) (hsc1 : sc ≤ 441.6) :
    |(-s * x + c * z) - q * 3.0| ≠ 0 ∧
    |q * 3.0 * 1.5 / |(-s * x + c * z) - q * 3.0| * (c * x + s * z) * sc| < 960 ∧
    |q * 3.0 * 1.5 / |(-s * x + c * z) - q * 3.0| * y * sc| < 540 := by
  have hrot : (c * x + s * z) ^ 2 + (-s * x + c * z) ^ 2 = 1 / 2 := by
    have : (c * x + s * z) ^ 2 + (-s * x + c * z) ^ 2 = (c ^ 2 + s ^ 2) * (x ^ 2 + z ^ 2) := by
      ring
    rw [this, hcs, hx, hz]; norm_num
  have hxabs : |c * x + s * z| ≤ q := abs_le.mpr ⟨by nlinarith, by nlinarith⟩
  have hzabs : |-s * x + c * z| ≤ q := abs_le.mpr ⟨by nlinarith, by nlinarith⟩
  have hyabs : |y| ≤ 1 / 2 := abs_le.mpr ⟨by nlinarith, by nlinarith⟩
  have hzle := (abs_le.mp hzabs).2
  have hz1 : |(-s * x + c * z) - q * 3.0| = q * 3.0 - (-s * x + c * z) := by
    rw [abs_of_neg (by norm_num; linarith)]
    ring
  have hdepth : 2 * q ≤ q * 3.0 - (-s * x + c * z) := by norm_num; linarith
  have hdpos : 0 < q * 3.0 - (-s * x + c * z) := by linarith
  have hratio0 : 0 ≤ q * 3.0 * 1.5 / (q * 3.0 - (-s * x + c * z)) :=
    div_nonneg (by norm_num; linarith) hdpos.le
  have hratio : q * 3.0 * 1.5 / (q * 3.0 - (-s * x + c * z)) ≤ 2.25 := by
    rw [div_le_iff₀ hdpos]; norm_num at hdepth ⊢; linarith
  rw [hz1]
  refine ⟨hdpos.ne', ?_, ?_⟩
  · rw [abs_mul, abs_mul, abs_of_nonneg hratio0, abs_of_nonneg hsc0]
    have h1 : q * 3.0 * 1.5 / (q * 3.0 - (-s * x + c * z)) * |c * x + s * z| ≤ 2.25 * q :=
      mul_le_mul hratio hxabs (abs_nonneg _) (by norm_num)
    have h2 : q * 3.0 * 1.5 / (q * 3.0 - (-s * x + c * z)) * |c * x + s * z| * sc
        ≤ 2.25 * q * 441.6 :=
      mul_le_mul h1 hsc1 hsc0 (by norm_num; linarith)
    have h3 : 2.25 * q * 441.6 < 960 := by norm_num; linarith
    linarith
  · rw [abs_mul, abs_mul, abs_of_nonneg hratio0, abs_of_nonneg hsc0]
    have h1 : q * 3.0 * 1.5 / (q * 3.0 - (-s * x + c * z)) * |y| ≤ 2.25 * (1 / 2) :=
      mul_le_mul hratio hyabs (abs_nonneg _) (by norm_num)
    have h2 : q * 3.0 * 1.5 / (q * 3.0 - (-s * x + c * z)) * |y| * sc
        ≤ 2.25 * (1 / 2) * 441.6 :=
      mul_le_mul h1 hsc1 hsc0 (by norm_num)
    have h3 : (2.25 : ℝ) * (1 / 2) * 441.6 < 540 := by norm_num
    linarith

/-- The projection of a corner of the unit cube, rotated by any angle about the
Y axis, with the parameters estimated on a 1920x1080 image. -/
theorem autofit_unit_cube_any_angle (img : BasicImage ℝ) (obj : ObjReader ℝ)
    (hw : img.width = 1920) (hh : img.height = 1080)
    (htl : obj.bounding_box.top_left = unit_cube_top_left)
    (hbr : obj.bounding_box.bottom_right = unit_cube_bottom_right)
    (angle : ℝ) (v : Vect3 ℝ)
    (hv : v ∈ box_corners (unit_cube_top_left : Vect3 ℝ) unit_cube_bottom_right)
    (fitted : BasicImage ℝ) (hfit : fitted = img.estimate_obj_drawing_params realLibm obj)
    (p : Vect3 ℝ)
    (hp : p = mult_matrix_by_vector3 (Matrix3by3.RotationMatrix realLibm angle Vect3.YAxis) v) :
    ∃ scale x_2d y_2d : ℝ,
      fitted.obj_drawing_scale = Dbl.fin scale ∧
      x_2d = fitted.projection_distance / |p.z - fitted.z_offset| * p.x * scale ∧
      y_2d = fitted.projection_distance / |p.z - fitted.z_offset| * p.y * scale ∧
      fitted.draw_edge_flat p = (Dbl.fin x_2d, Dbl.fin y_2d) ∧
      |x_2d| < 960 ∧ |y_2d| < 540 := by
  obtain ⟨hq1, hq2, hq3⟩ := q_bounds
  obtain ⟨hx, hy, hz⟩ := unit_cube_corner_coords v hv
  have hzo := estimate_unit_cube_z_offset img obj htl hbr
  have hpd := estimate_unit_cube_projection_distance img obj htl hbr
  obtain ⟨sc, hsc, hsc0, hsc1⟩ := estimate_unit_cube_scale img obj hw hh htl hbr
  have hcs := Real.cos_sq_add_sin_sq (angle * Real.pi / 180)
  obtain ⟨hne, hbx, hby⟩ := unit_cube_projection_bound (Real.sqrt 2 / 2)
    (Real.cos (angle * Real.pi / 180)) (Real.sin (angle * Real.pi / 180)) v.x v.y v.z sc
    hq1 hq2 hq3 hcs hx hy hz hsc0 hsc1
  rw [← hfit] at hzo hpd hsc
  rw [real_rotation_YAxis] at hp
  subst hp
  refine ⟨sc, _, _, hsc, rfl, rfl, ?_, ?_, ?_⟩
  · simp only [BasicImage.draw_edge_flat, hzo, hpd, hsc, Dbl.div, Dbl.mul, hne, if_false]
  · rw [hzo, hpd]; exact hbx
  · rw [hzo, hpd]; exact hby

/-- C1: on a 1920x1080 image whose drawing parameters were estimated for the
unit cube, every corner of the cube, rotated by `k` degrees about the Y axis
for `k = 0, ..., 359`, is projected by the formula of `draw_edge` to a finite
point with `|x_2d| < 960` and `|y_2d| < 540`. -/
theorem autofit_unit_cube (img : BasicImage ℝ) (obj : ObjReader ℝ)
    (hw : img.width = 1920) (hh : img.height = 1080)
    (htl : obj.bounding_box.top_left = unit_cube_top_left)
    (hbr : obj.bounding_box.bottom_right = unit_cube_bottom_right)
    (k : Nat) (hk : k < 360) (v : Vect3 ℝ)
    (hv : v ∈ box_corners (unit_cube_top_left : Vect3 ℝ) unit_cube_bottom_right)
    (fitted : BasicImage ℝ) (hfit : fitted = img.estimate_obj_drawing_params realLibm obj)
    (p : Vect3 ℝ)
    (hp : p = mult_matrix_by_vector3
      (Matrix3by3.RotationMatrix realLibm (k : ℝ) Vect3.YAxis) v) :
    ∃ scale x_2d y_2d : ℝ,
      fitted.obj_drawing_scale = Dbl.fin scale ∧
      x_2d = fitted.projection_distance / |p.z - fitted.z_offset| * p.x * scale ∧
      y_2d = fitted.projection_distance / |p.z - fitted.z_offset| * p.y * scale ∧
      fitted.draw_edge_flat p = (Dbl.fin x_2d, Dbl.fin y_2d) ∧
      |x_2d| < 960 ∧ |y_2d| < 540 := by
  have _hrange : k < 360 := hk
  exact autofit_unit_cube_any_angle img obj hw hh htl hbr (k : ℝ) v hv fitted hfit p hp

/-- C1 at the HD 1080 image, the unit cube mesh, 45 degrees and the top-left corner. -/
theorem autofit_unit_cube_witness :
    ∃ scale x_2d y_2d : ℝ,
      ((BasicImage.HD_1080 : BasicImage ℝ).estimate_obj_drawing_params realLibm
          unit_cube_mesh).obj_drawing_scale = Dbl.fin scale ∧
      x_2d = ((BasicImage.HD_1080 : BasicImage ℝ).estimate_obj_drawing_params realLibm
          unit_cube_mesh).projection_distance /
        |(mult_matrix_by_vector3 (Matrix3by3.RotationMatrix realLibm ((45 : Nat) : ℝ) Vect3.YAxis)
            unit_cube_top_left).z -
          ((BasicImage.HD_1080 : BasicImage ℝ).estimate_obj_drawing_params realLibm
            unit_cube_mesh).z_offset| *
        (mult_matrix_by_vector3 (Matrix3by3.RotationMatrix realLibm ((45 : Nat) : ℝ) Vect3.YAxis)
            unit_cube_top_left).x * scale ∧
      y_2d = ((BasicImage.HD_1080 : BasicImage ℝ).estimate_obj_drawing_params realLibm
          unit_cube_mesh).projection_distance /
        |(mult_matrix_by_vector3 (Matrix3by3.RotationMatrix realLibm ((45 : Nat) : ℝ) Vect3.YAxis)
            unit_cube_top_left).z -
          ((BasicImage.HD_1080 : BasicImage ℝ).estimate_obj_drawing_params realLibm
            unit_cube_mesh).z_offset| *
        (mult_matrix_by_vector3 (Matrix3by3.RotationMatrix realLibm ((45 : Nat) : ℝ) Vect3.YAxis)
            unit_cube_top_left).y * scale ∧
      ((BasicImage.HD_1080 : BasicImage ℝ).estimate_obj_drawing_params realLibm
          unit_cube_mesh).draw_edge_flat
        (mult_matrix_by_vector3 (Matrix3by3.RotationMatrix realLibm ((45 : Nat) : ℝ) Vect3.YAxis)
            unit_cube_top_left) = (Dbl.fin x_2d, Dbl.fin y_2d) ∧
      |x_2d| < 960 ∧ |y_2d| < 540 :=
  autofit_unit_cube BasicImage.HD_1080 unit_cube_mesh rfl rfl rfl rfl 45 (by decide)
    unit_cube_top_left (List.mem_cons_self _ _) _ rfl _ rfl

/-! ### C2: `to_center` -/

/-- C2 (the code differs): on the one-triangle mesh, whose bounding box is
centred at `(1, 1, 0)`, `to_center` computes the displacement `(-1, -1, 0)` and
moves the edge pool and the bounding box by it, but the face list is left where
it was: the stored faces are not the faces moved by the displacement. -/
theorem to_center_leaves_faces_in_place :
    (ObjReader.read_from_file [(triangle_face : Face ℚ)] 3).bind ObjReader.calculate_bb
      = some triangle_mesh ∧
    ObjReader.to_center_displacement (triangle_mesh : ObjReader ℚ) = { x := -1, y := -1, z := 0 } ∧
    (ObjReader.to_center (triangle_mesh : ObjReader ℚ)).faces = [triangle_face] ∧
    (ObjReader.to_center (triangle_mesh : ObjReader ℚ)).faces
      ≠ [(triangle_face : Face ℚ).move { x := -1, y := -1, z := 0 }] ∧
    (ObjReader.to_center (triangle_mesh : ObjReader ℚ)).edge_pool
      = (triangle_mesh : ObjReader ℚ).edge_pool.map (fun e => e.move { x := -1, y := -1, z := 0 }) ∧
    (ObjReader.to_center (triangle_mesh : ObjReader ℚ)).bounding_box
      = (triangle_mesh : ObjReader ℚ).bounding_box.move { x := -1, y := -1, z := 0 } := by
  have hd : ObjReader.to_center_displacement (triangle_mesh : ObjReader ℚ)
      = { x := -1, y := -1, z := 0 } := by
    norm_num [ObjReader.to_center_displacement, triangle_mesh, Cube.get_center, Cube.create_faces,
      Vect3.get_midpoint, Vect3.get_inverted]
  refine ⟨?_, hd, rfl, ?_, ?_, ?_⟩
  · decide
  · norm_num [ObjReader.to_center, triangle_face, triangle_mesh, Face.move, Vect3.op_add]
  · simp only [ObjReader.to_center, hd]
  · simp only [ObjReader.to_center, hd]

/-! ### C3: `ObjReader::rotate_around_axis` -/

/-- C3 (the code differs): rotating the one-triangle mesh by 180 degrees about
the Y axis rotates the face list, but the edge pool is left as it was, and it
differs from the pool rotated by `Edge::rotate_around_axis`. -/
theorem rotate_around_axis_skips_edge_pool :
    (ObjReader.rotate_around_axis realLibm (triangle_mesh : ObjReader ℝ) 180 Vect3.YAxis).faces
      = [{ vertices := [{ x := 0, y := 0, z := 0 }, { x := -2, y := 0, z := 0 },
                        { x := 0, y := 2, z := 0 }] }] ∧
    (ObjReader.rotate_around_axis realLibm (triangle_mesh : ObjReader ℝ) 180 Vect3.YAxis).edge_pool
      = (triangle_mesh : ObjReader ℝ).edge_pool ∧
    (triangle_mesh : ObjReader ℝ).edge_pool.map
        (fun e => e.rotate_around_axis realLibm 180 Vect3.YAxis)
      = [{ origin_vtx := { x := 0, y := 0, z := 0 }, end_vtx := { x := -2, y := 0, z := 0 } },
         { origin_vtx := { x := -2, y := 0, z := 0 }, end_vtx := { x := 0, y := 2, z := 0 } },
         { origin_vtx := { x := 0, y := 2, z := 0 }, end_vtx := { x := 0, y := 0, z := 0 } }] ∧
    (ObjReader.rotate_around_axis realLibm (triangle_mesh : ObjReader ℝ) 180 Vect3.YAxis).edge_pool
      ≠ (triangle_mesh : ObjReader ℝ).edge_pool.map
          (fun e => e.rotate_around_axis realLibm 180 Vect3.YAxis) := by
  have hpool : (triangle_mesh : ObjReader ℝ).edge_pool.map
        (fun e => e.rotate_around_axis realLibm 180 Vect3.YAxis)
      = [{ origin_vtx := { x := 0, y := 0, z := 0 }, end_vtx := { x := -2, y := 0, z := 0 } },
         { origin_vtx := { x := -2, y := 0, z := 0 }, end_vtx := { x := 0, y := 2, z := 0 } },
         { origin_vtx := { x := 0, y := 2, z := 0 }, end_vtx := { x := 0, y := 0, z := 0 } }] := by
    simp [triangle_mesh, Edge.rotate_around_axis, real_rotation_YAxis, real_cos_180, real_sin_180]
  refine ⟨?_, rfl, hpool, ?_⟩
  · simp [ObjReader.rotate_around_axis, triangle_mesh, triangle_face, Face.rotate_around_axis,
      real_rotation_YAxis, real_cos_180, real_sin_180]
  · rw [hpool]
    norm_num [ObjReader.rotate_around_axis, triangle_mesh]


/-! ### C4: `clear_edge_pool` -/

/-- C4 (the code differs): for the two triangles `A B C` and `B A D`, the pool
read from the file holds `(A, B)` and its reversal `(B, A)`; the four edges of
length 1 keep their order in the sort, the two copies are not neighbours, and
`clear_edge_pool` keeps both although they are equal under `==`. -/
theorem clear_edge_pool_keeps_reversed_edge :
    (ObjReader.read_from_file (shared_edge_faces : List (Face ℝ)) 4).map
        (fun r => (ObjReader.clear_edge_pool realLibm r).edge_pool)
      = some
        [{ origin_vtx := { x := 0, y := 0, z := 0 }, end_vtx := { x := 1, y := 0, z := 0 } },
         { origin_vtx := { x := 1, y := 0, z := 0 }, end_vtx := { x := 1, y := 1, z := 0 } },
         { origin_vtx := { x := 1, y := 0, z := 0 }, end_vtx := { x := 0, y := 0, z := 0 } },
         { origin_vtx := { x := 0, y := 0, z := 0 }, end_vtx := { x := 0, y := -1, z := 0 } },
         { origin_vtx := { x := 1, y := 1, z := 0 }, end_vtx := { x := 0, y := 0, z := 0 } },
         { origin_vtx := { x := 0, y := -1, z := 0 }, end_vtx := { x := 1, y := 0, z := 0 } }] ∧
    Edge.op_eq realLibm
      { origin_vtx := { x := 0, y := 0, z := 0 }, end_vtx := { x := 1, y := 0, z := 0 } }
      { origin_vtx := { x := 1, y := 0, z := 0 }, end_vtx := { x := 0, y := 0, z := 0 } } = true := by
  constructor
  · simp only [ObjReader.read_from_file, ObjReader.read_edge_pool, ObjReader.face_edges,
      shared_edge_faces, ObjReader.clear_edge_pool, std_sort]
    norm_num [sort_insert, real_op_lt_iff, std_unique, std_unique_from, Edge.op_eq,
      real_distance_lt_threshold]
  · norm_num [Edge.op_eq, real_distance_lt_threshold]

/-! ### C5 and C6: blend modes -/

section ColorTheorems

variable {K : Type} [LinearOrderedField K]

/-- C5: every channel of `A.over(B)`, alpha included, is `A.c + B.c * (1 - A.a)`;
nothing is clamped. -/
theorem over_channels (A B : BasicColor K) :
    (A.over B).r = A.r + B.r * (1 - A.a) ∧ (A.over B).g = A.g + B.g * (1 - A.a) ∧
    (A.over B).b = A.b + B.b * (1 - A.a) ∧ (A.over B).a = A.a + B.a * (1 - A.a) :=
  ⟨rfl, rfl, rfl, rfl⟩

/-- C6: every channel of `A.multiply(B)` is the channel of `A` when the channel
is negative in both operands, and the product of the two channels otherwise. -/
theorem multiply_channels (A B : BasicColor K) :
    (A.multiply B).r = (if A.r < 0 ∧ B.r < 0 then A.r else A.r * B.r) ∧
    (A.multiply B).g = (if A.g < 0 ∧ B.g < 0 then A.g else A.g * B.g) ∧
    (A.multiply B).b = (if A.b < 0 ∧ B.b < 0 then A.b else A.b * B.b) ∧
    (A.multiply B).a = (if A.a < 0 ∧ B.a < 0 then A.a else A.a * B.a) :=
  ⟨rfl, rfl, rfl, rfl⟩

end ColorTheorems

/-! ### C7 and C8: pixel addressing -/

section PixelTheorems

/-- C7: a write at a coordinate outside the frame leaves the pixel buffer (and
the whole image) as it was, whatever the brush. -/
theorem draw_single_pixel_out_of_frame {K : Type} [LinearOrderedField K] [FloorRing K]
    (img : BasicImage K) (xi yi : Int) (brush : BasicBrush K)
    (h : xi < 0 ∨ xi ≥ img.width ∨ yi < 0 ∨ yi ≥ img.height) :
    (img.draw_single_pixel xi yi brush).pixels = img.pixels ∧
    img.draw_single_pixel xi yi brush = img := by
  have hguard : img.get_index_from_coords xi yi < 0 ∨
      img.get_index_from_coords xi yi ≥ img.max_index ∨ xi < 0 ∨ xi > img.width - 1 ∨
      yi < 0 ∨ yi > img.height - 1 := by
    rcases h with h | h | h | h
    · exact Or.inr (Or.inr (Or.inl h))
    · exact Or.inr (Or.inr (Or.inr (Or.inl (by omega))))
    · exact Or.inr (Or.inr (Or.inr (Or.inr (Or.inl h))))
    · exact Or.inr (Or.inr (Or.inr (Or.inr (Or.inr (by omega)))))
  have hsame : img.draw_single_pixel xi yi brush = img := by
    unfold BasicImage.draw_single_pixel
    exact if_pos hguard
  exact ⟨by rw [hsame], hsame⟩

/-- C7 at the 2x2 sample image: a white brush at column 2 of row 0. -/
theorem draw_single_pixel_out_of_frame_witness :
    (sample_image.draw_single_pixel 2 0 (BasicBrush.of_color (BasicColor.rgb 1 1 1))).pixels
        = sample_image.pixels ∧
    sample_image.draw_single_pixel 2 0 (BasicBrush.of_color (BasicColor.rgb 1 1 1))
        = sample_image :=
  draw_single_pixel_out_of_frame sample_image 2 0 (BasicBrush.of_color (BasicColor.rgb 1 1 1))
    (Or.inr (Or.inl (by decide)))

/-- C8: for an in-frame coordinate the index is
`((yi+1)*width - (width-xi)) * channels = (yi*width + xi) * channels`, it lies in
`[0, width*height*channels - channels]`, and the byte ranges
`[index, index+channels)` of two different in-frame coordinates share no byte. -/
theorem get_index_from_coords_in_frame {K : Type} (img : BasicImage K) (xi yi : Int)
    (hw : 1 ≤ img.width) (hc : 0 ≤ img.channels)
    (hx : 0 ≤ xi ∧ xi < img.width) (hy : 0 ≤ yi ∧ yi < img.height) :
    img.get_index_from_coords xi yi = ((yi + 1) * img.width - (img.width - xi)) * img.channels ∧
    img.get_index_from_coords xi yi = (yi * img.width + xi) * img.channels ∧
    0 ≤ img.get_index_from_coords xi yi ∧
    img.get_index_from_coords xi yi ≤ img.width * img.height * img.channels - img.channels ∧
    ∀ xj yj : Int, 0 ≤ xj ∧ xj < img.width → 0 ≤ yj ∧ yj < img.height → (xj, yj) ≠ (xi, yi) →
      ∀ byte : Int,
        ¬ ((img.get_index_from_coords xi yi ≤ byte ∧
              byte < img.get_index_from_coords xi yi + img.channels) ∧
           (img.get_index_from_coords xj yj ≤ byte ∧
              byte < img.get_index_from_coords xj yj + img.channels)) := by
  have hidx : ∀ a b : Int, img.get_index_from_coords a b = (b * img.width + a) * img.channels := by
    intro a b
    unfold BasicImage.get_index_from_coords
    ring
  refine ⟨rfl, hidx xi yi, ?_, ?_, ?_⟩
  · rw [hidx]
    exact mul_nonneg (add_nonneg (mul_nonneg hy.1 (by omega)) hx.1) hc
  · rw [hidx]
    have h1 : yi * img.width + xi + 1 ≤ img.width * img.height := by nlinarith [hx.1, hx.2, hy.1, hy.2]
    have h2 : (yi * img.width + xi + 1) * img.channels ≤ img.width * img.height * img.channels :=
      mul_le_mul_of_nonneg_right h1 hc
    linarith
  · intro xj yj hxj hyj hne byte hboth
    rw [hidx xi yi, hidx xj yj] at hboth
    obtain ⟨⟨h1, h2⟩, h3, h4⟩ := hboth
    have hpix : yj * img.width + xj ≠ yi * img.width + xi := by
      intro heq
      apply hne
      have hyy : yj = yi := by
        rcases lt_trichotomy yj yi with hlt | heq2 | hgt
        · exfalso; nlinarith [hx.1, hx.2, hxj.1, hxj.2]
        · exact heq2
        · exfalso; nlinarith [hx.1, hx.2, hxj.1, hxj.2]
      subst hyy
      have hxx : xj = xi := by linarith
      rw [hxx]
    rcases lt_or_gt_of_ne hpix with hlt | hgt
    · have : (yj * img.width + xj + 1) * img.channels ≤ (yi * img.width + xi) * img.channels :=
        mul_le_mul_of_nonneg_right (by omega) hc
      linarith
    · have : (yi * img.width + xi + 1) * img.channels ≤ (yj * img.width + xj) * img.channels :=
        mul_le_mul_of_nonneg_right (by omega) hc
      linarith

/-- C8 at the 2x2 sample image, pixel (1, 1). -/
theorem get_index_from_coords_in_frame_witness :
    sample_image.get_index_from_coords 1 1
        = ((1 + 1) * sample_image.width - (sample_image.width - 1)) * sample_image.channels ∧
    sample_image.get_index_from_coords 1 1
        = (1 * sample_image.width + 1) * sample_image.channels ∧
    0 ≤ sample_image.get_index_from_coords 1 1 ∧
    sample_image.get_index_from_coords 1 1
        ≤ sample_image.width * sample_image.height * sample_image.channels
            - sample_image.channels ∧
    ∀ xj yj : Int, 0 ≤ xj ∧ xj < sample_image.width → 0 ≤ yj ∧ yj < sample_image.height →
      (xj, yj) ≠ (1, 1) →
      ∀ byte : Int,
        ¬ ((sample_image.get_index_from_coords 1 1 ≤ byte ∧
              byte < sample_image.get_index_from_coords 1 1 + sample_image.channels) ∧
           (sample_image.get_index_from_coords xj yj ≤ byte ∧
              byte < sample_image.get_index_from_coords xj yj + sample_image.channels)) :=
  get_index_from_coords_in_frame sample_image 1 1 (by decide) (by decide)
    ⟨by decide, by decide⟩ ⟨by decide, by decide⟩

end PixelTheorems

/-! ### C9: lines of length zero -/

/-- C9, as stated, fails: for the line from the origin to the origin the length
is 0 and both step divisions divide by it; the quotient is `+inf`. -/
theorem zero_length_line_divides_by_zero :
    (zero_length_line : StraightLine ℝ).get_length realLibm = 0 ∧
    BasicImage.solid_step realLibm (zero_length_line : StraightLine ℝ) = Dbl.inf false ∧
    BasicImage.dotted_step realLibm (zero_length_line : StraightLine ℝ) = Dbl.inf false := by
  have h := real_zero_length (zero_length_line : StraightLine ℝ) rfl
  refine ⟨h, ?_, ?_⟩
  · norm_num [BasicImage.solid_step, h, Dbl.div, BasicImage.SOLID_LINE_FACTOR]
  · norm_num [BasicImage.dotted_step, h, Dbl.div, BasicImage.DOTTED_LINE_FACTOR]

/-- C9, amended: for a line whose end points coincide both steps are the
quotient `+inf` of a division by the zero length; with that step and a fuel of
at least 2 both loops end after one pass, and `draw_solid_line` and
`draw_dotted_line` call `draw_point` exactly once, on the floored origin. -/
theorem zero_length_line_single_point (line : StraightLine ℝ) (h : line.origin = line.end_)
    (fuel : Nat) (hf : 2 ≤ fuel) :
    BasicImage.solid_step realLibm line = Dbl.inf false ∧
    BasicImage.dotted_step realLibm line = Dbl.inf false ∧
    BasicImage.solid_line_points realLibm fuel line = some [line.get_coord_from_t 0] ∧
    BasicImage.dotted_line_points realLibm fuel line = some [line.get_coord_from_t 0] ∧
    (∀ (img : BasicImage ℝ) (brush : BasicBrush ℝ),
      BasicImage.draw_solid_line realLibm fuel img line brush
        = some (BasicImage.draw_point realLibm img (line.get_coord_from_t 0) brush)) ∧
    (∀ (img : BasicImage ℝ) (brush : BasicBrush ℝ),
      BasicImage.draw_dotted_line realLibm fuel img line brush
        = some (BasicImage.draw_point realLibm img (line.get_coord_from_t 0) brush)) := by
  have hlen := real_zero_length line h
  have hs : BasicImage.solid_step realLibm line = Dbl.inf false := by
    norm_num [BasicImage.solid_step, hlen, Dbl.div, BasicImage.SOLID_LINE_FACTOR]
  have hd : BasicImage.dotted_step realLibm line = Dbl.inf false := by
    norm_num [BasicImage.dotted_step, hlen, Dbl.div, BasicImage.DOTTED_LINE_FACTOR]
  have hsp : BasicImage.solid_line_points realLibm fuel line = some [line.get_coord_from_t 0] := by
    rw [BasicImage.solid_line_points, hs]; exact line_loop_infinite_step line fuel hf
  have hdp : BasicImage.dotted_line_points realLibm fuel line = some [line.get_coord_from_t 0] := by
    rw [BasicImage.dotted_line_points, hd]; exact line_loop_infinite_step line fuel hf
  refine ⟨hs, hd, hsp, hdp, ?_, ?_⟩
  · intro img brush
    simp [BasicImage.draw_solid_line, hsp]
  · intro img brush
    simp [BasicImage.draw_dotted_line, hdp]

/-- C9, amended, at the line from the origin to the origin with fuel 2. -/
theorem zero_length_line_single_point_witness :
    BasicImage.solid_step realLibm (zero_length_line : StraightLine ℝ) = Dbl.inf false ∧
    BasicImage.dotted_step realLibm (zero_length_line : StraightLine ℝ) = Dbl.inf false ∧
    BasicImage.solid_line_points realLibm 2 (zero_length_line : StraightLine ℝ)
      = some [(zero_length_line : StraightLine ℝ).get_coord_from_t 0] ∧
    BasicImage.dotted_line_points realLibm 2 (zero_length_line : StraightLine ℝ)
      = some [(zero_length_line : StraightLine ℝ).get_coord_from_t 0] ∧
    (∀ (img : BasicImage ℝ) (brush : BasicBrush ℝ),
      BasicImage.draw_solid_line realLibm 2 img zero_length_line brush
        = some (BasicImage.draw_point realLibm img
            ((zero_length_line : StraightLine ℝ).get_coord_from_t 0) brush)) ∧
    (∀ (img : BasicImage ℝ) (brush : BasicBrush ℝ),
      BasicImage.draw_dotted_line realLibm 2 img zero_length_line brush
        = some (BasicImage.draw_point realLibm img
            ((zero_length_line : StraightLine ℝ).get_coord_from_t 0) brush)) :=
  zero_length_line_single_point zero_length_line rfl 2 (le_refl 2)

/-! ### C10: the empty mesh -/

/-- C10 (the code differs): for a file without faces `read_from_file` leaves the
empty reader state, `clear_edge_pool` keeps it, and `calculate_bb` then reads
`get_faces()[0]` outside the range of the empty face list, so the constructor
of `ObjReader` does not produce a mesh. -/
theorem empty_mesh_out_of_range {K : Type} [LinearOrderedField K] (m : Libm K) :
    ObjReader.read_from_file ([] : List (Face K)) 0 = some empty_mesh ∧
    ObjReader.clear_edge_pool m (empty_mesh : ObjReader K) = empty_mesh ∧
    ObjReader.calculate_bb (empty_mesh : ObjReader K) = none ∧
    ObjReader.create m ([] : List (Face K)) 0 = none :=
  ⟨rfl, rfl, rfl, rfl⟩


/-! ### C11: `StraightLine::get_coord_from_t` -/

/-- C11: `get_coord_from_t(t)` is the floored origin for `t < 0`, the floored end
for `t > 1`, the floored interpolation `(1-t)*origin + t*end` for `0 <= t <= 1`,
and both coordinates of the result are integers. -/
theorem get_coord_from_t_cases {K : Type} [LinearOrderedField K] [FloorRing K]
    (line : StraightLine K) (t : K) :
    (t < 0 → line.get_coord_from_t t
      = { x := ((⌊line.origin.x⌋ : Int) : K), y := ((⌊line.origin.y⌋ : Int) : K) }) ∧
    (t > 1 → line.get_coord_from_t t
      = { x := ((⌊line.end_.x⌋ : Int) : K), y := ((⌊line.end_.y⌋ : Int) : K) }) ∧
    (0 ≤ t ∧ t ≤ 1 → line.get_coord_from_t t
      = { x := ((⌊(1 - t) * line.origin.x + t * line.end_.x⌋ : Int) : K),
          y := ((⌊(1 - t) * line.origin.y + t * line.end_.y⌋ : Int) : K) }) ∧
    (∃ i j : Int, line.get_coord_from_t t = { x := (i : K), y := (j : K) }) := by
  refine ⟨?_, ?_, ?_, ?_⟩
  · intro h
    have h1 : ¬ t > 1 := by intro h2; linarith
    simp [StraightLine.get_coord_from_t, h, h1]
  · intro h
    simp [StraightLine.get_coord_from_t, h]
  · rintro ⟨h0, h1⟩
    have h2 : ¬ t > 1 := not_lt.mpr h1
    have h3 : ¬ t < 0 := not_lt.mpr h0
    simp [StraightLine.get_coord_from_t, h2, h3]
  · exact ⟨_, _, rfl⟩

/-- C11 at the sample line and `t = 2`. -/
theorem get_coord_from_t_cases_witness :
    ((2 : ℚ) < 0 → (sample_line : StraightLine ℚ).get_coord_from_t 2
      = { x := ((⌊(sample_line : StraightLine ℚ).origin.x⌋ : Int) : ℚ),
          y := ((⌊(sample_line : StraightLine ℚ).origin.y⌋ : Int) : ℚ) }) ∧
    ((2 : ℚ) > 1 → (sample_line : StraightLine ℚ).get_coord_from_t 2
      = { x := ((⌊(sample_line : StraightLine ℚ).end_.x⌋ : Int) : ℚ),
          y := ((⌊(sample_line : StraightLine ℚ).end_.y⌋ : Int) : ℚ) }) ∧
    ((0 : ℚ) ≤ 2 ∧ (2 : ℚ) ≤ 1 → (sample_line : StraightLine ℚ).get_coord_from_t 2
      = { x := ((⌊(1 - 2) * (sample_line : StraightLine ℚ).origin.x
                  + 2 * (sample_line : StraightLine ℚ).end_.x⌋ : Int) : ℚ),
          y := ((⌊(1 - 2) * (sample_line : StraightLine ℚ).origin.y
                  + 2 * (sample_line : StraightLine ℚ).end_.y⌋ : Int) : ℚ) }) ∧
    (∃ i j : Int, (sample_line : StraightLine ℚ).get_coord_from_t 2
      = { x := (i : ℚ), y := (j : ℚ) }) :=
  get_coord_from_t_cases sample_line 2

/-! ### C12: `Edge::operator==` -/

/-- C12: `Edge(P,Q) == Edge(Q,P)` is true for all points, and `e1 == e2` holds
exactly when `e2 == e1` holds. -/
theorem edge_op_eq_symmetric (P Q : Vect3 ℝ) (e1 e2 : Edge ℝ) :
    Edge.op_eq realLibm { origin_vtx := P, end_vtx := Q } { origin_vtx := Q, end_vtx := P } = true ∧
    (Edge.op_eq realLibm e1 e2 = true ↔ Edge.op_eq realLibm e2 e1 = true) := by
  constructor
  · simp only [Edge.op_eq, decide_eq_true_eq]
    right
    constructor <;>
    · rw [real_distance_lt_threshold]
      norm_num
  · have hsym : ∀ p q : Vect3 ℝ, p.get_distance realLibm q = q.get_distance realLibm p := by
      intro p q
      unfold Vect3.get_distance
      congr 1
      ring
    simp only [Edge.op_eq, decide_eq_true_eq]
    rw [hsym e2.origin_vtx e1.origin_vtx, hsym e2.end_vtx e1.end_vtx,
      hsym e2.origin_vtx e1.end_vtx, hsym e2.end_vtx e1.origin_vtx]
    tauto


/-! ### C13: rotation by the angle zero -/

/-- C13: for every non-zero axis, `RotationMatrix(0, axis)` is the identity matrix,
entry by entry. -/
theorem rotation_matrix_zero_angle (axis : Vect3 ℝ) (hne : axis ≠ { x := 0, y := 0, z := 0 }) :
    Matrix3by3.RotationMatrix realLibm 0 axis = Matrix3by3.IdentityMatrix := by
  have _h := hne
  simp [Matrix3by3.RotationMatrix, Matrix3by3.IdentityMatrix, rad_cos, rad_sin, realLibm]

/-- C13 at the axis `(0, 0, 2)`. -/
theorem rotation_matrix_zero_angle_witness :
    Matrix3by3.RotationMatrix realLibm 0 ({ x := 0, y := 0, z := 2 } : Vect3 ℝ)
      = Matrix3by3.IdentityMatrix :=
  rotation_matrix_zero_angle { x := 0, y := 0, z := 2 } (by
    intro h
    have := congrArg Vect3.z h
    norm_num at this)


/-- The square root of 4. -/
theorem real_sqrt_four : Real.sqrt 4 = 2 := by
  rw [show (4 : ℝ) = 2 ^ 2 by norm_num]
  exact Real.sqrt_sq (by norm_num)

/-! ### C14: `Vect3::normalize` -/

/-- C14 (the code differs): `normalize` divides `x` once and `y` twice by the
magnitude and never `z`.  The vector `(0, 0, 2)` stays `(0, 0, 2)`, of magnitude
2; the vector `(0, 2, 0)` becomes `(0, 1/2, 0)`; and the rotation matrix of 90
degrees about `2 * ZAxis` has the entry `a01 = -2`, about `ZAxis` it is `-1`. -/
theorem normalize_skips_z :
    Vect3.normalize realLibm ({ x := 0, y := 0, z := 2 } : Vect3 ℝ) = { x := 0, y := 0, z := 2 } ∧
    Vect3.get_magnitude realLibm
      (Vect3.normalize realLibm ({ x := 0, y := 0, z := 2 } : Vect3 ℝ)) = 2 ∧
    Vect3.normalize realLibm ({ x := 0, y := 2, z := 0 } : Vect3 ℝ)
      = { x := 0, y := 1 / 2, z := 0 } ∧
    (Matrix3by3.RotationMatrix realLibm 90 (Vect3.ZAxis.op_mul 2)).a01 = -2 ∧
    (Matrix3by3.RotationMatrix realLibm 90 (Vect3.ZAxis : Vect3 ℝ)).a01 = -1 := by
  have hmz : Vect3.get_magnitude realLibm ({ x := 0, y := 0, z := 2 } : Vect3 ℝ) = 2 := by
    simp only [Vect3.get_magnitude, realLibm]
    norm_num [real_sqrt_four]
  have hmy : Vect3.get_magnitude realLibm ({ x := 0, y := 2, z := 0 } : Vect3 ℝ) = 2 := by
    simp only [Vect3.get_magnitude, realLibm]
    norm_num [real_sqrt_four]
  have hm1 : Vect3.get_magnitude realLibm (Vect3.ZAxis : Vect3 ℝ) = 1 := by
    simp [Vect3.get_magnitude, realLibm, Vect3.ZAxis]
  have hnz : Vect3.normalize realLibm ({ x := 0, y := 0, z := 2 } : Vect3 ℝ)
      = { x := 0, y := 0, z := 2 } := by
    simp only [Vect3.normalize, hmz]
    norm_num
  have hs : Real.sin (90 * Real.pi / 180) = 1 := by
    rw [show (90 : ℝ) * Real.pi / 180 = Real.pi / 2 by ring]
    exact Real.sin_pi_div_two
  have hc : Real.cos (90 * Real.pi / 180) = 0 := by
    rw [show (90 : ℝ) * Real.pi / 180 = Real.pi / 2 by ring]
    exact Real.cos_pi_div_two
  refine ⟨hnz, ?_, ?_, ?_, ?_⟩
  · rw [hnz, hmz]
  · simp only [Vect3.normalize, hmy]
    norm_num
  · have h2 : (Vect3.ZAxis : Vect3 ℝ).op_mul 2 = { x := 0, y := 0, z := 2 } := by
      simp [Vect3.op_mul, Vect3.ZAxis]
    simp only [Matrix3by3.RotationMatrix, h2, hnz]
    simp only [rad_cos, rad_sin, realLibm, hs, hc]
    norm_num
  · have hn1 : Vect3.normalize realLibm (Vect3.ZAxis : Vect3 ℝ) = Vect3.ZAxis := by
      simp only [Vect3.normalize, hm1]
      simp
    simp only [Matrix3by3.RotationMatrix, hn1]
    simp only [rad_cos, rad_sin, realLibm, hs, hc]
    norm_num [Vect3.ZAxis]


/-! ### C15 and C16: rotation of 2D points -/

/-- C15: `rotate_around(c, theta)` followed by `rotate_around(c, -theta)` gives
the point back. -/
theorem rotate_around_round_trip (p c : Vect2 ℝ) (theta : ℝ) :
    Vect2.rotate_around realLibm (Vect2.rotate_around realLibm p c theta) c (-theta) = p := by
  have hcs := Real.cos_sq_add_sin_sq (theta * Real.pi / 180)
  have hneg : -theta * Real.pi / 180 = -(theta * Real.pi / 180) := by ring
  simp only [Vect2.rotate_around, rad_cos, rad_sin, realLibm, hneg, Real.cos_neg, Real.sin_neg]
  cases p with
  | mk px py =>
    simp only [Vect2.mk.injEq]
    constructor
    · linear_combination (px - c.x) * hcs
    · linear_combination (py - c.y) * hcs

/-- C16: `rotate_around` about the pivot `(0, 0)` gives the same point as `rotate`. -/
theorem rotate_around_origin_eq_rotate {K : Type} [LinearOrderedField K] (m : Libm K)
    (p : Vect2 K) (theta : K) :
    Vect2.rotate_around m p { x := 0, y := 0 } theta = Vect2.rotate m p theta := by
  simp only [Vect2.rotate_around, Vect2.rotate, Vect2.mk.injEq]
  constructor <;> ring

/-- When every step has a result, `all_some` collects the results. -/
theorem all_some_map_some {α β : Type} (f : α → Option β) (g : α → β) (l : List α)
    (h : ∀ x ∈ l, f x = some (g x)) : all_some (l.map f) = some (l.map g) := by
  induction l with
  | nil => rfl
  | cons a as ih =>
    have ha := h a (List.mem_cons_self _ _)
    have has := ih (fun x hx => h x (List.mem_cons_of_mem _ hx))
    simp [List.map_cons, ha, all_some, has]

/-- The operator `[]` of `Polygon` inside the range of the vertices. -/
theorem op_index_of_lt {K : Type} (poly : Polygon K) (d : Vect2 K) (i : Nat)
    (hi : i < poly.vertices.length) :
    poly.op_index (i : Int) = some (poly.vertices.getD i d) ∧
    poly.vertices[i]? = some (poly.vertices.getD i d) := by
  have h : poly.vertices[i]? = some (poly.vertices.getD i d) := by
    rw [List.getD_eq_getElem?_getD, List.getElem?_eq_getElem hi]
    rfl
  refine ⟨?_, h⟩
  unfold Polygon.op_index
  rw [if_pos (by omega)]
  simpa using h

/-! ### C17: `draw_polygon` -/

/-- C17: for a polygon with `n >= 1` vertices every index that `draw_polygon` uses
is in range, and `draw_polygon` is the chain of the calls of `draw_solid_line`,
each on the image that the call before it returns, on exactly `n` lines: the
line `(v[i], v[i+1])` at position `i` for `i + 1 < n`, and last the closing line
`(v[n-1], v[0])`. -/
theorem draw_polygon_lines {K : Type} [LinearOrderedField K] [FloorRing K] (m : Libm K)
    (fuel : Nat) (img : BasicImage K) (poly : Polygon K) (brush : BasicBrush K)
    (hn : 1 ≤ poly.vertices.length) :
    ∃ lines : List (StraightLine K),
      BasicImage.polygon_lines poly = some lines ∧
      BasicImage.draw_polygon m fuel img poly brush
        = lines.foldl (fun (acc : Option (BasicImage K)) (line : StraightLine K) =>
            acc.bind (fun im => BasicImage.draw_solid_line m fuel im line brush)) (some img) ∧
      lines.length = poly.vertices.length ∧
      (∀ i : Nat, i + 1 < poly.vertices.length →
        ∃ a b : Vect2 K, poly.vertices[i]? = some a ∧ poly.vertices[i + 1]? = some b ∧
          lines[i]? = some { origin := a, end_ := b }) ∧
      (∃ a b : Vect2 K, poly.vertices[poly.vertices.length - 1]? = some a ∧
        poly.vertices[0]? = some b ∧
        lines[poly.vertices.length - 1]? = some { origin := a, end_ := b }) := by
  set n := poly.vertices.length with hnl
  let d : Vect2 K := { x := 0, y := 0 }
  let g : Int → StraightLine K := fun i =>
    { origin := poly.vertices.getD (i - 1).toNat d, end_ := poly.vertices.getD i.toNat d }
  have hchain : all_some ((int_range 1 poly.count_vertices).map
      (fun i => do
        let a ← poly.op_index (i - 1)
        let b ← poly.op_index i
        pure ({ origin := a, end_ := b } : StraightLine K)))
      = some ((int_range 1 poly.count_vertices).map g) := by
    apply all_some_map_some
    intro i hi
    simp only [int_range, List.mem_map, List.mem_range, Polygon.count_vertices] at hi
    obtain ⟨j, hj, rfl⟩ := hi
    have h1 := (op_index_of_lt poly d j (by omega)).1
    have h2 := (op_index_of_lt poly d (j + 1) (by omega)).1
    have e1 : (1 : Int) + (j : Int) - 1 = (j : Int) := by ring
    have e2 : (1 : Int) + (j : Int) = ((j + 1 : Nat) : Int) := by push_cast; ring
    simp only [g, e1]
    rw [e2, h1, h2]
    simp
  have hlast := op_index_of_lt poly d (n - 1) (by omega)
  have hfirst := op_index_of_lt poly d 0 (by omega)
  have hcast : poly.count_vertices - 1 = ((n - 1 : Nat) : Int) := by
    simp only [Polygon.count_vertices]; omega
  have hlines : BasicImage.polygon_lines poly
      = some ((int_range 1 poly.count_vertices).map g ++
          [{ origin := poly.vertices.getD (n - 1) d, end_ := poly.vertices.getD 0 d }]) := by
    unfold BasicImage.polygon_lines
    rw [hchain, hcast, hlast.1]
    have := hfirst.1
    simp only [Nat.cast_zero] at this
    rw [this]
    rfl
  have hlen : ((int_range 1 poly.count_vertices).map g).length = n - 1 := by
    simp only [List.length_map, int_range, List.length_range, Polygon.count_vertices]
    omega
  refine ⟨_, hlines, ?_, ?_, ?_, ?_⟩
  · rw [draw_lines_eq_foldl]
    simp [BasicImage.draw_polygon, hlines]
  · rw [List.length_append, hlen]; simp; omega
  · intro i hi
    have h1 := (op_index_of_lt poly d i (by omega)).2
    have h2 := (op_index_of_lt poly d (i + 1) (by omega)).2
    refine ⟨_, _, h1, h2, ?_⟩
    rw [List.getElem?_append_left (by rw [hlen]; omega)]
    simp only [int_range, List.map_map, List.getElem?_map, Polygon.count_vertices]
    rw [List.getElem?_range (by omega)]
    simp only [Option.map_some', Function.comp_apply, g]
    have e1 : ((1 : Int) + (i : Int) - 1).toNat = i := by omega
    have e2 : ((1 : Int) + (i : Int)).toNat = i + 1 := by omega
    rw [e1, e2]
  · refine ⟨_, _, hlast.2, hfirst.2, ?_⟩
    rw [List.getElem?_append_right (by rw [hlen])]
    simp [hlen]

/-- C17 at the sample polygon, a triangle with the sides 4, 5 and 3, with fuel 11:
the three calls of `draw_solid_line` all return an image. -/
theorem draw_polygon_lines_witness :
    (∃ lines : List (StraightLine ℝ),
      BasicImage.polygon_lines (sample_polygon : Polygon ℝ) = some lines ∧
      BasicImage.draw_polygon realLibm 11 BasicImage.HD_1080 sample_polygon square_brush
        = lines.foldl (fun (acc : Option (BasicImage ℝ)) (line : StraightLine ℝ) =>
            acc.bind (fun im => BasicImage.draw_solid_line realLibm 11 im line square_brush))
            (some BasicImage.HD_1080) ∧
      lines.length = (sample_polygon : Polygon ℝ).vertices.length ∧
      (∀ i : Nat, i + 1 < (sample_polygon : Polygon ℝ).vertices.length →
        ∃ a b : Vect2 ℝ, (sample_polygon : Polygon ℝ).vertices[i]? = some a ∧
          (sample_polygon : Polygon ℝ).vertices[i + 1]? = some b ∧
          lines[i]? = some { origin := a, end_ := b }) ∧
      (∃ a b : Vect2 ℝ,
        (sample_polygon : Polygon ℝ).vertices[(sample_polygon : Polygon ℝ).vertices.length - 1]?
          = some a ∧
        (sample_polygon : Polygon ℝ).vertices[0]? = some b ∧
        lines[(sample_polygon : Polygon ℝ).vertices.length - 1]?
          = some { origin := a, end_ := b })) ∧
    (BasicImage.draw_polygon realLibm 11 BasicImage.HD_1080 (sample_polygon : Polygon ℝ)
      square_brush).isSome = true := by
  refine ⟨draw_polygon_lines realLibm 11 BasicImage.HD_1080 sample_polygon square_brush
    (by decide), ?_⟩
  have hl : BasicImage.polygon_lines (sample_polygon : Polygon ℝ)
      = some [{ origin := { x := 0, y := 0 }, end_ := { x := 4, y := 0 } },
              { origin := { x := 4, y := 0 }, end_ := { x := 0, y := 3 } },
              { origin := { x := 0, y := 3 }, end_ := { x := 0, y := 0 } }] := by
    rfl
  obtain ⟨o1, h1⟩ := real_draw_solid_line_some
    { origin := { x := 0, y := 0 }, end_ := { x := 4, y := 0 } } 11 (by norm_num)
    (by norm_num) (by norm_num) BasicImage.HD_1080 square_brush
  obtain ⟨o2, h2⟩ := real_draw_solid_line_some
    { origin := { x := 4, y := 0 }, end_ := { x := 0, y := 3 } } 11 (by norm_num)
    (by norm_num) (by norm_num) o1 square_brush
  obtain ⟨o3, h3⟩ := real_draw_solid_line_some
    { origin := { x := 0, y := 3 }, end_ := { x := 0, y := 0 } } 11 (by norm_num)
    (by norm_num) (by norm_num) o2 square_brush
  simp [BasicImage.draw_polygon, hl, BasicImage.draw_lines, h1, h2, h3]

/-! ### C18 and C19: `draw_text` -/

/-- C18 (the code differs): the character code 27 gets the sprite row `-1`, not
row 0, and the code 127 gets row 5; for code 27 the first glyph-table index is
negative for every text height, so `draw_text` reads outside the table. -/
theorem sprite_row_control_codes {K : Type} [LinearOrderedField K] [FloorRing K]
    (sprites : TextSprites) (img : BasicImage K) (upper_left_x upper_left_y text_height : Int)
    (brush : BasicBrush K) (rest : List Int) :
    BasicImage.sprite_row 27 = -1 ∧
    BasicImage.sprite_row 127 = 5 ∧
    BasicImage.s_index text_height (BasicImage.sprite_column 27 * BasicImage.spr_side text_height)
      (BasicImage.sprite_row 27 * BasicImage.spr_side text_height) < 0 ∧
    BasicImage.draw_text sprites img upper_left_x upper_left_y (27 :: rest) text_height brush
      = none := by
  have hrow : BasicImage.sprite_row 27 = -1 := by decide
  have hcol : BasicImage.sprite_column 27 = 11 := by decide
  have hidx : BasicImage.s_index text_height
      (BasicImage.sprite_column 27 * BasicImage.spr_side text_height)
      (BasicImage.sprite_row 27 * BasicImage.spr_side text_height) < 0 := by
    rw [hrow, hcol]
    unfold BasicImage.s_index BasicImage.spr_width BasicImage.spr_side BasicImage.SPR_CHANNELS
    split_ifs <;> norm_num
  have hside : ∃ n : Nat, (BasicImage.spr_side text_height).toNat = n + 1 := by
    unfold BasicImage.spr_side
    split_ifs
    · exact ⟨9, rfl⟩
    · exact ⟨14, rfl⟩
    · exact ⟨19, rfl⟩
    · exact ⟨24, rfl⟩
  refine ⟨hrow, by decide, hidx, ?_⟩
  obtain ⟨n, hn⟩ := hside
  have hread : BasicImage.read_sprite (BasicImage.s_pixels sprites text_height)
      (BasicImage.s_index text_height
        (BasicImage.sprite_column 27 * BasicImage.spr_side text_height)
        (BasicImage.sprite_row 27 * BasicImage.spr_side text_height)) = none := by
    unfold BasicImage.read_sprite
    rw [if_neg (not_le.mpr hidx)]
  simp [BasicImage.draw_text, BasicImage.draw_text_state, BasicImage.draw_text_loop,
    BasicImage.draw_text_char, hn, repeat_steps, BasicImage.glyph_row, BasicImage.glyph_pixel,
    hread]

/-- After one newline and after two newlines the pen of `draw_text` is at the
same place, `(upper_left_x, upper_left_y + line_increment)`. -/
theorem newline_sets_second_line {K : Type} [LinearOrderedField K] [FloorRing K]
    (sprites : TextSprites) (img : BasicImage K) (upper_left_x upper_left_y text_height : Int)
    (brush : BasicBrush K) :
    BasicImage.draw_text_state sprites img upper_left_x upper_left_y [10] text_height brush
      = some { img := img, sprite_x := 0, sprite_y := 0, image_x := upper_left_x,
               image_y := upper_left_y + BasicImage.line_increment K text_height } ∧
    BasicImage.draw_text_state sprites img upper_left_x upper_left_y [10, 10] text_height brush
      = some { img := img, sprite_x := 0, sprite_y := 0, image_x := upper_left_x,
               image_y := upper_left_y + BasicImage.line_increment K text_height } := by
  constructor <;>
    simp [BasicImage.draw_text_state, BasicImage.draw_text_loop, BasicImage.draw_text_char]

/-- The line increment for the text height 20. -/
theorem line_increment_20 : BasicImage.line_increment ℚ 20 = 24 := by
  norm_num [BasicImage.line_increment, BasicImage.LINE_INCREMENT_COEF, double_to_int]

/-- C19 (the code differs): with the pen starting at `(5, 7)` and the text height
20 the line increment is 24; after the second newline the pen is at `(5, 31)`,
on the second line again, not at `y = 7 + 2 * 24`. -/
theorem second_newline_stays_on_second_line :
    BasicImage.line_increment ℚ 20 = 24 ∧
    BasicImage.draw_text_state empty_sprites sample_image 5 7 [10, 10] 20
        (BasicBrush.of_color (BasicColor.rgb 1 1 1))
      = some { img := sample_image, sprite_x := 0, sprite_y := 0, image_x := 5, image_y := 31 } ∧
    (31 : Int) ≠ 7 + 2 * BasicImage.line_increment ℚ 20 := by
  have h := (newline_sets_second_line empty_sprites sample_image 5 7 20
    (BasicBrush.of_color (BasicColor.rgb 1 1 1))).2
  rw [line_increment_20] at h ⊢
  exact ⟨rfl, h, by decide⟩

/-- Membership in the range of an `int` loop. -/
theorem mem_int_range (lo hi a : Int) : a ∈ int_range lo hi ↔ lo ≤ a ∧ a < hi := by
  simp only [int_range, List.mem_map, List.mem_range]
  constructor
  · rintro ⟨i, hi1, rfl⟩
    omega
  · rintro ⟨h1, h2⟩
    exact ⟨(a - lo).toNat, by omega, by omega⟩

/-- The range of an `int` loop has no repetition. -/
theorem nodup_int_range (lo hi : Int) : (int_range lo hi).Nodup := by
  unfold int_range
  apply List.Nodup.map _ (List.nodup_range _)
  intro i j h
  simpa using h

/-- The number of passes of an `int` loop. -/
theorem length_int_range (lo hi : Int) : (int_range lo hi).length = (hi - lo).toNat := by
  simp [int_range]

/-- A fold over nested loops is the nested fold. -/
theorem foldl_flatMap {α β γ : Type} (f : α → List β) (g : γ → β → γ) (l : List α) (init : γ) :
    (l.flatMap f).foldl g init = l.foldl (fun acc x => (f x).foldl g acc) init := by
  induction l generalizing init with
  | nil => rfl
  | cons a as ih => simp [List.flatMap_cons, List.foldl_append, ih]

/-- The pixels of the square tip as a product of two ranges. -/
theorem square_tip_pixels_eq_product (xi yi h : Int) :
    BasicImage.square_tip_pixels xi yi h
      = ((int_range (-h) (h + 1)) ×ˢ (int_range (-h) (h + 1))).map
          (fun p => (p.1 + xi, p.2 + yi)) := by
  simp [BasicImage.square_tip_pixels, SProd.sprod, List.product, List.map_flatMap, List.flatMap,
    Function.comp_def]

/-- The pixels of the square tip: no repetition, the square of half side `h`, its size. -/
theorem square_tip_pixels_spec (xi yi h : Int) (hh : 0 ≤ h) :
    (BasicImage.square_tip_pixels xi yi h).Nodup ∧
    (∀ a b : Int, (a, b) ∈ BasicImage.square_tip_pixels xi yi h ↔ |a - xi| ≤ h ∧ |b - yi| ≤ h) ∧
    (BasicImage.square_tip_pixels xi yi h).length = ((2 * h + 1) * (2 * h + 1)).toNat := by
  rw [square_tip_pixels_eq_product]
  refine ⟨?_, ?_, ?_⟩
  · apply List.Nodup.map
    · rintro ⟨a, b⟩ ⟨c, d⟩ hEq
      simp only [Prod.mk.injEq] at hEq ⊢
      omega
    · exact List.Nodup.product (nodup_int_range _ _) (nodup_int_range _ _)
  · intro a b
    rw [List.mem_map]
    constructor
    · rintro ⟨⟨x, y⟩, hxy, hEq⟩
      rw [List.mem_product, mem_int_range, mem_int_range] at hxy
      simp only [Prod.mk.injEq] at hEq
      rw [abs_le, abs_le]
      omega
    · intro hab
      rw [abs_le, abs_le] at hab
      refine ⟨(a - xi, b - yi), ?_, ?_⟩
      · rw [List.mem_product, mem_int_range, mem_int_range]
        omega
      · simp
  · rw [List.length_map, List.length_product, length_int_range]
    have h1 : (h + 1 - -h).toNat = (2 * h + 1).toNat := by congr 1; ring
    rw [h1]
    zify
    rw [Int.toNat_of_nonneg (by omega), Int.toNat_of_nonneg (by positivity)]

/-- The value `(int)(w / 2.0)` for a width that is not negative. -/
theorem double_to_int_half {K : Type} [LinearOrderedField K] [FloorRing K] (w : Int) (hw : 0 ≤ w) :
    double_to_int ((w : K) / 2.0) = w / 2 := by
  have h0 : (0 : K) ≤ (w : K) / 2.0 := by
    have : (0 : K) ≤ (w : K) := by exact_mod_cast hw
    norm_num; linarith
  unfold double_to_int
  rw [if_pos h0, Int.floor_eq_iff]
  have hdiv : w = 2 * (w / 2) + w % 2 := (Int.ediv_add_emod w 2).symm
  have hmod0 : 0 ≤ w % 2 := Int.emod_nonneg w (by norm_num)
  have hmod1 : w % 2 < 2 := Int.emod_lt_of_pos w (by norm_num)
  have hK : (w : K) = 2 * ((w / 2 : Int) : K) + ((w % 2 : Int) : K) := by exact_mod_cast hdiv
  have hK0 : (0 : K) ≤ ((w % 2 : Int) : K) := by exact_mod_cast hmod0
  have hK1 : ((w % 2 : Int) : K) < 2 := by exact_mod_cast hmod1
  constructor
  · norm_num; linarith
  · norm_num; linarith

/-! ### C20: the footprint of the brush tip -/

/-- C20: with a brush of width 1 `draw_point` is one call of `draw_single_pixel`
at the image coordinate of the point; with a width `w > 1` and the square tip it
is the sequence of calls of `draw_single_pixel` on `square_tip_pixels`, which
holds every pixel `(a, b)` with `|a - xi| <= w/2` and `|b - yi| <= w/2` exactly
once, `(2*(w/2)+1)^2` pixels in all (`w/2` is the floor of the half width). -/
theorem draw_point_footprint {K : Type} [LinearOrderedField K] [FloorRing K] (m : Libm K)
    (img : BasicImage K) (pos : Vect2 K) (brush : BasicBrush K) :
    (brush.tip_width = 1 →
      img.draw_point m pos brush
        = img.draw_single_pixel (img.transform_to_image_cords pos.x pos.y).1
            (img.transform_to_image_cords pos.x pos.y).2 brush) ∧
    (brush.tip_width > 1 → brush.tip_shape = BasicBrush.SQUARE_TIP_SHAPE →
      img.draw_point m pos brush
        = (BasicImage.square_tip_pixels (img.transform_to_image_cords pos.x pos.y).1
              (img.transform_to_image_cords pos.x pos.y).2 (brush.tip_width / 2)).foldl
            (fun img p => img.draw_single_pixel p.1 p.2 brush) img ∧
      (BasicImage.square_tip_pixels (img.transform_to_image_cords pos.x pos.y).1
        (img.transform_to_image_cords pos.x pos.y).2 (brush.tip_width / 2)).Nodup ∧
      (∀ a b : Int,
        (a, b) ∈ BasicImage.square_tip_pixels (img.transform_to_image_cords pos.x pos.y).1
            (img.transform_to_image_cords pos.x pos.y).2 (brush.tip_width / 2)
          ↔ |a - (img.transform_to_image_cords pos.x pos.y).1| ≤ brush.tip_width / 2 ∧
            |b - (img.transform_to_image_cords pos.x pos.y).2| ≤ brush.tip_width / 2) ∧
      (BasicImage.square_tip_pixels (img.transform_to_image_cords pos.x pos.y).1
          (img.transform_to_image_cords pos.x pos.y).2 (brush.tip_width / 2)).length
        = ((2 * (brush.tip_width / 2) + 1) * (2 * (brush.tip_width / 2) + 1)).toNat) := by
  constructor
  · intro h1
    have : ¬ brush.tip_width > 1 := by omega
    simp [BasicImage.draw_point, this]
  · intro hw hs
    have hhalf : 0 ≤ brush.tip_width / 2 := Int.ediv_nonneg (by omega) (by norm_num)
    obtain ⟨hnd, hmem, hlen⟩ := square_tip_pixels_spec
      (img.transform_to_image_cords pos.x pos.y).1 (img.transform_to_image_cords pos.x pos.y).2
      (brush.tip_width / 2) hhalf
    refine ⟨?_, hnd, hmem, hlen⟩
    simp only [BasicImage.draw_point, hw, if_true, BasicImage.draw_thick_dot, hs,
      double_to_int_half brush.tip_width (by omega), BasicImage.square_tip_pixels,
      foldl_flatMap, List.foldl_map]

/-- C20 at the HD 1080 image, the point `(0, 0)` and the square brush of width 3. -/
theorem draw_point_footprint_witness :
    (BasicImage.HD_1080 : BasicImage ℝ).draw_point realLibm { x := 0, y := 0 } square_brush
      = (BasicImage.square_tip_pixels
            ((BasicImage.HD_1080 : BasicImage ℝ).transform_to_image_cords 0 0).1
            ((BasicImage.HD_1080 : BasicImage ℝ).transform_to_image_cords 0 0).2
            ((square_brush : BasicBrush ℝ).tip_width / 2)).foldl
          (fun img p => img.draw_single_pixel p.1 p.2 square_brush) BasicImage.HD_1080 ∧
    (BasicImage.square_tip_pixels
        ((BasicImage.HD_1080 : BasicImage ℝ).transform_to_image_cords 0 0).1
        ((BasicImage.HD_1080 : BasicImage ℝ).transform_to_image_cords 0 0).2
        ((square_brush : BasicBrush ℝ).tip_width / 2)).Nodup ∧
    (∀ a b : Int,
      (a, b) ∈ BasicImage.square_tip_pixels
          ((BasicImage.HD_1080 : BasicImage ℝ).transform_to_image_cords 0 0).1
          ((BasicImage.HD_1080 : BasicImage ℝ).transform_to_image_cords 0 0).2
          ((square_brush : BasicBrush ℝ).tip_width / 2)
        ↔ |a - ((BasicImage.HD_1080 : BasicImage ℝ).transform_to_image_cords 0 0).1|
              ≤ (square_brush : BasicBrush ℝ).tip_width / 2 ∧
          |b - ((BasicImage.HD_1080 : BasicImage ℝ).transform_to_image_cords 0 0).2|
              ≤ (square_brush : BasicBrush ℝ).tip_width / 2) ∧
    (BasicImage.square_tip_pixels
        ((BasicImage.HD_1080 : BasicImage ℝ).transform_to_image_cords 0 0).1
        ((BasicImage.HD_1080 : BasicImage ℝ).transform_to_image_cords 0 0).2
        ((square_brush : BasicBrush ℝ).tip_width / 2)).length
      = ((2 * ((square_brush : BasicBrush ℝ).tip_width / 2) + 1)
          * (2 * ((square_brush : BasicBrush ℝ).tip_width / 2) + 1)).toNat :=
  (draw_point_footprint realLibm BasicImage.HD_1080 { x := 0, y := 0 } square_brush).2
    (by decide) rfl

/-- The `std::max` of a list is one of its members and bounds all of them. -/
theorem max_list_spec {K : Type} [LinearOrderedField K] [FloorRing K] (rest : List K) :
    ∀ first : K, BasicImage.max_list first rest ∈ first :: rest ∧
      ∀ a ∈ first :: rest, a ≤ BasicImage.max_list first rest := by
  induction rest with
  | nil =>
    intro first
    refine ⟨List.mem_singleton.mpr rfl, ?_⟩
    intro a ha
    rw [List.mem_singleton.mp ha]
    exact le_refl _
  | cons e es ih =>
    intro first
    have hstep : BasicImage.max_list first (e :: es)
        = BasicImage.max_list (if first < e then e else first) es := rfl
    rw [hstep]
    obtain ⟨hmem, hub⟩ := ih (if first < e then e else first)
    have hcur : first ≤ (if first < e then e else first) ∧ e ≤ (if first < e then e else first) := by
      split_ifs with h
      · exact ⟨h.le, le_refl _⟩
      · exact ⟨le_refl _, not_lt.mp h⟩
    have hcurle := hub _ (List.mem_cons_self _ _)
    constructor
    · rcases List.mem_cons.mp hmem with h | h
      · rw [h]
        split_ifs
        · exact List.mem_cons_of_mem _ (List.mem_cons_self _ _)
        · exact List.mem_cons_self _ _
      · exact List.mem_cons_of_mem _ (List.mem_cons_of_mem _ h)
    · intro a ha
      rcases List.mem_cons.mp ha with h | h
      · rw [h]; exact le_trans hcur.1 hcurle
      · rcases List.mem_cons.mp h with h2 | h2
        · rw [h2]; exact le_trans hcur.2 hcurle
        · exact hub a (List.mem_cons_of_mem _ h2)

/-- No double compares below itself. -/
theorem Dbl.lt_irrefl {K : Type} [LinearOrderedField K] (a : Dbl K) : Dbl.lt a a = false := by
  rcases a with x | (_ | _) | _ <;> simp [Dbl.lt]

/-- The comparison `<` of doubles is asymmetric. -/
theorem Dbl.lt_asymm {K : Type} [LinearOrderedField K] (a b : Dbl K)
    (hab : Dbl.lt a b = true) : Dbl.lt b a = false := by
  rcases a with x | (_ | _) | _ <;> rcases b with y | (_ | _) | _ <;>
    simp_all [Dbl.lt]
  exact le_of_lt hab

/-- When `a` is not below `b`, `b` is not below `c` and `b` is not NaN, `a` is not below `c`. -/
theorem Dbl.lt_neg_trans {K : Type} [LinearOrderedField K] (a b c : Dbl K) (hb : b ≠ Dbl.nan)
    (hab : Dbl.lt a b = false) (hbc : Dbl.lt b c = false) : Dbl.lt a c = false := by
  rcases a with x | (_ | _) | _ <;> rcases b with y | (_ | _) | _ <;>
    rcases c with z | (_ | _) | _ <;> simp_all [Dbl.lt]
  exact le_trans hbc hab

/-- A running minimum that is NaN stays NaN. -/
theorem Dbl.min_list_nan {K : Type} [LinearOrderedField K] (rest : List (Dbl K)) :
    Dbl.min_list Dbl.nan rest = Dbl.nan := by
  induction rest with
  | nil => rfl
  | cons e es ih =>
    have hstep : Dbl.min_list Dbl.nan (e :: es) = Dbl.min_list (Dbl.min_step Dbl.nan e) es := rfl
    have hnan : Dbl.min_step Dbl.nan e = Dbl.nan := by
      rcases e with y | (_ | _) | _ <;> simp [Dbl.min_step, Dbl.lt]
    rw [hstep, hnan, ih]

/-- The `std::min` of a list is one of its members and no member compares below it. -/
theorem Dbl.min_list_spec {K : Type} [LinearOrderedField K] (rest : List (Dbl K)) :
    ∀ first : Dbl K, Dbl.min_list first rest ∈ first :: rest ∧
      ∀ c ∈ first :: rest, Dbl.lt c (Dbl.min_list first rest) = false := by
  induction rest with
  | nil =>
    intro first
    refine ⟨List.mem_singleton.mpr rfl, ?_⟩
    intro c hc
    rw [List.mem_singleton.mp hc]
    exact Dbl.lt_irrefl _
  | cons e es ih =>
    intro first
    have hstep : Dbl.min_list first (e :: es) = Dbl.min_list (Dbl.min_step first e) es := rfl
    rw [hstep]
    obtain ⟨hmem, hlb⟩ := ih (Dbl.min_step first e)
    have hcur := hlb _ (List.mem_cons_self _ _)
    constructor
    · rcases List.mem_cons.mp hmem with h | h
      · rw [h]
        unfold Dbl.min_step
        split_ifs
        · exact List.mem_cons_of_mem _ (List.mem_cons_self _ _)
        · exact List.mem_cons_self _ _
      · exact List.mem_cons_of_mem _ (List.mem_cons_of_mem _ h)
    · -- neither `first` nor `e` is below the running minimum
      have hseen : ∀ d : Dbl K, d = first ∨ d = e → Dbl.lt d (Dbl.min_step first e) = false := by
        intro d hd
        unfold Dbl.min_step
        by_cases hlt : Dbl.lt e first = true
        · rw [if_pos hlt]
          rcases hd with rfl | rfl
          · exact Dbl.lt_asymm _ _ hlt
          · exact Dbl.lt_irrefl _
        · rw [if_neg hlt]
          rcases hd with rfl | rfl
          · exact Dbl.lt_irrefl _
          · simpa using hlt
      have hdown : ∀ d : Dbl K, Dbl.lt d (Dbl.min_step first e) = false →
          Dbl.lt d (Dbl.min_list (Dbl.min_step first e) es) = false := by
        intro d hd
        by_cases hnan : Dbl.min_step first e = Dbl.nan
        · rw [hnan, Dbl.min_list_nan]
          rcases d with x | (_ | _) | _ <;> simp [Dbl.lt]
        · exact Dbl.lt_neg_trans _ _ _ hnan hd hcur
      intro c hc
      rcases List.mem_cons.mp hc with h | h
      · rw [h]; exact hdown _ (hseen _ (Or.inl rfl))
      · rcases List.mem_cons.mp h with h2 | h2
        · rw [h2]; exact hdown _ (hseen _ (Or.inr rfl))
        · exact hlb c (List.mem_cons_of_mem _ h2)

/-! ### C21: the parameters set by `estimate_obj_drawing_params` -/

/-- C21: with `M` the maximum of the twelve absolute `x` and `z` coordinates of the
two corners at 0, 45 and 90 degrees, `estimate_obj_drawing_params` sets
`z_offset = 3 * M` and `projection_distance = 1.5 * z_offset = 4.5 * M`, and
`obj_drawing_scale` is the `std::min` of the absolute values of the twelve
scale candidates: one of them, with no candidate comparing below it. -/
theorem estimate_sets_parameters {K : Type} [LinearOrderedField K] [FloorRing K] (m : Libm K)
    (img : BasicImage K) (obj : ObjReader K) :
    ∃ M : K,
      M = BasicImage.max_list (BasicImage.autofit_coordinates m obj).1
        (BasicImage.autofit_coordinates m obj).2 ∧
      M ∈ (BasicImage.autofit_coordinates m obj).1 :: (BasicImage.autofit_coordinates m obj).2 ∧
      (∀ a ∈ (BasicImage.autofit_coordinates m obj).1 :: (BasicImage.autofit_coordinates m obj).2,
        a ≤ M) ∧
      (img.estimate_obj_drawing_params m obj).z_offset = 3 * M ∧
      (img.estimate_obj_drawing_params m obj).projection_distance
        = 1.5 * (img.estimate_obj_drawing_params m obj).z_offset ∧
      (img.estimate_obj_drawing_params m obj).projection_distance = 4.5 * M ∧
      (img.estimate_obj_drawing_params m obj).obj_drawing_scale
        = Dbl.min_list (BasicImage.autofit_candidates m img obj (4.5 * M) (3 * M)).1
            (BasicImage.autofit_candidates m img obj (4.5 * M) (3 * M)).2 ∧
      (img.estimate_obj_drawing_params m obj).obj_drawing_scale
        ∈ (BasicImage.autofit_candidates m img obj (4.5 * M) (3 * M)).1 ::
            (BasicImage.autofit_candidates m img obj (4.5 * M) (3 * M)).2 ∧
      (∀ c ∈ (BasicImage.autofit_candidates m img obj (4.5 * M) (3 * M)).1 ::
            (BasicImage.autofit_candidates m img obj (4.5 * M) (3 * M)).2,
        Dbl.lt c (img.estimate_obj_drawing_params m obj).obj_drawing_scale = false) := by
  obtain ⟨hmem, hub⟩ := max_list_spec (BasicImage.autofit_coordinates m obj).2
    (BasicImage.autofit_coordinates m obj).1
  have hz : (img.estimate_obj_drawing_params m obj).z_offset
      = 3 * BasicImage.max_list (BasicImage.autofit_coordinates m obj).1
        (BasicImage.autofit_coordinates m obj).2 := by
    simp only [BasicImage.estimate_obj_drawing_params, BasicImage.autofit_coordinates]
    norm_num
    ring
  have hp : (img.estimate_obj_drawing_params m obj).projection_distance
      = 4.5 * BasicImage.max_list (BasicImage.autofit_coordinates m obj).1
        (BasicImage.autofit_coordinates m obj).2 := by
    simp only [BasicImage.estimate_obj_drawing_params, BasicImage.autofit_coordinates]
    norm_num
    ring
  have hs : (img.estimate_obj_drawing_params m obj).obj_drawing_scale
      = Dbl.min_list
          (BasicImage.autofit_candidates m img obj
            (img.estimate_obj_drawing_params m obj).projection_distance
            (img.estimate_obj_drawing_params m obj).z_offset).1
          (BasicImage.autofit_candidates m img obj
            (img.estimate_obj_drawing_params m obj).projection_distance
            (img.estimate_obj_drawing_params m obj).z_offset).2 := rfl
  rw [hp, hz] at hs
  obtain ⟨hsm, hsl⟩ := Dbl.min_list_spec
    (BasicImage.autofit_candidates m img obj
      (4.5 * BasicImage.max_list (BasicImage.autofit_coordinates m obj).1
        (BasicImage.autofit_coordinates m obj).2)
      (3 * BasicImage.max_list (BasicImage.autofit_coordinates m obj).1
        (BasicImage.autofit_coordinates m obj).2)).2
    (BasicImage.autofit_candidates m img obj
      (4.5 * BasicImage.max_list (BasicImage.autofit_coordinates m obj).1
        (BasicImage.autofit_coordinates m obj).2)
      (3 * BasicImage.max_list (BasicImage.autofit_coordinates m obj).1
        (BasicImage.autofit_coordinates m obj).2)).1
  refine ⟨_, rfl, hmem, hub, hz, ?_, hp, hs, ?_, ?_⟩
  · rw [hp, hz]; norm_num; ring
  · rw [hs]; exact hsm
  · rw [hs]; exact hsl

/-! ### C22: the default of `blend_two_colors` -/

/-- C22: for every mode id other than 1, 2, 3 and 4 `blend_two_colors` is the sum
of the four channels of the two colours. -/
theorem blend_default_is_plus {K : Type} [LinearOrderedField K] (A B : BasicColor K)
    (blend_type_ID : Int)
    (hid : blend_type_ID ≠ 1 ∧ blend_type_ID ≠ 2 ∧ blend_type_ID ≠ 3 ∧ blend_type_ID ≠ 4) :
    blend_two_colors A blend_type_ID B
      = { r := A.r + B.r, g := A.g + B.g, b := A.b + B.b, a := A.a + B.a } := by
  obtain ⟨h1, h2, h3, h4⟩ := hid
  unfold blend_two_colors
  simp only [BasicColor.plus_ID, BasicColor.minus_ID, BasicColor.multiply_ID, BasicColor.over_ID,
    BasicColor.unpremultiplied_over_ID, h1, h2, h3, h4, if_false]
  split_ifs <;> rfl

/-- C22 at the unknown mode id 7. -/
theorem blend_default_is_plus_witness :
    blend_two_colors (BasicColor.rgb (1 : ℚ) 2 3) 7 (BasicColor.rgb 4 5 6)
      = { r := (BasicColor.rgb (1 : ℚ) 2 3).r + (BasicColor.rgb (4 : ℚ) 5 6).r,
          g := (BasicColor.rgb (1 : ℚ) 2 3).g + (BasicColor.rgb (4 : ℚ) 5 6).g,
          b := (BasicColor.rgb (1 : ℚ) 2 3).b + (BasicColor.rgb (4 : ℚ) 5 6).b,
          a := (BasicColor.rgb (1 : ℚ) 2 3).a + (BasicColor.rgb (4 : ℚ) 5 6).a } :=
  blend_default_is_plus _ _ 7 (by decide)

/-! ### C23: the clipped getters -/

/-- The quantisation of one channel: its range and its three cases. -/
theorem quantise_spec {K : Type} [LinearOrderedField K] [FloorRing K] (c : K) :
    (0 ≤ (if c < 0 then (0 : Int) else if c > 1 then 255 else double_to_int (c * 255)) ∧
      (if c < 0 then (0 : Int) else if c > 1 then 255 else double_to_int (c * 255)) ≤ 255) ∧
    (c < 0 → (if c < 0 then (0 : Int) else if c > 1 then 255 else double_to_int (c * 255)) = 0) ∧
    (c > 1 → (if c < 0 then (0 : Int) else if c > 1 then 255 else double_to_int (c * 255)) = 255) ∧
    (0 ≤ c ∧ c ≤ 1 →
      (if c < 0 then (0 : Int) else if c > 1 then 255 else double_to_int (c * 255)) = ⌊c * 255⌋) := by
  have hmid : 0 ≤ c → c ≤ 1 → double_to_int (c * 255) = ⌊c * 255⌋ ∧
      0 ≤ ⌊c * 255⌋ ∧ ⌊c * 255⌋ ≤ 255 := by
    intro h0 h1
    have hn : (0 : K) ≤ c * 255 := by positivity
    refine ⟨by unfold double_to_int; rw [if_pos hn], Int.floor_nonneg.mpr hn, ?_⟩
    have : c * 255 ≤ ((255 : Int) : K) := by push_cast; linarith
    exact (Int.floor_le_floor this).trans (by rw [Int.floor_intCast])
  refine ⟨?_, ?_, ?_, ?_⟩
  · split_ifs with h1 h2
    · exact ⟨le_refl _, by norm_num⟩
    · exact ⟨by norm_num, le_refl _⟩
    · obtain ⟨e, a, b⟩ := hmid (not_lt.mp h1) (not_lt.mp h2)
      rw [e]; exact ⟨a, b⟩
  · intro h; rw [if_pos h]
  · intro h
    have : ¬ c < 0 := by intro h2; linarith
    rw [if_neg this, if_pos h]
  · rintro ⟨h0, h1⟩
    rw [if_neg (not_lt.mpr h0), if_neg (not_lt.mpr h1)]
    exact (hmid h0 h1).1

/-- The quantisation of one channel is monotone. -/
theorem quantise_mono {K : Type} [LinearOrderedField K] [FloorRing K] (c d : K) (hcd : c ≤ d) :
    (if c < 0 then (0 : Int) else if c > 1 then 255 else double_to_int (c * 255))
      ≤ (if d < 0 then (0 : Int) else if d > 1 then 255 else double_to_int (d * 255)) := by
  obtain ⟨⟨hc0, hc1⟩, _, _, hcm⟩ := quantise_spec c
  obtain ⟨⟨hd0, hd1⟩, _, hdh, hdm⟩ := quantise_spec d
  by_cases h1 : c < 0
  · rw [if_pos h1]; exact hd0
  · by_cases h2 : d > 1
    · rw [hdh h2]; exact hc1
    · have hc : 0 ≤ c ∧ c ≤ 1 := ⟨not_lt.mp h1, le_trans hcd (not_lt.mp h2)⟩
      have hd : 0 ≤ d ∧ d ≤ 1 := ⟨le_trans hc.1 hcd, not_lt.mp h2⟩
      rw [hcm hc, hdm hd]
      exact Int.floor_le_floor (by nlinarith)

/-- The clipping of one channel to the range from 0 to 1. -/
theorem clip_spec {K : Type} [LinearOrderedField K] (c : K) :
    (if c < 0 then (0 : K) else if c > 1 then 1 else c) = max 0 (min 1 c) := by
  split_ifs with h1 h2
  · rw [min_eq_right (by linarith), max_eq_left h1.le]
  · rw [min_eq_left h2.le, max_eq_right (by norm_num)]
  · rw [min_eq_right (not_lt.mp h2), max_eq_right (not_lt.mp h1)]

/-- C23: for each of the four channels the getter to 0..255 gives an integer in
0..255, 0 below 0, 255 above 1 and `floor(c * 255)` in between, it is monotone in
the channel, and the getter to 0..1 clamps the channel to `[0, 1]`; the operators
`+`, `-` and `*` give the sum, the difference and the product (the left channel
when both are negative), not clamped. -/
theorem quantisation_clamps {K : Type} [LinearOrderedField K] [FloorRing K]
    (col other : BasicColor K) :
    ((0 ≤ col.r255 ∧ col.r255 ≤ 255) ∧ (col.r < 0 → col.r255 = 0) ∧ (col.r > 1 → col.r255 = 255) ∧
      (0 ≤ col.r ∧ col.r ≤ 1 → col.r255 = ⌊col.r * 255⌋) ∧
      (col.r ≤ other.r → col.r255 ≤ other.r255) ∧ col.r01 = max 0 (min 1 col.r)) ∧
    ((0 ≤ col.g255 ∧ col.g255 ≤ 255) ∧ (col.g < 0 → col.g255 = 0) ∧ (col.g > 1 → col.g255 = 255) ∧
      (0 ≤ col.g ∧ col.g ≤ 1 → col.g255 = ⌊col.g * 255⌋) ∧
      (col.g ≤ other.g → col.g255 ≤ other.g255) ∧ col.g01 = max 0 (min 1 col.g)) ∧
    ((0 ≤ col.b255 ∧ col.b255 ≤ 255) ∧ (col.b < 0 → col.b255 = 0) ∧ (col.b > 1 → col.b255 = 255) ∧
      (0 ≤ col.b ∧ col.b ≤ 1 → col.b255 = ⌊col.b * 255⌋) ∧
      (col.b ≤ other.b → col.b255 ≤ other.b255) ∧ col.b01 = max 0 (min 1 col.b)) ∧
    ((0 ≤ col.a255 ∧ col.a255 ≤ 255) ∧ (col.a < 0 → col.a255 = 0) ∧ (col.a > 1 → col.a255 = 255) ∧
      (0 ≤ col.a ∧ col.a ≤ 1 → col.a255 = ⌊col.a * 255⌋) ∧
      (col.a ≤ other.a → col.a255 ≤ other.a255) ∧ col.a01 = max 0 (min 1 col.a)) ∧
    col.op_add other
      = { r := col.r + other.r, g := col.g + other.g, b := col.b + other.b,
          a := col.a + other.a } ∧
    col.op_sub other
      = { r := col.r - other.r, g := col.g - other.g, b := col.b - other.b,
          a := col.a - other.a } ∧
    col.op_mul other
      = { r := if col.r < 0 ∧ other.r < 0 then col.r else col.r * other.r
          g := if col.g < 0 ∧ other.g < 0 then col.g else col.g * other.g
          b := if col.b < 0 ∧ other.b < 0 then col.b else col.b * other.b
          a := if col.a < 0 ∧ other.a < 0 then col.a else col.a * other.a } := by
  refine ⟨?_, ?_, ?_, ?_, rfl, rfl, rfl⟩
  · obtain ⟨h1, h2, h3, h4⟩ := quantise_spec col.r
    exact ⟨h1, h2, h3, h4, quantise_mono col.r other.r, clip_spec col.r⟩
  · obtain ⟨h1, h2, h3, h4⟩ := quantise_spec col.g
    exact ⟨h1, h2, h3, h4, quantise_mono col.g other.g, clip_spec col.g⟩
  · obtain ⟨h1, h2, h3, h4⟩ := quantise_spec col.b
    exact ⟨h1, h2, h3, h4, quantise_mono col.b other.b, clip_spec col.b⟩
  · obtain ⟨h1, h2, h3, h4⟩ := quantise_spec col.a
    exact ⟨h1, h2, h3, h4, quantise_mono col.a other.a, clip_spec col.a⟩

/-- C23 at the sample colour `(1/2, 2, -1, 1)`: the red channel is in range, the
green one is above 1, the blue one below 0, and red is below the red of white. -/
theorem quantisation_clamps_witness :
    (sample_color : BasicColor ℚ).r255 = ⌊(sample_color : BasicColor ℚ).r * 255⌋ ∧
    (sample_color : BasicColor ℚ).g255 = 255 ∧
    (sample_color : BasicColor ℚ).b255 = 0 ∧
    (sample_color : BasicColor ℚ).r255 ≤ (BasicColor.rgb (1 : ℚ) 1 1).r255 :=
  ⟨(quantisation_clamps sample_color (BasicColor.rgb 1 1 1)).1.2.2.2.1
      ⟨by norm_num [sample_color], by norm_num [sample_color]⟩,
   (quantisation_clamps sample_color (BasicColor.rgb 1 1 1)).2.1.2.2.1
      (by norm_num [sample_color]),
   (quantisation_clamps sample_color (BasicColor.rgb 1 1 1)).2.2.1.2.1
      (by norm_num [sample_color]),
   (quantisation_clamps sample_color (BasicColor.rgb 1 1 1)).1.2.2.2.2.1
      (by norm_num [sample_color, BasicColor.rgb])⟩

/-! ### C24: `to_center` centres the bounding box -/

/-- C25 (the code differs): for the polygon without vertices the closing line of
`draw_polygon` reads `poly[count - 1] = poly[-1]` and `poly[0]`, both outside the
range of the empty vertex list, so the call is not a no-op. -/
theorem draw_polygon_empty_out_of_range {K : Type} [LinearOrderedField K] [FloorRing K]
    (m : Libm K) (fuel : Nat) (img : BasicImage K) (brush : BasicBrush K) :
    (Polygon.empty : Polygon K).count_vertices - 1 = -1 ∧
    (Polygon.empty : Polygon K).op_index ((Polygon.empty : Polygon K).count_vertices - 1) = none ∧
    (Polygon.empty : Polygon K).op_index 0 = none ∧
    BasicImage.polygon_lines (Polygon.empty : Polygon K) = none ∧
    BasicImage.draw_polygon m fuel img Polygon.empty brush = none := by
  refine ⟨rfl, rfl, rfl, rfl, rfl⟩

/-! ### C26: `BoundingBox::expand` and `calculate_bb` -/

section BoundingBoxTheorems

variable {K : Type} [LinearOrderedField K]

/-- The six corner coordinates after `expand`. -/
theorem expand_corners (c : Cube K) (p : Vect3 K) :
    (c.expand p).top_left.x = (if p.x < c.top_left.x then p.x else c.top_left.x) ∧
    (c.expand p).bottom_right.x = (if p.x > c.bottom_right.x then p.x else c.bottom_right.x) ∧
    (c.expand p).top_left.y = (if p.y > c.top_left.y then p.y else c.top_left.y) ∧
    (c.expand p).bottom_right.y = (if p.y < c.bottom_right.y then p.y else c.bottom_right.y) ∧
    (c.expand p).top_left.z = (if p.z > c.top_left.z then p.z else c.top_left.z) ∧
    (c.expand p).bottom_right.z = (if p.z < c.bottom_right.z then p.z else c.bottom_right.z) ∧
    (c.expand p).faces = c.faces := by
  unfold Cube.expand
  refine ⟨?_, ?_, ?_, ?_, ?_, ?_, rfl⟩ <;> simp only [] <;> split_ifs <;> rfl

/-- One call of `expand`: the order of the corners, the new point, the old points, minimality. -/
theorem expand_spec (c : Cube K) (p : Vect3 K) :
    (c.ordered → (c.expand p).ordered) ∧
    (c.expand p).contains p ∧
    (∀ q : Vect3 K, c.contains q → (c.expand p).contains q) ∧
    (∀ outer : Cube K, outer.contains p →
      outer.contains c.top_left → outer.contains c.bottom_right →
      (c.expand p).within outer) := by
  obtain ⟨h1, h2, h3, h4, h5, h6, _⟩ := expand_corners c p
  refine ⟨?_, ?_, ?_, ?_⟩
  · intro ho
    unfold Cube.ordered at ho ⊢
    rw [h1, h2, h3, h4, h5, h6]
    obtain ⟨a, b, d⟩ := ho
    refine ⟨?_, ?_, ?_⟩ <;> split_ifs <;> linarith
  · unfold Cube.contains
    rw [h1, h2, h3, h4, h5, h6]
    refine ⟨⟨?_, ?_⟩, ⟨?_, ?_⟩, ⟨?_, ?_⟩⟩ <;> split_ifs <;> linarith
  · intro q hq
    unfold Cube.contains at hq ⊢
    rw [h1, h2, h3, h4, h5, h6]
    obtain ⟨⟨a1, a2⟩, ⟨b1, b2⟩, ⟨d1, d2⟩⟩ := hq
    refine ⟨⟨?_, ?_⟩, ⟨?_, ?_⟩, ⟨?_, ?_⟩⟩ <;> split_ifs <;> linarith
  · intro outer hp htl hbr
    unfold Cube.contains at hp htl hbr
    unfold Cube.within
    rw [h1, h2, h3, h4, h5, h6]
    obtain ⟨⟨a1, a2⟩, ⟨b1, b2⟩, ⟨d1, d2⟩⟩ := hp
    obtain ⟨⟨e1, e2⟩, ⟨f1, f2⟩, ⟨g1, g2⟩⟩ := htl
    obtain ⟨⟨i1, i2⟩, ⟨j1, j2⟩, ⟨k1, k2⟩⟩ := hbr
    refine ⟨⟨?_, ?_⟩, ⟨?_, ?_⟩, ⟨?_, ?_⟩⟩ <;> split_ifs <;> assumption

/-- The calls of `expand` over the vertices of one face. -/
theorem expand_fold_vertices (vs : List (Vect3 K)) :
    ∀ c : Cube K, c.ordered →
      (vs.foldl Cube.expand c).ordered ∧ (vs.foldl Cube.expand c).faces = c.faces ∧
      (∀ q : Vect3 K, c.contains q → (vs.foldl Cube.expand c).contains q) ∧
      (∀ v ∈ vs, (vs.foldl Cube.expand c).contains v) := by
  induction vs with
  | nil =>
    intro c hc
    exact ⟨hc, rfl, fun q hq => hq, fun v hv => absurd hv (List.not_mem_nil v)⟩
  | cons a as ih =>
    intro c hc
    obtain ⟨h1, h2, h3, _⟩ := expand_spec c a
    obtain ⟨i1, i2, i3, i4⟩ := ih (c.expand a) (h1 hc)
    refine ⟨i1, ?_, fun q hq => i3 q (h3 q hq), ?_⟩
    · rw [List.foldl_cons, i2]; exact (expand_corners c a).2.2.2.2.2.2
    · intro v hv
      rcases List.mem_cons.mp hv with h | h
      · rw [h]; exact i3 a h2
      · exact i4 v h

/-- The calls of `expand` over the vertices of all faces. -/
theorem expand_fold_faces (fs : List (Face K)) :
    ∀ c : Cube K, c.ordered →
      (fs.foldl (fun bb f => f.vertices.foldl Cube.expand bb) c).ordered ∧
      (fs.foldl (fun bb f => f.vertices.foldl Cube.expand bb) c).faces = c.faces ∧
      (∀ q : Vect3 K, c.contains q →
        (fs.foldl (fun bb f => f.vertices.foldl Cube.expand bb) c).contains q) ∧
      (∀ f ∈ fs, ∀ v ∈ f.vertices,
        (fs.foldl (fun bb f => f.vertices.foldl Cube.expand bb) c).contains v) := by
  induction fs with
  | nil =>
    intro c hc
    exact ⟨hc, rfl, fun q hq => hq, fun f hf => absurd hf (List.not_mem_nil f)⟩
  | cons a as ih =>
    intro c hc
    obtain ⟨h1, h2, h3, h4⟩ := expand_fold_vertices a.vertices c hc
    obtain ⟨i1, i2, i3, i4⟩ := ih (a.vertices.foldl Cube.expand c) h1
    refine ⟨i1, ?_, fun q hq => i3 q (h3 q hq), ?_⟩
    · rw [List.foldl_cons, i2, h2]
    · intro f hf v hv
      rcases List.mem_cons.mp hf with h | h
      · rw [h] at hv; exact i3 v (h4 v hv)
      · exact i4 f h v hv

/-- C26: on a box with ordered corners `expand(p)` keeps the order, the new box
contains `p` and every point of the old box, and it lies within every ordered
box that does; and for a face list that is not empty, with faces that have a
vertex, `calculate_bb` yields a box that contains every vertex of every face. -/
theorem expand_grows_the_box (c : Cube K) (p : Vect3 K) (r : ObjReader K) :
    (c.ordered →
      (c.expand p).ordered ∧ (c.expand p).contains p ∧
      (∀ q : Vect3 K, c.contains q → (c.expand p).contains q) ∧
      (∀ outer : Cube K, outer.ordered → outer.contains p →
        (∀ q : Vect3 K, c.contains q → outer.contains q) → (c.expand p).within outer)) ∧
    (r.faces ≠ [] → (∀ f ∈ r.faces, f.vertices ≠ []) →
      ∃ r2 : ObjReader K, ObjReader.calculate_bb r = some r2 ∧ r2.bounding_box.ordered ∧
        ∀ f ∈ r.faces, ∀ v ∈ f.vertices, r2.bounding_box.contains v) := by
  constructor
  · intro ho
    obtain ⟨h1, h2, h3, h4⟩ := expand_spec c p
    refine ⟨h1 ho, h2, h3, ?_⟩
    intro outer _ hp hall
    have htl : c.contains c.top_left := by
      unfold Cube.ordered at ho
      unfold Cube.contains
      obtain ⟨a, b, d⟩ := ho
      exact ⟨⟨le_refl _, a⟩, ⟨b, le_refl _⟩, ⟨d, le_refl _⟩⟩
    have hbr : c.contains c.bottom_right := by
      unfold Cube.ordered at ho
      unfold Cube.contains
      obtain ⟨a, b, d⟩ := ho
      exact ⟨⟨a, le_refl _⟩, ⟨le_refl _, b⟩, ⟨le_refl _, d⟩⟩
    exact h4 outer hp (hall _ htl) (hall _ hbr)
  · intro hne hverts
    cases hf : r.faces with
    | nil => exact absurd hf hne
    | cons f0 rest =>
      have hf0 : f0.vertices ≠ [] := hverts f0 (by rw [hf]; exact List.mem_cons_self _ _)
      cases hv : f0.vertices with
      | nil => exact absurd hv hf0
      | cons first_v vrest =>
        have hstart :
            ((r.bounding_box.set_top_left first_v).set_bottom_right first_v).ordered := by
          unfold Cube.ordered Cube.set_top_left Cube.set_bottom_right
          exact ⟨le_refl _, le_refl _, le_refl _⟩
        obtain ⟨i1, _, _, i4⟩ := expand_fold_faces r.faces _ hstart
        have hcalc : ObjReader.calculate_bb r
            = some { r with
                bounding_box :=
                  (r.faces.foldl (fun bb f => f.vertices.foldl Cube.expand bb)
                    ((r.bounding_box.set_top_left first_v).set_bottom_right first_v)).create_faces } := by
          unfold ObjReader.calculate_bb
          simp [hf, hv]
        rw [hf] at i1 i4
        exact ⟨_, hcalc, by rw [hf]; exact i1, by rw [hf]; exact i4⟩

end BoundingBoxTheorems

/-- C26 at the sample box with the point `(2, 2, 2)`, and at the one-triangle mesh. -/
theorem expand_grows_the_box_witness :
    (((sample_box : Cube ℚ).expand sample_point).ordered ∧
      ((sample_box : Cube ℚ).expand sample_point).contains sample_point ∧
      (∀ q : Vect3 ℚ, (sample_box : Cube ℚ).contains q →
        ((sample_box : Cube ℚ).expand sample_point).contains q) ∧
      (∀ outer : Cube ℚ, outer.ordered → outer.contains sample_point →
        (∀ q : Vect3 ℚ, (sample_box : Cube ℚ).contains q → outer.contains q) →
        ((sample_box : Cube ℚ).expand sample_point).within outer)) ∧
    (∃ r2 : ObjReader ℚ, ObjReader.calculate_bb (triangle_mesh : ObjReader ℚ) = some r2 ∧
      r2.bounding_box.ordered ∧
      ∀ f ∈ (triangle_mesh : ObjReader ℚ).faces, ∀ v ∈ f.vertices, r2.bounding_box.contains v) :=
  ⟨(expand_grows_the_box (sample_box : Cube ℚ) sample_point triangle_mesh).1
      (by norm_num [Cube.ordered, sample_box, sample_top_left, sample_bottom_right,
        Cube.create, Cube.create_faces]),
   (expand_grows_the_box (sample_box : Cube ℚ) sample_point triangle_mesh).2
      (by simp [triangle_mesh]) (by simp [triangle_mesh, triangle_face])⟩

/-! ### C27: the cage of a box -/

/-- The six faces that the constructor of `Cube` derives. -/
theorem cube_create_faces {K : Type} (tl br : Vect3 K) :
    (Cube.create tl br).faces =
      [Face.quad tl { x := br.x, y := tl.y, z := tl.z } { x := br.x, y := br.y, z := tl.z }
          { x := tl.x, y := br.y, z := tl.z },
       Face.quad { x := tl.x, y := tl.y, z := br.z } { x := br.x, y := tl.y, z := br.z } br
          { x := tl.x, y := br.y, z := br.z },
       Face.quad tl { x := tl.x, y := tl.y, z := br.z } { x := br.x, y := tl.y, z := br.z }
          { x := br.x, y := tl.y, z := tl.z },
       Face.quad { x := tl.x, y := br.y, z := tl.z } { x := tl.x, y := br.y, z := br.z } br
          { x := br.x, y := br.y, z := tl.z },
       Face.quad { x := tl.x, y := br.y, z := br.z } { x := tl.x, y := tl.y, z := br.z } tl
          { x := tl.x, y := br.y, z := tl.z },
       Face.quad br { x := br.x, y := tl.y, z := br.z } { x := br.x, y := tl.y, z := tl.z }
          { x := br.x, y := br.y, z := tl.z }] := rfl

/-- The closed loop of a quad. -/
theorem face_loop_quad {K : Type} (a b c d : Vect3 K) :
    face_loop (Face.quad a b c d) = [Edge.mk a b, Edge.mk b c, Edge.mk c d, Edge.mk d a] := rfl

/-- C27: a `Cube` built from two corners that differ in all three coordinates has
6 faces of 4 vertices; the 8 box corners are distinct and every face vertex is
one of them; each face has one coordinate constant; the 12 box edges are
distinct, every edge of a face loop is one of them, and each box edge occurs
exactly twice among the edges of the six loops, in exactly two faces. -/
theorem cube_cage {K : Type} [LinearOrderedField K] (tl br : Vect3 K) (hx : tl.x ≠ br.x) (hy : tl.y ≠ br.y) (hz : tl.z ≠ br.z) :
    (Cube.create tl br).faces.length = 6 ∧
    (∀ f ∈ (Cube.create tl br).faces, f.vertices.length = 4) ∧
    (box_corners tl br).Nodup ∧
    (∀ f ∈ (Cube.create tl br).faces, ∀ v ∈ f.vertices, v ∈ box_corners tl br) ∧
    (∀ f ∈ (Cube.create tl br).faces,
      (∃ c : K, ∀ v ∈ f.vertices, v.x = c) ∨ (∃ c : K, ∀ v ∈ f.vertices, v.y = c) ∨
        (∃ c : K, ∀ v ∈ f.vertices, v.z = c)) ∧
    (box_edges tl br).length = 12 ∧
    (box_edges tl br).Pairwise (fun e1 e2 => same_edge e1 e2 = false) ∧
    (∀ f ∈ (Cube.create tl br).faces, ∀ e ∈ face_loop f,
      ∃ b ∈ box_edges tl br, same_edge e b = true) ∧
    (∀ b ∈ box_edges tl br,
      (((Cube.create tl br).faces.flatMap face_loop).filter (fun e => same_edge e b)).length = 2 ∧
      ((Cube.create tl br).faces.filter
        (fun f => (face_loop f).any (fun e => same_edge e b))).length = 2) := by
  have hx2 := hx.symm
  have hy2 := hy.symm
  have hz2 := hz.symm
  obtain ⟨tx, ty, tz⟩ := tl
  obtain ⟨bx, by_, bz⟩ := br
  simp only at hx hy hz hx2 hy2 hz2
  rw [cube_create_faces]
  refine ⟨rfl, ?_, ?_, ?_, ?_, rfl, ?_, ?_, ?_⟩
  · intro f hf
    simp only [List.mem_cons, List.mem_singleton, List.not_mem_nil, or_false] at hf
    rcases hf with h | h | h | h | h | h <;> rw [h] <;> rfl
  · simp [box_corners, hx, hy, hz, hx2, hy2, hz2]
  · intro f hf v hv
    simp only [List.mem_cons, List.mem_singleton, List.not_mem_nil, or_false] at hf
    rcases hf with h | h | h | h | h | h <;> rw [h] at hv <;>
      simp only [Face.quad, List.mem_cons, List.mem_singleton, List.not_mem_nil, or_false] at hv <;>
      rcases hv with h | h | h | h <;> rw [h] <;> simp [box_corners]
  · intro f hf
    simp only [List.mem_cons, List.mem_singleton, List.not_mem_nil, or_false] at hf
    rcases hf with h | h | h | h | h | h <;> rw [h]
    · right; right; exact ⟨tz, by simp [Face.quad]⟩
    · right; right; exact ⟨bz, by simp [Face.quad]⟩
    · right; left; exact ⟨ty, by simp [Face.quad]⟩
    · right; left; exact ⟨by_, by simp [Face.quad]⟩
    · left; exact ⟨tx, by simp [Face.quad]⟩
    · left; exact ⟨bx, by simp [Face.quad]⟩
  · simp [box_edges, same_edge, hx, hy, hz, hx2, hy2, hz2]
  · intro f hf e he
    simp only [List.mem_cons, List.mem_singleton, List.not_mem_nil, or_false] at hf
    rcases hf with h | h | h | h | h | h <;> rw [h, face_loop_quad] at he <;>
      simp only [List.mem_cons, List.mem_singleton, List.not_mem_nil, or_false] at he <;>
      rcases he with h | h | h | h <;> rw [h] <;>
      simp [box_edges, same_edge]
  · intro b hb
    simp only [box_edges, List.mem_cons, List.mem_singleton, List.not_mem_nil, or_false] at hb
    rcases hb with h | h | h | h | h | h | h | h | h | h | h | h <;> rw [h] <;>
      simp [List.flatMap, face_loop_quad, same_edge, List.filter, hx, hy, hz, hx2, hy2, hz2]

/-- C27 at the box with the corners `(0, 1, 1)` and `(1, 0, 0)`. -/
theorem cube_cage_witness :
    (Cube.create (sample_top_left : Vect3 ℚ) sample_bottom_right).faces.length = 6 ∧
    (∀ f ∈ (Cube.create (sample_top_left : Vect3 ℚ) sample_bottom_right).faces,
      f.vertices.length = 4) ∧
    (box_corners (sample_top_left : Vect3 ℚ) sample_bottom_right).Nodup ∧
    (∀ f ∈ (Cube.create (sample_top_left : Vect3 ℚ) sample_bottom_right).faces,
      ∀ v ∈ f.vertices, v ∈ box_corners (sample_top_left : Vect3 ℚ) sample_bottom_right) ∧
    (∀ f ∈ (Cube.create (sample_top_left : Vect3 ℚ) sample_bottom_right).faces,
      (∃ c : ℚ, ∀ v ∈ f.vertices, v.x = c) ∨ (∃ c : ℚ, ∀ v ∈ f.vertices, v.y = c) ∨
        (∃ c : ℚ, ∀ v ∈ f.vertices, v.z = c)) ∧
    (box_edges (sample_top_left : Vect3 ℚ) sample_bottom_right).length = 12 ∧
    (box_edges (sample_top_left : Vect3 ℚ) sample_bottom_right).Pairwise
      (fun e1 e2 => same_edge e1 e2 = false) ∧
    (∀ f ∈ (Cube.create (sample_top_left : Vect3 ℚ) sample_bottom_right).faces,
      ∀ e ∈ face_loop f,
        ∃ b ∈ box_edges (sample_top_left : Vect3 ℚ) sample_bottom_right, same_edge e b = true) ∧
    (∀ b ∈ box_edges (sample_top_left : Vect3 ℚ) sample_bottom_right,
      (((Cube.create (sample_top_left : Vect3 ℚ) sample_bottom_right).faces.flatMap
          face_loop).filter (fun e => same_edge e b)).length = 2 ∧
      ((Cube.create (sample_top_left : Vect3 ℚ) sample_bottom_right).faces.filter
        (fun f => (face_loop f).any (fun e => same_edge e b))).length = 2) :=
  cube_cage sample_top_left sample_bottom_right
    (by norm_num [sample_top_left, sample_bottom_right])
    (by norm_num [sample_top_left, sample_bottom_right])
    (by norm_num [sample_top_left, sample_bottom_right])

/-! ### C28: the transforms of `Polygon` -/

section PolygonLemmas

variable {K : Type} [LinearOrderedField K]

/-- The sum of a list of vectors, coordinate by coordinate. -/
theorem vect2_sum_coords (l : List (Vect2 K)) :
    Vect2.sum l = { x := (l.map (fun v => v.x)).sum, y := (l.map (fun v => v.y)).sum } := by
  induction l with
  | nil => rfl
  | cons a as ih =>
    have hstep : Vect2.sum (a :: as) = a.op_add (Vect2.sum as) := rfl
    rw [hstep, ih]
    simp [Vect2.op_add]

/-- The sum of an affine function of one quantity over a list of vectors. -/
theorem sum_map_affine (l : List (Vect2 K)) (f : Vect2 K → K) (a b : K) :
    (l.map (fun v => a + b * f v)).sum = (l.length : K) * a + b * (l.map f).sum := by
  induction l with
  | nil => simp
  | cons v vs ih =>
    simp only [List.map_cons, List.sum_cons, List.length_cons, ih]
    push_cast
    ring

/-- A sequence of calls of `move` adds the sum of the displacements to the offset and to every vertex. -/
theorem polygon_moves (moves : List (Vect2 K)) :
    ∀ p : Polygon K,
      (moves.foldl Polygon.move p).translation = p.translation.op_add (Vect2.sum moves) ∧
      (moves.foldl Polygon.move p).vertices
        = p.vertices.map (fun v => v.op_add (Vect2.sum moves)) := by
  induction moves with
  | nil =>
    intro p
    constructor
    · simp [Vect2.sum, Vect2.op_add]
    · simp [Vect2.sum, Vect2.op_add]
  | cons d ds ih =>
    intro p
    obtain ⟨h1, h2⟩ := ih (p.move d)
    have hstep : Vect2.sum (d :: ds) = d.op_add (Vect2.sum ds) := rfl
    rw [List.foldl_cons, h1, h2, hstep]
    constructor
    · simp only [Polygon.move, Vect2.op_add, Vect2.mk.injEq]
      constructor <;> ring
    · simp only [Polygon.move, List.map_map]
      apply List.map_congr_left
      intro v _
      simp only [Function.comp_apply, Vect2.op_add, Vect2.mk.injEq]
      constructor <;> ring

/-- The vertices after `scale`. -/
theorem polygon_scale_vertices (p : Polygon K) (k : K) :
    (p.scale k).translation = p.translation ∧
    (p.scale k).vertices = p.vertices.map
      (fun v => { x := p.translation.x + k * (v.x - p.translation.x),
                  y := p.translation.y + k * (v.y - p.translation.y) }) := by
  refine ⟨rfl, ?_⟩
  simp only [Polygon.scale]
  apply List.map_congr_left
  intro v _
  simp only [Vect2.op_add, Vect2.op_mul, Vect2.invert, Vect2.mk.injEq]
  constructor <;> ring

/-- The vertices after `rotate`. -/
theorem polygon_rotate_vertices (m : Libm K) (p : Polygon K) (theta : K) :
    (p.rotate m theta).translation = p.translation ∧
    (p.rotate m theta).vertices = p.vertices.map
      (fun v => { x := p.translation.x +
                    (Vect2.rotate m { x := v.x - p.translation.x, y := v.y - p.translation.y }
                      theta).x,
                  y := p.translation.y +
                    (Vect2.rotate m { x := v.x - p.translation.x, y := v.y - p.translation.y }
                      theta).y }) := by
  refine ⟨rfl, ?_⟩
  simp only [Polygon.rotate]
  apply List.map_congr_left
  intro v _
  simp only [Vect2.op_add, Vect2.rotate, Vect2.invert, Vect2.mk.injEq]
  constructor <;> ring

/-- The vertices that the loop of `add_by_rotation` appends. -/
theorem add_by_rotation_loop_vertices (m : Libm K) (angle : K) (passes : Nat) :
    ∀ (v : Vect2 K) (p : Polygon K),
      (Polygon.add_by_rotation_loop m angle passes v p).translation = p.translation ∧
      (Polygon.add_by_rotation_loop m angle passes v p).vertices
        = p.vertices ++ (List.range passes).map (fun i => (fun w => Vect2.rotate m w angle)^[i] v) := by
  induction passes with
  | zero => intro v p; simp [Polygon.add_by_rotation_loop]
  | succ k ih =>
    intro v p
    obtain ⟨h1, h2⟩ := ih (v.rotate m angle) (p.add_vertex v)
    simp only [Polygon.add_by_rotation_loop]
    rw [h1, h2]
    refine ⟨rfl, ?_⟩
    simp only [Polygon.add_vertex, List.append_assoc, List.singleton_append, List.range_succ_eq_map,
      List.map_cons, List.map_map, Function.iterate_zero, id_eq]
    rfl

end PolygonLemmas

/-- The method `rotate` as a product of complex numbers. -/
theorem real_rotate_complex (w : Vect2 ℝ) (angle : ℝ) :
    Complex.mk (Vect2.rotate realLibm w angle).x (Vect2.rotate realLibm w angle).y
      = Complex.mk w.x w.y * Complex.exp (((angle * Real.pi / 180 : ℝ) : ℂ) * Complex.I) := by
  apply Complex.ext
  · simp only [Vect2.rotate, rad_cos, rad_sin, realLibm, Complex.mul_re,
      Complex.exp_ofReal_mul_I_re, Complex.exp_ofReal_mul_I_im]
  · simp only [Vect2.rotate, rad_cos, rad_sin, realLibm, Complex.mul_im,
      Complex.exp_ofReal_mul_I_re, Complex.exp_ofReal_mul_I_im]

/-- Repeated calls of `rotate` as a product with a power. -/
theorem real_rotate_iterate_complex (v : Vect2 ℝ) (angle : ℝ) (i : Nat) :
    Complex.mk ((fun w => Vect2.rotate realLibm w angle)^[i] v).x
        ((fun w => Vect2.rotate realLibm w angle)^[i] v).y
      = Complex.mk v.x v.y *
          Complex.exp (((angle * Real.pi / 180 : ℝ) : ℂ) * Complex.I) ^ i := by
  induction i with
  | zero => simp
  | succ k ih =>
    rw [Function.iterate_succ_apply', real_rotate_complex, ih, pow_succ, mul_assoc]

/-- The coordinate sums of a list of vectors as the parts of a complex sum. -/
theorem list_sum_range_re (f : Nat → Vect2 ℝ) (k : Nat) :
    ((List.range k).map (fun i => (f i).x)).sum
        = (∑ i in Finset.range k, Complex.mk (f i).x (f i).y).re ∧
    ((List.range k).map (fun i => (f i).y)).sum
        = (∑ i in Finset.range k, Complex.mk (f i).x (f i).y).im := by
  induction k with
  | zero => simp
  | succ k ih =>
    rw [List.range_succ, List.map_append, List.sum_append, List.map_append, List.sum_append,
      Finset.sum_range_succ, Complex.add_re, Complex.add_im, ih.1, ih.2]
    simp

/-- The vertices that `add_by_rotation` derives from one vertex for `n >= 2` sum to zero. -/
theorem regular_polygon_sum_zero (v : Vect2 ℝ) (n : Nat) (hn : 2 ≤ n) :
    ((List.range n).map
        (fun i => ((fun w => Vect2.rotate realLibm w (360.0 / (n : ℝ)))^[i] v).x)).sum = 0 ∧
    ((List.range n).map
        (fun i => ((fun w => Vect2.rotate realLibm w (360.0 / (n : ℝ)))^[i] v).y)).sum = 0 := by
  have hn0 : (n : ℝ) ≠ 0 := by
    have : (0 : ℝ) < n := by exact_mod_cast (by omega : 0 < n)
    exact this.ne'
  have hnC : (n : ℂ) ≠ 0 := by exact_mod_cast hn0
  have homega : Complex.exp ((((360.0 / (n : ℝ)) * Real.pi / 180 : ℝ) : ℂ) * Complex.I)
      = Complex.exp (2 * Real.pi * Complex.I / n) := by
    congr 1
    push_cast
    field_simp
    norm_num
    ring
  have hprim := Complex.isPrimitiveRoot_exp n (by omega)
  have hgeom := hprim.geom_sum_eq_zero (by omega : 1 < n)
  have hsum : ∑ i in Finset.range n,
      Complex.mk ((fun w => Vect2.rotate realLibm w (360.0 / (n : ℝ)))^[i] v).x
        ((fun w => Vect2.rotate realLibm w (360.0 / (n : ℝ)))^[i] v).y = 0 := by
    simp only [real_rotate_iterate_complex, homega]
    rw [← Finset.mul_sum, hgeom, mul_zero]
  obtain ⟨hx, hy⟩ := list_sum_range_re
    (fun i => (fun w => Vect2.rotate realLibm w (360.0 / (n : ℝ)))^[i] v) n
  rw [hx, hy, hsum]
  simp

/-- The sum of an affine function of the two coordinates over a list of vectors. -/
theorem sum_map_affine2 {K : Type} [LinearOrderedField K] (l : List (Vect2 K)) (a b c : K) :
    (l.map (fun v => a + b * v.x + c * v.y)).sum
      = (l.length : K) * a + b * (l.map (fun v => v.x)).sum + c * (l.map (fun v => v.y)).sum := by
  induction l with
  | nil => simp
  | cons v vs ih =>
    simp only [List.map_cons, List.sum_cons, List.length_cons, ih]
    push_cast
    ring

/-- The centroid from the two coordinate sums. -/
theorem centroid_of_sums {K : Type} [LinearOrderedField K] (p : Polygon K) (t : Vect2 K)
    (hlen : p.vertices.length ≠ 0)
    (hx : (p.vertices.map (fun v => v.x)).sum = (p.vertices.length : K) * t.x)
    (hy : (p.vertices.map (fun v => v.y)).sum = (p.vertices.length : K) * t.y) :
    p.centroid = t := by
  have hK : (p.vertices.length : K) ≠ 0 := by exact_mod_cast hlen
  unfold Polygon.centroid
  rw [vect2_sum_coords, hx, hy]
  cases t with
  | mk tx ty =>
    simp only [Vect2.op_mul, Vect2.mk.injEq]
    constructor <;> field_simp

/-- The coordinate sums after adding a displacement to every vector. -/
theorem sums_after_shift {K : Type} [LinearOrderedField K] (l : List (Vect2 K)) (d : Vect2 K) :
    ((l.map (fun w => w.op_add d)).map (fun w => w.x)).sum
      = (l.length : K) * d.x + (l.map (fun w => w.x)).sum ∧
    ((l.map (fun w => w.op_add d)).map (fun w => w.y)).sum
      = (l.length : K) * d.y + (l.map (fun w => w.y)).sum := by
  induction l with
  | nil => simp
  | cons v vs ih =>
    simp only [List.map_cons, List.sum_cons, List.length_cons, ih.1, ih.2]
    simp only [Vect2.op_add]
    push_cast
    constructor <;> ring

/-- The coordinate sums of a polygon centred on its offset stay after `scale`. -/
theorem sums_after_scale {K : Type} [LinearOrderedField K] (p : Polygon K) (k : K)
    (hx : (p.vertices.map (fun w => w.x)).sum = (p.vertices.length : K) * p.translation.x)
    (hy : (p.vertices.map (fun w => w.y)).sum = (p.vertices.length : K) * p.translation.y) :
    (p.scale k).vertices.length = p.vertices.length ∧
    ((p.scale k).vertices.map (fun w => w.x)).sum
      = (p.vertices.length : K) * p.translation.x ∧
    ((p.scale k).vertices.map (fun w => w.y)).sum
      = (p.vertices.length : K) * p.translation.y := by
  have h1 := sum_map_affine2 p.vertices (p.translation.x - k * p.translation.x) k 0
  have h2 := sum_map_affine2 p.vertices (p.translation.y - k * p.translation.y) 0 k
  rw [(polygon_scale_vertices p k).2]
  refine ⟨by simp, ?_, ?_⟩
  · rw [List.map_map]
    have hfun : ((fun w : Vect2 K => w.x) ∘ fun w : Vect2 K =>
        ({ x := p.translation.x + k * (w.x - p.translation.x),
           y := p.translation.y + k * (w.y - p.translation.y) } : Vect2 K))
        = fun w => (p.translation.x - k * p.translation.x) + k * w.x + 0 * w.y := by
      funext w
      simp only [Function.comp_apply]
      ring
    rw [hfun, h1, hx]
    ring
  · rw [List.map_map]
    have hfun : ((fun w : Vect2 K => w.y) ∘ fun w : Vect2 K =>
        ({ x := p.translation.x + k * (w.x - p.translation.x),
           y := p.translation.y + k * (w.y - p.translation.y) } : Vect2 K))
        = fun w => (p.translation.y - k * p.translation.y) + 0 * w.x + k * w.y := by
      funext w
      simp only [Function.comp_apply]
      ring
    rw [hfun, h2, hy]
    ring

/-- The coordinate sums of a polygon centred on its offset stay after `rotate`. -/
theorem sums_after_rotate {K : Type} [LinearOrderedField K] (m : Libm K) (p : Polygon K)
    (theta : K)
    (hx : (p.vertices.map (fun w => w.x)).sum = (p.vertices.length : K) * p.translation.x)
    (hy : (p.vertices.map (fun w => w.y)).sum = (p.vertices.length : K) * p.translation.y) :
    (p.rotate m theta).vertices.length = p.vertices.length ∧
    ((p.rotate m theta).vertices.map (fun w => w.x)).sum
      = (p.vertices.length : K) * p.translation.x ∧
    ((p.rotate m theta).vertices.map (fun w => w.y)).sum
      = (p.vertices.length : K) * p.translation.y := by
  have h1 := sum_map_affine2 p.vertices
    (p.translation.x - rad_cos m theta * p.translation.x + rad_sin m theta * p.translation.y)
    (rad_cos m theta) (-rad_sin m theta)
  have h2 := sum_map_affine2 p.vertices
    (p.translation.y - rad_sin m theta * p.translation.x - rad_cos m theta * p.translation.y)
    (rad_sin m theta) (rad_cos m theta)
  rw [(polygon_rotate_vertices m p theta).2]
  refine ⟨by simp, ?_, ?_⟩
  · rw [List.map_map]
    have hfun : ((fun w : Vect2 K => w.x) ∘ fun w : Vect2 K =>
        ({ x := p.translation.x +
              (Vect2.rotate m { x := w.x - p.translation.x, y := w.y - p.translation.y } theta).x,
           y := p.translation.y +
              (Vect2.rotate m { x := w.x - p.translation.x, y := w.y - p.translation.y } theta).y }
          : Vect2 K))
        = fun w => (p.translation.x - rad_cos m theta * p.translation.x
            + rad_sin m theta * p.translation.y) + rad_cos m theta * w.x
            + (-rad_sin m theta) * w.y := by
      funext w
      simp only [Function.comp_apply, Vect2.rotate]
      ring
    rw [hfun, h1, hx, hy]
    ring
  · rw [List.map_map]
    have hfun : ((fun w : Vect2 K => w.y) ∘ fun w : Vect2 K =>
        ({ x := p.translation.x +
              (Vect2.rotate m { x := w.x - p.translation.x, y := w.y - p.translation.y } theta).x,
           y := p.translation.y +
              (Vect2.rotate m { x := w.x - p.translation.x, y := w.y - p.translation.y } theta).y }
          : Vect2 K))
        = fun w => (p.translation.y - rad_sin m theta * p.translation.x
            - rad_cos m theta * p.translation.y) + rad_sin m theta * w.x
            + rad_cos m theta * w.y := by
      funext w
      simp only [Function.comp_apply, Vect2.rotate]
      ring
    rw [hfun, h2, hx, hy]
    ring

/-- C28: a sequence of calls of `move` adds the sum of the displacements to the
offset `T = translation`, which is `(0, 0)` after either constructor; `scale(k)`
maps every vertex `w` to `T + k * (w - T)` and `rotate(theta)` maps it to
`T + R_theta (w - T)`; and for a polygon built by the constructor with `n >= 2`
vertices and then moved, there are `n` vertices, `T` is the sum of the
displacements and the centroid of the vertices, and `scale` and `rotate` leave
the centroid where it is. -/
theorem polygon_transforms_about_offset (p : Polygon ℝ) (moves : List (Vect2 ℝ))
    (k theta radius : ℝ) (v : Vect2 ℝ) (n : Int) :
    ((moves.foldl Polygon.move p).translation = p.translation.op_add (Vect2.sum moves) ∧
      (Polygon.of_vertex realLibm v n).translation = { x := 0, y := 0 } ∧
      Polygon.of_radius realLibm radius n = Polygon.of_vertex realLibm { x := 0, y := radius } n) ∧
    ((p.scale k).translation = p.translation ∧
      (p.scale k).vertices = p.vertices.map
        (fun w => { x := p.translation.x + k * (w.x - p.translation.x),
                    y := p.translation.y + k * (w.y - p.translation.y) })) ∧
    ((p.rotate realLibm theta).translation = p.translation ∧
      (p.rotate realLibm theta).vertices = p.vertices.map
        (fun w => { x := p.translation.x +
                      (Vect2.rotate realLibm
                        { x := w.x - p.translation.x, y := w.y - p.translation.y } theta).x,
                    y := p.translation.y +
                      (Vect2.rotate realLibm
                        { x := w.x - p.translation.x, y := w.y - p.translation.y } theta).y })) ∧
    (2 ≤ n → ∀ q : Polygon ℝ, q = moves.foldl Polygon.move (Polygon.of_vertex realLibm v n) →
      (q.vertices.length : Int) = n ∧ q.translation = Vect2.sum moves ∧
      q.centroid = q.translation ∧ (q.scale k).centroid = q.centroid ∧
      (q.rotate realLibm theta).centroid = q.centroid) := by
  refine ⟨⟨(polygon_moves moves p).1, ?_, rfl⟩, polygon_scale_vertices p k,
    polygon_rotate_vertices realLibm p theta, ?_⟩
  · exact (add_by_rotation_loop_vertices realLibm _ _ v Polygon.empty).1
  · intro hn q hq
    obtain ⟨N, hN⟩ : ∃ N : Nat, n = (N : Int) := ⟨n.toNat, by omega⟩
    have hN2 : 2 ≤ N := by omega
    obtain ⟨ht0, hv0⟩ := add_by_rotation_loop_vertices realLibm (360.0 / (n : ℝ)) n.toNat v
      Polygon.empty
    obtain ⟨hmt, hmv⟩ := polygon_moves moves (Polygon.of_vertex realLibm v n)
    have hq0v : (Polygon.of_vertex realLibm v n).vertices
        = (List.range N).map
            (fun i => (fun w => Vect2.rotate realLibm w (360.0 / (N : ℝ)))^[i] v) := by
      have : (Polygon.of_vertex realLibm v n).vertices
          = (Polygon.add_by_rotation_loop realLibm (360.0 / (n : ℝ)) n.toNat v
              Polygon.empty).vertices := rfl
      rw [this, hv0, hN]
      simp [Polygon.empty]
    have hq0t : (Polygon.of_vertex realLibm v n).translation = { x := 0, y := 0 } := ht0
    obtain ⟨hsx, hsy⟩ := regular_polygon_sum_zero v N hN2
    have hqt : q.translation = Vect2.sum moves := by
      rw [hq, hmt, hq0t]
      simp [Vect2.op_add]
    have hqv : q.vertices = ((List.range N).map
        (fun i => (fun w => Vect2.rotate realLibm w (360.0 / (N : ℝ)))^[i] v)).map
          (fun w => w.op_add (Vect2.sum moves)) := by
      rw [hq, hmv, hq0v]
    have hlen : q.vertices.length = N := by rw [hqv]; simp
    have hlen0 : q.vertices.length ≠ 0 := by omega
    obtain ⟨hshx, hshy⟩ := sums_after_shift ((List.range N).map
      (fun i => (fun w => Vect2.rotate realLibm w (360.0 / (N : ℝ)))^[i] v)) (Vect2.sum moves)
    have hsx2 : (((List.range N).map
        (fun i => (fun w => Vect2.rotate realLibm w (360.0 / (N : ℝ)))^[i] v)).map
          (fun w => w.x)).sum = 0 := by rw [List.map_map]; exact hsx
    have hsy2 : (((List.range N).map
        (fun i => (fun w => Vect2.rotate realLibm w (360.0 / (N : ℝ)))^[i] v)).map
          (fun w => w.y)).sum = 0 := by rw [List.map_map]; exact hsy
    have hqx : (q.vertices.map (fun w => w.x)).sum
        = (q.vertices.length : ℝ) * q.translation.x := by
      rw [hlen, hqt, hqv, hshx, hsx2]
      simp
    have hqy : (q.vertices.map (fun w => w.y)).sum
        = (q.vertices.length : ℝ) * q.translation.y := by
      rw [hlen, hqt, hqv, hshy, hsy2]
      simp
    have hcq : q.centroid = q.translation := centroid_of_sums q q.translation hlen0 hqx hqy
    obtain ⟨sl, sx, sy⟩ := sums_after_scale q k hqx hqy
    obtain ⟨rl, rx, ry⟩ := sums_after_rotate realLibm q theta hqx hqy
    refine ⟨by rw [hlen, hN], hqt, hcq, ?_, ?_⟩
    · rw [hcq]
      apply centroid_of_sums _ _ (by rw [sl]; exact hlen0)
      · rw [sl]; exact sx
      · rw [sl]; exact sy
    · rw [hcq]
      apply centroid_of_sums _ _ (by rw [rl]; exact hlen0)
      · rw [rl]; exact rx
      · rw [rl]; exact ry

/-- C28 at the polygon with 4 vertices built from `(1, 0)` and moved by `(1, 2)`
and `(3, -1)`, scaled by 2 and rotated by 90 degrees. -/
theorem polygon_transforms_about_offset_witness :
    ((sample_regular_polygon realLibm).vertices.length : Int) = 4 ∧
    (sample_regular_polygon realLibm).translation = Vect2.sum sample_moves ∧
    (sample_regular_polygon realLibm).centroid = (sample_regular_polygon realLibm).translation ∧
    ((sample_regular_polygon realLibm).scale 2).centroid
      = (sample_regular_polygon realLibm).centroid ∧
    ((sample_regular_polygon realLibm).rotate realLibm 90).centroid
      = (sample_regular_polygon realLibm).centroid :=
  (polygon_transforms_about_offset Polygon.empty sample_moves 2 90 1 { x := 1, y := 0 } 4).2.2.2
    (by norm_num) (sample_regular_polygon realLibm) rfl

/-! ### C29 and C30: `draw_single_pixel` -/

/-- A checked read succeeds exactly for the indices of the buffer. -/
theorem read_byte_checked_isSome {K : Type} [LinearOrderedField K] [FloorRing K]
    (img : BasicImage K) (idx : Int) :
    (img.read_byte_checked idx).isSome = true ↔ 0 ≤ idx ∧ idx < (img.pixels.length : Int) := by
  unfold BasicImage.read_byte_checked
  by_cases h : 0 ≤ idx
  · rw [if_pos h]
    by_cases hlt : idx.toNat < img.pixels.length
    · rw [List.getElem?_eq_getElem hlt]
      simp only [Option.isSome_some, true_iff]
      exact ⟨h, by omega⟩
    · rw [List.getElem?_eq_none (by omega)]
      simp only [Option.isSome_none, Bool.false_eq_true, false_iff]
      intro hl
      omega
  · rw [if_neg h]
    constructor
    · intro hl
      exact absurd hl (by simp)
    · intro hl
      exact absurd hl.1 h

/-- A checked read of an index of the buffer gives the byte that `read_byte` gives. -/
theorem read_byte_checked_of_lt {K : Type} [LinearOrderedField K] [FloorRing K]
    (img : BasicImage K) (idx : Int) (h0 : 0 ≤ idx) (h1 : idx < (img.pixels.length : Int)) :
    img.read_byte_checked idx = some (img.read_byte idx) := by
  have hlt : idx.toNat < img.pixels.length := by omega
  rw [BasicImage.read_byte_checked, BasicImage.read_byte, if_pos h0, if_pos h0,
    List.getElem?_eq_getElem hlt, List.getD_eq_getElem _ _ hlt]

/-- A checked write succeeds exactly for the indices of the buffer. -/
theorem write_byte_checked_isSome (pixels : List Nat) (idx value : Int) :
    (BasicImage.write_byte_checked pixels idx value).isSome = true ↔
      0 ≤ idx ∧ idx < (pixels.length : Int) := by
  unfold BasicImage.write_byte_checked
  by_cases h : 0 ≤ idx ∧ idx < (pixels.length : Int)
  · simp [h]
  · simp [h]

/-- A checked write to an index of the buffer gives the buffer that `write_byte` gives, of the
same length. -/
theorem write_byte_checked_of_lt (pixels : List Nat) (idx value : Int) (h0 : 0 ≤ idx)
    (h1 : idx < (pixels.length : Int)) :
    BasicImage.write_byte_checked pixels idx value
        = some (BasicImage.write_byte pixels idx value) ∧
      (BasicImage.write_byte pixels idx value).length = pixels.length := by
  rw [BasicImage.write_byte_checked, BasicImage.write_byte, if_pos ⟨h0, h1⟩, if_pos h0]
  exact ⟨rfl, List.length_set _ _ _⟩

/-- The byte range of an in-frame pixel lies in the buffer. -/
theorem pixel_range_in_buffer (w h c xi yi : Int) (hc : 0 ≤ c) (hx0 : 0 ≤ xi)
    (hx1 : xi ≤ w - 1) (hy0 : 0 ≤ yi) (hy1 : yi ≤ h - 1) :
    0 ≤ ((yi + 1) * w - (w - xi)) * c ∧ ((yi + 1) * w - (w - xi)) * c + c ≤ w * h * c := by
  have e : (yi + 1) * w - (w - xi) = yi * w + xi := by ring
  rw [e]
  have hw : 0 ≤ w := by omega
  have hpix0 : 0 ≤ yi * w + xi := add_nonneg (mul_nonneg hy0 hw) hx0
  have hpix1 : yi * w + xi + 1 ≤ w * h := by nlinarith
  refine ⟨mul_nonneg hpix0 hc, ?_⟩
  have := mul_le_mul_of_nonneg_right hpix1 hc
  linarith

/-- In frame, `get_color_at` with checked reads gives the colour of `get_color_at`. -/
theorem get_color_at_checked_in_frame {K : Type} [LinearOrderedField K] [FloorRing K]
    (img : BasicImage K) (xi yi : Int)
    (hc : img.channels = 3 ∨ img.channels = 4)
    (hbuf : (img.pixels.length : Int) = img.width * img.height * img.channels)
    (hx0 : 0 ≤ xi) (hx1 : xi ≤ img.width - 1) (hy0 : 0 ≤ yi) (hy1 : yi ≤ img.height - 1) :
    img.get_color_at_checked xi yi = some (img.get_color_at xi yi) := by
  have hr := pixel_range_in_buffer img.width img.height img.channels xi yi (by omega)
    hx0 hx1 hy0 hy1
  rw [← hbuf] at hr
  obtain ⟨hlo, hhi⟩ := hr
  have hidx : img.get_index_from_coords xi yi
      = ((yi + 1) * img.width - (img.width - xi)) * img.channels := rfl
  rw [← hidx] at hlo hhi
  have r0 := read_byte_checked_of_lt img (img.get_index_from_coords xi yi) hlo (by omega)
  have r1 := read_byte_checked_of_lt img (img.get_index_from_coords xi yi + 1)
    (by omega) (by omega)
  have r2 := read_byte_checked_of_lt img (img.get_index_from_coords xi yi + 2)
    (by omega) (by omega)
  unfold BasicImage.get_color_at_checked BasicImage.get_color_at
  simp only [r0, r1, r2, Option.bind_eq_bind, Option.some_bind, Option.pure_def]
  rcases hc with h3 | h4
  · have e3 : ¬ img.channels = 4 := by omega
    simp only [if_neg e3, Option.some_bind, Nat.cast_zero]
  · have r3 := read_byte_checked_of_lt img (img.get_index_from_coords xi yi + 3)
      (by omega) (by omega)
    simp only [if_pos h4, r3, Option.some_bind]

/-- C29: for an image with `width >= 1`, `height >= 1`, 3 or 4 channels and a
buffer of `width * height * channels` bytes, a checked read or write of the
buffer succeeds exactly for the indices in `[0, width * height * channels)`, and
for every coordinate and brush `draw_single_pixel` with every read and write
checked succeeds and gives the image (with a buffer of the same length) that
`draw_single_pixel` gives: no index it reads, through `get_color_at`, or writes
is outside that range. -/
theorem draw_single_pixel_in_bounds {K : Type} [LinearOrderedField K] [FloorRing K]
    (img : BasicImage K) (xi yi : Int) (brush : BasicBrush K)
    (hw : 1 ≤ img.width) (hh : 1 ≤ img.height) (hc : img.channels = 3 ∨ img.channels = 4)
    (hbuf : (img.pixels.length : Int) = img.width * img.height * img.channels) :
    (∀ idx : Int, (img.read_byte_checked idx).isSome = true ↔
      0 ≤ idx ∧ idx < img.width * img.height * img.channels) ∧
    (∀ (pixels : List Nat) (idx value : Int), pixels.length = img.pixels.length →
      ((BasicImage.write_byte_checked pixels idx value).isSome = true ↔
        0 ≤ idx ∧ idx < img.width * img.height * img.channels)) ∧
    img.draw_single_pixel_checked xi yi brush = some (img.draw_single_pixel xi yi brush) ∧
    (img.draw_single_pixel xi yi brush).pixels.length = img.pixels.length ∧
    (0 ≤ xi ∧ xi ≤ img.width - 1 ∧ 0 ≤ yi ∧ yi ≤ img.height - 1 →
      img.get_color_at_checked xi yi = some (img.get_color_at xi yi)) := by
  have _hw := hw
  have _hh := hh
  have hmain : img.draw_single_pixel_checked xi yi brush
        = some (img.draw_single_pixel xi yi brush) ∧
      (img.draw_single_pixel xi yi brush).pixels.length = img.pixels.length := by
    by_cases hguard : img.get_index_from_coords xi yi < 0 ∨
        img.get_index_from_coords xi yi ≥ img.max_index ∨ xi < 0 ∨ xi > img.width - 1 ∨
        yi < 0 ∨ yi > img.height - 1
    · have e1 : img.draw_single_pixel_checked xi yi brush = some img := by
        unfold BasicImage.draw_single_pixel_checked
        exact if_pos hguard
      have e2 : img.draw_single_pixel xi yi brush = img := by
        unfold BasicImage.draw_single_pixel
        exact if_pos hguard
      rw [e1, e2]
      exact ⟨rfl, rfl⟩
    · have hg : 0 ≤ xi ∧ xi ≤ img.width - 1 ∧ 0 ≤ yi ∧ yi ≤ img.height - 1 := by
        refine ⟨?_, ?_, ?_, ?_⟩ <;>
        · by_contra hcon
          apply hguard
          simp only [not_le] at hcon
          tauto
      obtain ⟨hx0, hx1, hy0, hy1⟩ := hg
      have hcol := get_color_at_checked_in_frame img xi yi hc hbuf hx0 hx1 hy0 hy1
      have hr := pixel_range_in_buffer img.width img.height img.channels xi yi (by omega)
        hx0 hx1 hy0 hy1
      rw [← hbuf] at hr
      obtain ⟨hlo, hhi⟩ := hr
      have hidx : img.get_index_from_coords xi yi
          = ((yi + 1) * img.width - (img.width - xi)) * img.channels := rfl
      rw [← hidx] at hlo hhi
      generalize hcoldef : blend_two_colors brush.color BasicColor.over_ID
        (img.get_color_at xi yi) = blend_color
      have w0 := write_byte_checked_of_lt img.pixels (img.get_index_from_coords xi yi)
        blend_color.r255 hlo (by omega)
      have w1 := write_byte_checked_of_lt
        (BasicImage.write_byte img.pixels (img.get_index_from_coords xi yi) blend_color.r255)
        (img.get_index_from_coords xi yi + 1) blend_color.g255 (by omega)
        (by rw [w0.2]; omega)
      have w2 := write_byte_checked_of_lt
        (BasicImage.write_byte
          (BasicImage.write_byte img.pixels (img.get_index_from_coords xi yi) blend_color.r255)
          (img.get_index_from_coords xi yi + 1) blend_color.g255)
        (img.get_index_from_coords xi yi + 2) blend_color.b255 (by omega)
        (by rw [w1.2, w0.2]; omega)
      unfold BasicImage.draw_single_pixel_checked BasicImage.draw_single_pixel
      simp only [if_neg hguard, hcol, Option.bind_eq_bind, Option.some_bind, Option.pure_def,
        hcoldef, w0.1, w1.1, w2.1]
      rcases hc with h3 | h4
      · have e3 : ¬ img.channels = 4 := by omega
        simp only [if_neg e3, Option.some_bind]
        exact ⟨trivial, by rw [w2.2, w1.2, w0.2]⟩
      · have w3 := write_byte_checked_of_lt
          (BasicImage.write_byte
            (BasicImage.write_byte
              (BasicImage.write_byte img.pixels (img.get_index_from_coords xi yi)
                blend_color.r255)
              (img.get_index_from_coords xi yi + 1) blend_color.g255)
            (img.get_index_from_coords xi yi + 2) blend_color.b255)
          (img.get_index_from_coords xi yi + 3) blend_color.a255 (by omega)
          (by rw [w2.2, w1.2, w0.2]; omega)
        simp only [if_pos h4, w3.1, Option.some_bind]
        exact ⟨trivial, by rw [w3.2, w2.2, w1.2, w0.2]⟩
  refine ⟨?_, ?_, hmain.1, hmain.2, ?_⟩
  · intro idx
    rw [read_byte_checked_isSome, hbuf]
  · intro pixels idx value hlen
    rw [write_byte_checked_isSome, hlen, hbuf]
  · intro hf
    exact get_color_at_checked_in_frame img xi yi hc hbuf hf.1 hf.2.1 hf.2.2.1 hf.2.2.2

/-- C29 at the 2x2 sample image, pixel (1, 1), the last one of the buffer. -/
theorem draw_single_pixel_in_bounds_witness :
    ((1 ≤ sample_image.width ∧ 1 ≤ sample_image.height ∧ sample_image.channels = 4) ∧
      (sample_image.pixels.length : Int)
        = sample_image.width * sample_image.height * sample_image.channels ∧
      sample_image.get_index_from_coords 1 1 + 3 = 15) ∧
    (
      (∀ idx : Int, (sample_image.read_byte_checked idx).isSome = true ↔
        0 ≤ idx ∧ idx < sample_image.width * sample_image.height * sample_image.channels) ∧
      (∀ (pixels : List Nat) (idx value : Int), pixels.length = sample_image.pixels.length →
        ((BasicImage.write_byte_checked pixels idx value).isSome = true ↔
          0 ≤ idx ∧ idx < sample_image.width * sample_image.height * sample_image.channels)) ∧
      sample_image.draw_single_pixel_checked (1 : Int) (1 : Int) (square_brush : BasicBrush ℚ) = some (sample_image.draw_single_pixel (1 : Int) (1 : Int) (square_brush : BasicBrush ℚ)) ∧
      (sample_image.draw_single_pixel (1 : Int) (1 : Int) (square_brush : BasicBrush ℚ)).pixels.length = sample_image.pixels.length ∧
      (0 ≤ (1 : Int) ∧ (1 : Int) ≤ sample_image.width - 1 ∧ 0 ≤ (1 : Int) ∧ (1 : Int) ≤ sample_image.height - 1 →
        sample_image.get_color_at_checked (1 : Int) (1 : Int) = some (sample_image.get_color_at (1 : Int) (1 : Int)))) :=
  ⟨⟨⟨by decide, by decide, rfl⟩, by decide, by decide⟩,
   draw_single_pixel_in_bounds sample_image 1 1 square_brush (by decide) (by decide)
    (Or.inr rfl) (by decide)⟩

/-- C30 (the code differs): on the sample image, whose bytes are all 7,
`get_color_at` gives the colour `(7, 7, 7, 7)` (the bytes are not divided by
255); with the brush colour `(0, 0, 0, 0)` the blend is that colour, every
channel is above 1 and is written as 255: the four bytes of pixel (0, 0) change
from 7 to 255. -/
theorem transparent_brush_saturates_pixel :
    sample_image.get_color_at 0 0 = { r := 7, g := 7, b := 7, a := 7 } ∧
    blend_two_colors ({ r := 0, g := 0, b := 0, a := 0 } : BasicColor ℚ) BasicColor.over_ID
        (sample_image.get_color_at 0 0) = { r := 7, g := 7, b := 7, a := 7 } ∧
    (sample_image.draw_single_pixel 0 0
        { color := { r := 0, g := 0, b := 0, a := 0 }, tip_width := 1,
          tip_shape := BasicBrush.ROUND_TIP_SHAPE }).pixels
      = [255, 255, 255, 255, 7, 7, 7, 7, 7, 7, 7, 7, 7, 7, 7, 7] ∧
    (sample_image.draw_single_pixel 0 0
        { color := { r := 0, g := 0, b := 0, a := 0 }, tip_width := 1,
          tip_shape := BasicBrush.ROUND_TIP_SHAPE }).pixels ≠ sample_image.pixels := by
  have hpix : sample_image.pixels = [7, 7, 7, 7, 7, 7, 7, 7, 7, 7, 7, 7, 7, 7, 7, 7] := by decide
  have hidx : sample_image.get_index_from_coords 0 0 = 0 := by decide
  have hcol : sample_image.get_color_at 0 0 = { r := 7, g := 7, b := 7, a := 7 } := by
    simp only [BasicImage.get_color_at, hidx, BasicImage.read_byte, hpix]
    simp [sample_image]
  have hblend : blend_two_colors ({ r := 0, g := 0, b := 0, a := 0 } : BasicColor ℚ)
      BasicColor.over_ID (sample_image.get_color_at 0 0) = { r := 7, g := 7, b := 7, a := 7 } := by
    rw [hcol]
    simp [blend_two_colors, BasicColor.over_ID, BasicColor.plus_ID, BasicColor.minus_ID,
      BasicColor.multiply_ID, BasicColor.over]
  have hq : (({ r := 7, g := 7, b := 7, a := 7 } : BasicColor ℚ).r255 = 255) ∧
      (({ r := 7, g := 7, b := 7, a := 7 } : BasicColor ℚ).g255 = 255) ∧
      (({ r := 7, g := 7, b := 7, a := 7 } : BasicColor ℚ).b255 = 255) ∧
      (({ r := 7, g := 7, b := 7, a := 7 } : BasicColor ℚ).a255 = 255) := by
    refine ⟨?_, ?_, ?_, ?_⟩ <;>
      norm_num [BasicColor.r255, BasicColor.g255, BasicColor.b255, BasicColor.a255]
  have hdraw : (sample_image.draw_single_pixel 0 0
        { color := { r := 0, g := 0, b := 0, a := 0 }, tip_width := 1,
          tip_shape := BasicBrush.ROUND_TIP_SHAPE }).pixels
      = [255, 255, 255, 255, 7, 7, 7, 7, 7, 7, 7, 7, 7, 7, 7, 7] := by
    have hguard : ¬ (sample_image.get_index_from_coords 0 0 < 0 ∨
        sample_image.get_index_from_coords 0 0 ≥ sample_image.max_index ∨ (0 : Int) < 0 ∨
        (0 : Int) > sample_image.width - 1 ∨ (0 : Int) < 0 ∨ (0 : Int) > sample_image.height - 1) := by
      decide
    unfold BasicImage.draw_single_pixel
    simp only [if_neg hguard, hblend, hq.1, hq.2.1, hq.2.2.1, hq.2.2.2, hidx, hpix]
    simp [BasicImage.write_byte, sample_image]
  refine ⟨hcol, hblend, hdraw, ?_⟩
  rw [hdraw, hpix]
  decide

/-! ### C31: the depth of a vertex after the auto-fit -/

/-- A coordinate between two bounds, in either order, is bounded in absolute value
by a bound of the two. -/
theorem abs_le_of_between (a b p M : ℝ) (ha : |a| ≤ M) (hb : |b| ≤ M)
    (hp : (a ≤ p ∧ p ≤ b) ∨ (b ≤ p ∧ p ≤ a)) : |p| ≤ M := by
  rw [abs_le] at ha hb ⊢
  rcases hp with ⟨h1, h2⟩ | ⟨h1, h2⟩
  · exact ⟨by linarith, by linarith⟩
  · exact ⟨by linarith, by linarith⟩

/-- The depth of a rotated point whose `x` and `z` are bounded by `M`, with the
offset `3 M`, is at least `M`. -/
theorem depth_lower_bound (c s x z M : ℝ) (hcs : c ^ 2 + s ^ 2 = 1) (hx : |x| ≤ M) (hz : |z| ≤ M) :
    M ≤ |(-s * x + c * z) - M * 3.0| := by
  have hc1 : |c| ≤ 1 := abs_le_one_iff_mul_self_le_one.mpr (by nlinarith [sq_nonneg s])
  have hs1 : |s| ≤ 1 := abs_le_one_iff_mul_self_le_one.mpr (by nlinarith [sq_nonneg c])
  have hM : 0 ≤ M := le_trans (abs_nonneg x) hx
  have h1 : |s * x| ≤ M := by
    rw [abs_mul]
    calc |s| * |x| ≤ 1 * M := mul_le_mul hs1 hx (abs_nonneg x) (by norm_num)
      _ = M := one_mul M
  have h2 : |c * z| ≤ M := by
    rw [abs_mul]
    calc |c| * |z| ≤ 1 * M := mul_le_mul hc1 hz (abs_nonneg z) (by norm_num)
      _ = M := one_mul M
  rw [abs_le] at h1 h2
  rw [le_abs]
  right
  norm_num
  linarith [h1.1, h1.2, h2.1, h2.2]

/-- The offset set by `estimate_obj_drawing_params` is three times a bound of the
four absolute `x` and `z` coordinates of the two corners. -/
theorem estimate_z_offset_bounds {K : Type} [LinearOrderedField K] [FloorRing K] (m : Libm K)
    (img : BasicImage K) (obj : ObjReader K) :
    ∃ M : K, (BasicImage.estimate_obj_drawing_params m img obj).z_offset = M * 3.0 ∧
      (BasicImage.estimate_obj_drawing_params m img obj).projection_distance = M * 3.0 * 1.5 ∧
      |obj.bounding_box.top_left.x| ≤ M ∧ |obj.bounding_box.top_left.z| ≤ M ∧
      |obj.bounding_box.bottom_right.x| ≤ M ∧ |obj.bounding_box.bottom_right.z| ≤ M := by
  refine ⟨_, rfl, rfl, ?_, ?_, ?_, ?_⟩ <;>
  · apply (max_list_spec _ _).2
    simp

/-- C31: when a corner of the bounding box has a non-zero `x` or `z`, then after
`estimate_obj_drawing_params` the offset is positive, and for every point between
the corners of the box, turned by any angle about `Vect3::YAxis`, the depth
`abs(z - z_offset)` of `draw_edge` is positive (at least a third of the offset),
so the quotient `projection_distance / depth` is an ordinary finite quotient in
both projected coordinates. -/
theorem autofit_depth_positive (img : BasicImage ℝ) (obj : ObjReader ℝ) (p : Vect3 ℝ) (theta : ℝ)
    (hcorner : obj.bounding_box.top_left.x ≠ 0 ∨ obj.bounding_box.top_left.z ≠ 0 ∨
      obj.bounding_box.bottom_right.x ≠ 0 ∨ obj.bounding_box.bottom_right.z ≠ 0)
    (hp : obj.bounding_box.spans p) :
    0 < (BasicImage.estimate_obj_drawing_params realLibm img obj).z_offset ∧
    0 < (BasicImage.estimate_obj_drawing_params realLibm img obj).draw_edge_depth
          (mult_matrix_by_vector3 (Matrix3by3.RotationMatrix realLibm theta Vect3.YAxis) p) ∧
    (BasicImage.estimate_obj_drawing_params realLibm img obj).z_offset / 3
      ≤ (BasicImage.estimate_obj_drawing_params realLibm img obj).draw_edge_depth
          (mult_matrix_by_vector3 (Matrix3by3.RotationMatrix realLibm theta Vect3.YAxis) p) ∧
    Dbl.div (Dbl.fin (BasicImage.estimate_obj_drawing_params realLibm img obj).projection_distance)
        (Dbl.fin ((BasicImage.estimate_obj_drawing_params realLibm img obj).draw_edge_depth
          (mult_matrix_by_vector3 (Matrix3by3.RotationMatrix realLibm theta Vect3.YAxis) p)))
      = Dbl.fin ((BasicImage.estimate_obj_drawing_params realLibm img obj).projection_distance
          / (BasicImage.estimate_obj_drawing_params realLibm img obj).draw_edge_depth
              (mult_matrix_by_vector3 (Matrix3by3.RotationMatrix realLibm theta Vect3.YAxis) p)) ∧
    (BasicImage.estimate_obj_drawing_params realLibm img obj).draw_edge_flat
        (mult_matrix_by_vector3 (Matrix3by3.RotationMatrix realLibm theta Vect3.YAxis) p)
      = (Dbl.mul (Dbl.mul
            (Dbl.fin ((BasicImage.estimate_obj_drawing_params realLibm img obj).projection_distance
              / (BasicImage.estimate_obj_drawing_params realLibm img obj).draw_edge_depth
                  (mult_matrix_by_vector3
                    (Matrix3by3.RotationMatrix realLibm theta Vect3.YAxis) p)))
            (Dbl.fin (mult_matrix_by_vector3
              (Matrix3by3.RotationMatrix realLibm theta Vect3.YAxis) p).x))
          (BasicImage.estimate_obj_drawing_params realLibm img obj).obj_drawing_scale,
         Dbl.mul (Dbl.mul
            (Dbl.fin ((BasicImage.estimate_obj_drawing_params realLibm img obj).projection_distance
              / (BasicImage.estimate_obj_drawing_params realLibm img obj).draw_edge_depth
                  (mult_matrix_by_vector3
                    (Matrix3by3.RotationMatrix realLibm theta Vect3.YAxis) p)))
            (Dbl.fin (mult_matrix_by_vector3
              (Matrix3by3.RotationMatrix realLibm theta Vect3.YAxis) p).y))
          (BasicImage.estimate_obj_drawing_params realLibm img obj).obj_drawing_scale) := by
  obtain ⟨M, hz, _, h1, h2, h3, h4⟩ := estimate_z_offset_bounds realLibm img obj
  have hM : 0 < M := by
    rcases hcorner with h | h | h | h
    · exact lt_of_lt_of_le (abs_pos.mpr h) h1
    · exact lt_of_lt_of_le (abs_pos.mpr h) h2
    · exact lt_of_lt_of_le (abs_pos.mpr h) h3
    · exact lt_of_lt_of_le (abs_pos.mpr h) h4
  have hx : |p.x| ≤ M := abs_le_of_between _ _ _ _ h1 h3 hp.1
  have hpz : |p.z| ≤ M := abs_le_of_between _ _ _ _ h2 h4 hp.2.2
  have hdepth : M ≤ (BasicImage.estimate_obj_drawing_params realLibm img obj).draw_edge_depth
      (mult_matrix_by_vector3 (Matrix3by3.RotationMatrix realLibm theta Vect3.YAxis) p) := by
    rw [BasicImage.draw_edge_depth, hz, real_rotation_YAxis]
    exact depth_lower_bound _ _ _ _ _ (Real.cos_sq_add_sin_sq _) hx hpz
  have hpos := lt_of_lt_of_le hM hdepth
  have hdiv : Dbl.div
      (Dbl.fin (BasicImage.estimate_obj_drawing_params realLibm img obj).projection_distance)
      (Dbl.fin ((BasicImage.estimate_obj_drawing_params realLibm img obj).draw_edge_depth
        (mult_matrix_by_vector3 (Matrix3by3.RotationMatrix realLibm theta Vect3.YAxis) p)))
      = Dbl.fin ((BasicImage.estimate_obj_drawing_params realLibm img obj).projection_distance
          / (BasicImage.estimate_obj_drawing_params realLibm img obj).draw_edge_depth
              (mult_matrix_by_vector3 (Matrix3by3.RotationMatrix realLibm theta Vect3.YAxis) p)) := by
    simp only [Dbl.div, if_neg (ne_of_gt hpos)]
  refine ⟨?_, hpos, ?_, hdiv, ?_⟩
  · rw [hz]
    linarith
  · rw [hz]
    have : M * 3.0 / 3 = M := by norm_num
    rw [this]
    exact hdepth
  · rw [← hdiv]
    rfl

/-- C31 at the unit cube, for its top-left corner turned by 30 degrees. -/
theorem autofit_depth_positive_witness :
    ((unit_cube_mesh : ObjReader ℝ).bounding_box.top_left.x ≠ 0 ∧
      (unit_cube_mesh : ObjReader ℝ).bounding_box.spans (unit_cube_top_left : Vect3 ℝ)) ∧
    (
      0 < (BasicImage.estimate_obj_drawing_params realLibm (BasicImage.HD_1080 : BasicImage ℝ) (unit_cube_mesh : ObjReader ℝ)).z_offset ∧
      0 < (BasicImage.estimate_obj_drawing_params realLibm (BasicImage.HD_1080 : BasicImage ℝ) (unit_cube_mesh : ObjReader ℝ)).draw_edge_depth
            (mult_matrix_by_vector3 (Matrix3by3.RotationMatrix realLibm (30 : ℝ) Vect3.YAxis) (unit_cube_top_left : Vect3 ℝ)) ∧
      (BasicImage.estimate_obj_drawing_params realLibm (BasicImage.HD_1080 : BasicImage ℝ) (unit_cube_mesh : ObjReader ℝ)).z_offset / 3
        ≤ (BasicImage.estimate_obj_drawing_params realLibm (BasicImage.HD_1080 : BasicImage ℝ) (unit_cube_mesh : ObjReader ℝ)).draw_edge_depth
            (mult_matrix_by_vector3 (Matrix3by3.RotationMatrix realLibm (30 : ℝ) Vect3.YAxis) (unit_cube_top_left : Vect3 ℝ)) ∧
      Dbl.div (Dbl.fin (BasicImage.estimate_obj_drawing_params realLibm (BasicImage.HD_1080 : BasicImage ℝ) (unit_cube_mesh : ObjReader ℝ)).projection_distance)
          (Dbl.fin ((BasicImage.estimate_obj_drawing_params realLibm (BasicImage.HD_1080 : BasicImage ℝ) (unit_cube_mesh : ObjReader ℝ)).draw_edge_depth
            (mult_matrix_by_vector3 (Matrix3by3.RotationMatrix realLibm (30 : ℝ) Vect3.YAxis) (unit_cube_top_left : Vect3 ℝ))))
        = Dbl.fin ((BasicImage.estimate_obj_drawing_params realLibm (BasicImage.HD_1080 : BasicImage ℝ) (unit_cube_mesh : ObjReader ℝ)).projection_distance
            / (BasicImage.estimate_obj_drawing_params realLibm (BasicImage.HD_1080 : BasicImage ℝ) (unit_cube_mesh : ObjReader ℝ)).draw_edge_depth
                (mult_matrix_by_vector3 (Matrix3by3.RotationMatrix realLibm (30 : ℝ) Vect3.YAxis) (unit_cube_top_left : Vect3 ℝ))) ∧
      (BasicImage.estimate_obj_drawing_params realLibm (BasicImage.HD_1080 : BasicImage ℝ) (unit_cube_mesh : ObjReader ℝ)).draw_edge_flat
          (mult_matrix_by_vector3 (Matrix3by3.RotationMatrix realLibm (30 : ℝ) Vect3.YAxis) (unit_cube_top_left : Vect3 ℝ))
        = (Dbl.mul (Dbl.mul
              (Dbl.fin ((BasicImage.estimate_obj_drawing_params realLibm (BasicImage.HD_1080 : BasicImage ℝ) (unit_cube_mesh : ObjReader ℝ)).projection_distance
                / (BasicImage.estimate_obj_drawing_params realLibm (BasicImage.HD_1080 : BasicImage ℝ) (unit_cube_mesh : ObjReader ℝ)).draw_edge_depth
                    (mult_matrix_by_vector3
                      (Matrix3by3.RotationMatrix realLibm (30 : ℝ) Vect3.YAxis) (unit_cube_top_left : Vect3 ℝ))))
              (Dbl.fin (mult_matrix_by_vector3
                (Matrix3by3.RotationMatrix realLibm (30 : ℝ) Vect3.YAxis) (unit_cube_top_left : Vect3 ℝ)).x))
            (BasicImage.estimate_obj_drawing_params realLibm (BasicImage.HD_1080 : BasicImage ℝ) (unit_cube_mesh : ObjReader ℝ)).obj_drawing_scale,
           Dbl.mul (Dbl.mul
              (Dbl.fin ((BasicImage.estimate_obj_drawing_params realLibm (BasicImage.HD_1080 : BasicImage ℝ) (unit_cube_mesh : ObjReader ℝ)).projection_distance
                / (BasicImage.estimate_obj_drawing_params realLibm (BasicImage.HD_1080 : BasicImage ℝ) (unit_cube_mesh : ObjReader ℝ)).draw_edge_depth
                    (mult_matrix_by_vector3
                      (Matrix3by3.RotationMatrix realLibm (30 : ℝ) Vect3.YAxis) (unit_cube_top_left : Vect3 ℝ))))
              (Dbl.fin (mult_matrix_by_vector3
                (Matrix3by3.RotationMatrix realLibm (30 : ℝ) Vect3.YAxis) (unit_cube_top_left : Vect3 ℝ)).y))
            (BasicImage.estimate_obj_drawing_params realLibm (BasicImage.HD_1080 : BasicImage ℝ) (unit_cube_mesh : ObjReader ℝ)).obj_drawing_scale)) :=
  ⟨⟨by norm_num [unit_cube_mesh, Cube.create, Cube.create_faces, unit_cube_top_left],
    by norm_num [Cube.spans, unit_cube_mesh, Cube.create, Cube.create_faces, unit_cube_top_left,
      unit_cube_bottom_right]⟩,
   autofit_depth_positive BasicImage.HD_1080 unit_cube_mesh unit_cube_top_left 30
    (Or.inl (by norm_num [unit_cube_mesh, Cube.create, Cube.create_faces, unit_cube_top_left]))
    (by norm_num [Cube.spans, unit_cube_mesh, Cube.create, Cube.create_faces, unit_cube_top_left,
      unit_cube_bottom_right])⟩

/-! ### C32: the samples of `draw_solid_line` -/

/-- C33: for every angle and every vector the product with
`RotationMatrix(theta, Vect3::YAxis)` keeps `y` and `x*x + z*z`; hence
`Edge::rotate_around_axis` about the Y axis keeps the length of every edge and
the distance of both of its vertices from the Y axis. -/
theorem turntable_rotation_rigid (theta : ℝ) (v : Vect3 ℝ) (e : Edge ℝ) :
    (mult_matrix_by_vector3 (Matrix3by3.RotationMatrix realLibm theta Vect3.YAxis) v).y = v.y ∧
    (mult_matrix_by_vector3 (Matrix3by3.RotationMatrix realLibm theta Vect3.YAxis) v).x
        * (mult_matrix_by_vector3 (Matrix3by3.RotationMatrix realLibm theta Vect3.YAxis) v).x
      + (mult_matrix_by_vector3 (Matrix3by3.RotationMatrix realLibm theta Vect3.YAxis) v).z
        * (mult_matrix_by_vector3 (Matrix3by3.RotationMatrix realLibm theta Vect3.YAxis) v).z
      = v.x * v.x + v.z * v.z ∧
    (e.rotate_around_axis realLibm theta Vect3.YAxis).get_lenght realLibm
      = e.get_lenght realLibm ∧
    (e.rotate_around_axis realLibm theta Vect3.YAxis).origin_vtx.get_distance realLibm
        { x := 0, y := (e.rotate_around_axis realLibm theta Vect3.YAxis).origin_vtx.y, z := 0 }
      = e.origin_vtx.get_distance realLibm { x := 0, y := e.origin_vtx.y, z := 0 } ∧
    (e.rotate_around_axis realLibm theta Vect3.YAxis).end_vtx.get_distance realLibm
        { x := 0, y := (e.rotate_around_axis realLibm theta Vect3.YAxis).end_vtx.y, z := 0 }
      = e.end_vtx.get_distance realLibm { x := 0, y := e.end_vtx.y, z := 0 } := by
  have hcs := Real.cos_sq_add_sin_sq (theta * Real.pi / 180)
  have hsq : ∀ a b : ℝ,
      (Real.cos (theta * Real.pi / 180) * a + Real.sin (theta * Real.pi / 180) * b) ^ 2
        + (-(Real.sin (theta * Real.pi / 180)) * a + Real.cos (theta * Real.pi / 180) * b) ^ 2
      = a ^ 2 + b ^ 2 := by
    intro a b
    linear_combination (a ^ 2 + b ^ 2) * hcs
  refine ⟨?_, ?_, ?_, ?_, ?_⟩
  · rw [real_rotation_YAxis]
  · rw [real_rotation_YAxis]
    simp only
    linear_combination hsq v.x v.z
  · simp only [Edge.get_lenght, Edge.rotate_around_axis, real_rotation_YAxis]
    simp only [Vect3.get_distance, realLibm]
    congr 1
    linear_combination hsq (e.end_vtx.x - e.origin_vtx.x) (e.end_vtx.z - e.origin_vtx.z)
  · simp only [Edge.rotate_around_axis, real_rotation_YAxis]
    simp only [Vect3.get_distance, realLibm]
    congr 1
    linear_combination hsq e.origin_vtx.x e.origin_vtx.z
  · simp only [Edge.rotate_around_axis, real_rotation_YAxis]
    simp only [Vect3.get_distance, realLibm]
    congr 1
    linear_combination hsq e.end_vtx.x e.end_vtx.z

end ObjRenderer
